import Mathlib

/-!
Logistic regression aggregates (`modules/regress/logistic.cpp`).

A shallow embedding of the conjugate-gradient (CG) and the
iteratively-reweighted-least-squares (IRLS) aggregates.

* A transition state is the flat `DOUBLE PRECISION` array `mStorage`, modelled as a
  `List F` over a scalar type `F` that stands for `double`.
* The `State` classes are views on that array: every field is read and written at the
  offset the constructor computes from `widthOfX`.  The accessors below take the width the
  view was bound with as the explicit argument `w`.
* Exceptions and undefined behaviour are results of type `Except Error`.
* The scalar fields are `utils::Reference<double, U>` objects, whose class is declared in
  `utils/Reference.hpp`, outside this source file.  Reading one converts the stored `double`
  to the unsigned type `U` (`Prim.toNat`); `=`, `+=` and `++` act on the stored `double`.
* The source's `initialize` is named `init` here.
* The index of `logLikelihood` is an `int` expression of `uint16_t` operands in the source.
  It overflows from the width 46339 (CG) and 46340 (IRLS); `logLikelihoodIndex` gives its
  value, `init` returns no state for the widths where it has none, and the accessors use
  the offset as a natural number, which is that value for the widths below.
-/

set_option linter.unusedSectionVars false
set_option linter.unusedTactic false
set_option linter.unreachableTactic false
set_option linter.unnecessarySeqFocus false
set_option linter.unusedVariables false

namespace madlib.modules.regress

/-- Failures of an aggregate call. -/
inductive Error where
  /-- A `std::logic_error` with its message. -/
  | logic_error (msg : String)
  /-- A `std::invalid_argument` with its message. -/
  | invalid_argument (msg : String)
  /-- An access outside the allocated storage or an assignment between arrays of different
  shape: undefined behaviour in C++. -/
  | undefined_behaviour (msg : String)
  deriving DecidableEq, Repr

/-- Results of aggregate calls can be compared. -/
instance decEqExcept {ε α : Type} [DecidableEq ε] [DecidableEq α] : DecidableEq (Except ε α)
  | .ok a, .ok b =>
    if h : a = b then isTrue (by rw [h]) else isFalse (by intro e; cases e; exact h rfl)
  | .error a, .error b =>
    if h : a = b then isTrue (by rw [h]) else isFalse (by intro e; cases e; exact h rfl)
  | .ok _, .error _ => isFalse (by intro e; cases e)
  | .error _, .ok _ => isFalse (by intro e; cases e)

/-- Library functions on `double` that the module calls: `std::exp`, `std::log`,
`boost::math::isfinite`, `std::sqrt`, `std::abs`, the standard normal CDF of
`boost::math`, the Armadillo pseudo-inverse `pinv` (on a column-major `w * w` array) and
the conversion of a `double` to an unsigned integer type. -/
structure Prim (F : Type) where
  /-- The function `std::exp`. -/
  exp : F → F
  /-- The function `std::log`. -/
  log : F → F
  /-- The conversion `static_cast<U>(double)` for an unsigned integer type `U`. -/
  toNat : F → ℕ
  /-- The test `boost::math::isfinite`. -/
  isFinite : F → Bool
  /-- The function `std::sqrt`. -/
  sqrt : F → F
  /-- The function `std::abs`. -/
  abs : F → F
  /-- The CDF of `boost::math::normal()`. -/
  normalCdf : F → F
  /-- The function `arma::pinv` on a `w` by `w` matrix stored column by column. -/
  pinv : ℕ → List F → List F

section Defs

variable {F : Type} [Zero F] [One F] [Add F] [Sub F] [Mul F] [Div F] [Neg F] [NatCast F]

/-! ## Vectors and matrices (Armadillo) -/

/-- The elements `off, ..., off + len - 1` of an array: the memory a vector or matrix handle
created at `&mStorage[off]` with `len` elements refers to. -/
def slice (buf : List F) (off len : ℕ) : List F :=
  (buf.drop off).take len

/-- Writing the elements of `v` to the positions `off, off + 1, ...` of an array. -/
def setSlice : List F → ℕ → List F → List F
  | buf, _, [] => buf
  | buf, off, a :: v => setSlice (buf.set off a) (off + 1) v

/-- The vector of `n` zeros (`zeros()`). -/
def zeros (n : ℕ) : List F :=
  List.replicate n 0

/-- The function `arma::dot`, also `as_scalar(x * c)` for a row `x` and a column `c`. -/
def dot (a b : List F) : F :=
  (List.zipWith (fun p q => p * q) a b).sum

/-- Element-wise sum of two vectors or matrices. -/
def vadd (a b : List F) : List F :=
  List.zipWith (fun p q => p + q) a b

/-- Element-wise difference of two vectors. -/
def vsub (a b : List F) : List F :=
  List.zipWith (fun p q => p - q) a b

/-- The product `c * v` of a scalar and a vector. -/
def smul (c : F) (v : List F) : List F :=
  v.map (fun p => c * p)

/-- The matrix `trans(x) * a * x`, column by column: entry `(i, j)` is `x i * a * x j`. -/
def outer (a : F) (x : List F) : List F :=
  x.flatMap (fun xj => x.map (fun xi => xi * a * xj))

/-- Column `j` of a `w` by `w` matrix stored column by column. -/
def col (w : ℕ) (M : List F) (j : ℕ) : List F :=
  slice M (j * w) w

/-- The row vector `trans(v) * M` for a `w` by `w` matrix `M`. -/
def vecMat (w : ℕ) (v M : List F) : List F :=
  (List.range w).map (fun j => dot v (col w M j))

/-- The matrix-vector product `M * v` for a `w` by `w` matrix `M`. -/
def matVec (w : ℕ) (M v : List F) : List F :=
  (List.range w).map (fun i => dot ((List.range w).map (fun j => M.getD (i + j * w) 0)) v)

/-- The scalar `as_scalar(trans(d) * M * d)`. -/
def quadForm (w : ℕ) (M d : List F) : F :=
  dot (vecMat w d M) d

/-- A `w` by `w` matrix stored column by column is symmetric positive-semidefinite:
`M = trans(M)` and `trans(v) * M * v >= 0` for every vector `v` of `w` elements. -/
def IsSymmPSD [LE F] (w : ℕ) (M : List F) : Prop :=
  (∀ i j, i < w → j < w → M.getD (i + j * w) 0 = M.getD (j + i * w) 0) ∧
    ∀ v : List F, v.length = w → 0 ≤ quadForm w M v

/-- The logistic function. -/
def sigma (P : Prim F) (x : F) : F :=
  1 / (1 + P.exp (-x))

/-- The value of an index expression of the source whose operands are `uint16_t` values
promoted to `int` (32 bits), given its mathematical value `n`: it is `n` when `n` is at most
`INT_MAX`, and there is no value otherwise, since signed overflow is undefined behaviour. -/
def intIndex (n : ℕ) : Option ℕ :=
  if n < 2 ^ 31 then some n else none

/-! ## Conjugate-gradient state -/

namespace LogisticRegressionCG

namespace State

/-- The function `arraySize`: its result type is `uint32_t`. -/
def arraySize (inWidthOfX : ℕ) : ℕ :=
  (5 + inWidthOfX * inWidthOfX + 4 * inWidthOfX) % 2 ^ 32

/-- The number of array elements the layout for width `w` occupies. -/
def total (w : ℕ) : ℕ :=
  5 + w * w + 4 * w

/-- Field `iteration` at `&mStorage[0]`, read as `uint32_t`. -/
def iteration (P : Prim F) (m : List F) : ℕ :=
  P.toNat (m.getD 0 0)

/-- Field `widthOfX` at `&mStorage[1]`, read as `uint16_t`. -/
def widthOfX (P : Prim F) (m : List F) : ℕ :=
  P.toNat (m.getD 1 0)

/-- Field `coef` at `&mStorage[2]`. -/
def coef (w : ℕ) (m : List F) : List F :=
  slice m 2 w

/-- Field `dir` at `&mStorage[2 + widthOfX]`. -/
def dir (w : ℕ) (m : List F) : List F :=
  slice m (2 + w) w

/-- Field `grad` at `&mStorage[2 + 2 * widthOfX]`. -/
def grad (w : ℕ) (m : List F) : List F :=
  slice m (2 + 2 * w) w

/-- Field `beta` at `&mStorage[2 + 3 * widthOfX]`. -/
def beta (w : ℕ) (m : List F) : F :=
  m.getD (2 + 3 * w) 0

/-- Field `numRows` at `&mStorage[3 + 3 * widthOfX]`, read as `uint64_t`. -/
def numRows (P : Prim F) (w : ℕ) (m : List F) : ℕ :=
  P.toNat (m.getD (3 + 3 * w) 0)

/-- Field `gradNew` at `&mStorage[4 + 3 * widthOfX]`. -/
def gradNew (w : ℕ) (m : List F) : List F :=
  slice m (4 + 3 * w) w

/-- Field `X_transp_AX` at `&mStorage[4 + 4 * widthOfX]`. -/
def X_transp_AX (w : ℕ) (m : List F) : List F :=
  slice m (4 + 4 * w) (w * w)

/-- The index `4 + widthOfX * widthOfX + 4 * widthOfX` at which the `State` constructor
and `initialize` bind `logLikelihood`, as the source computes it: in `int`.  It has a value
exactly for the widths up to 46338. -/
def logLikelihoodIndex (w : ℕ) : Option ℕ :=
  intIndex (4 + w * w + 4 * w)

/-- Field `logLikelihood` at `&mStorage[4 + widthOfX * widthOfX + 4 * widthOfX]`.  The
offset is the value of `logLikelihoodIndex` for the widths where the `int` expression of
the source has one. -/
def logLikelihood (w : ℕ) (m : List F) : F :=
  m.getD (4 + w * w + 4 * w) 0

/-- The function `reset`: zero the intra-iteration fields. -/
def reset (w : ℕ) (m : List F) : List F :=
  let m := m.set (3 + 3 * w) 0
  let m := setSlice m (4 + 4 * w) (zeros (w * w))
  let m := setSlice m (4 + 3 * w) (zeros w)
  m.set (4 + w * w + 4 * w) 0

/-- The function `initialize` of the source: allocate `arraySize inWidthOfX` zeroed
doubles, bind the fields and set them.  When the allocation is shorter than the layout the
writes leave the storage, and when the `int` index of `logLikelihood` overflows the field is
bound nowhere in the storage: both are reported as undefined behaviour.  A state is returned
for the widths up to 46338. -/
def init (inWidthOfX : ℕ) : Except Error (List F) :=
  if arraySize inWidthOfX < total inWidthOfX then
    .error (.undefined_behaviour "state layout exceeds the allocated storage")
  else if logLikelihoodIndex inWidthOfX = none then
    .error (.undefined_behaviour "signed overflow in the index of logLikelihood")
  else
    let m : List F := List.replicate (arraySize inWidthOfX) 0
    let m := m.set 0 0
    let m := m.set 1 (inWidthOfX : F)
    let m := setSlice m 2 (zeros inWidthOfX)
    let m := setSlice m (2 + inWidthOfX) (zeros inWidthOfX)
    let m := setSlice m (2 + 2 * inWidthOfX) (zeros inWidthOfX)
    let m := m.set (2 + 3 * inWidthOfX) 0
    .ok (reset inWidthOfX m)

/-- Modelled from the spec: `State::operator=` assigns `mStorage`, whose class `Array` is
not part of the source file.  The previous state is copied into the storage the fields are
bound to, which keeps its shape; arrays of different length cannot be assigned. -/
def assign (m other : List F) : Except Error (List F) :=
  if m.length = other.length then .ok other
  else .error (.undefined_behaviour "assignment between arrays of different shape")

/-- The operator `+=`: add the intra-iteration fields of the other state. -/
def plusAssign (P : Prim F) (w : ℕ) (m : List F) (wOther : ℕ) (other : List F) :
    Except Error (List F) :=
  if m.length ≠ other.length ∨ widthOfX P m ≠ widthOfX P other then
    .error (.logic_error "Internal error: Incompatible transition states")
  else
    let m := m.set (3 + 3 * w) (m.getD (3 + 3 * w) 0 + ((numRows P wOther other : ℕ) : F))
    let m := setSlice m (4 + 3 * w) (vadd (gradNew w m) (gradNew wOther other))
    let m := setSlice m (4 + 4 * w) (vadd (X_transp_AX w m) (X_transp_AX wOther other))
    .ok (m.set (4 + w * w + 4 * w) (logLikelihood w m + logLikelihood wOther other))

end State

/-- The fields of a CG state as values, in the order of the array layout. -/
structure Fields (F : Type) where
  /-- Element 0. -/
  iteration : F
  /-- Element 1. -/
  widthOfX : F
  /-- Elements from 2. -/
  coef : List F
  /-- Elements from `2 + widthOfX`. -/
  dir : List F
  /-- Elements from `2 + 2 * widthOfX`. -/
  grad : List F
  /-- Element `2 + 3 * widthOfX`. -/
  beta : F
  /-- Element `3 + 3 * widthOfX`. -/
  numRows : F
  /-- Elements from `4 + 3 * widthOfX`. -/
  gradNew : List F
  /-- Elements from `4 + 4 * widthOfX`. -/
  X_transp_AX : List F
  /-- Element `4 + widthOfX * widthOfX + 4 * widthOfX`. -/
  logLikelihood : F

/-- The array that holds the given fields one after the other, in the documented order. -/
def Fields.toArray (f : Fields F) : List F :=
  f.iteration :: f.widthOfX :: (f.coef ++ (f.dir ++ (f.grad ++ (f.beta :: f.numRows ::
    (f.gradNew ++ (f.X_transp_AX ++ [f.logLikelihood]))))))

/-- The vector fields have `w` elements and the matrix has `w * w`. -/
def Fields.Sized (w : ℕ) (f : Fields F) : Prop :=
  f.coef.length = w ∧ f.dir.length = w ∧ f.grad.length = w ∧ f.gradNew.length = w ∧
    f.X_transp_AX.length = w * w

/-- The fields that the view of width `w` reads from an array. -/
def State.fields (w : ℕ) (m : List F) : Fields F where
  iteration := m.getD 0 0
  widthOfX := m.getD 1 0
  coef := State.coef w m
  dir := State.dir w m
  grad := State.grad w m
  beta := State.beta w m
  numRows := m.getD (3 + 3 * w) 0
  gradNew := State.gradNew w m
  X_transp_AX := State.X_transp_AX w m
  logLikelihood := State.logLikelihood w m

/-- The first lines of `transition` (the branch `state.numRows == 0`): a fresh state is
initialized with the width of the row, narrowed to the parameter type `uint16_t`, and takes
over the previous state when one is supplied.  The result is the width the fields are bound
with and the storage. -/
def transitionInit (P : Prim F) (state : List F) (x : List F)
    (previousState : Option (List F)) : Except Error (ℕ × List F) :=
  if State.numRows P (State.widthOfX P state) state = 0 then
    match State.init (x.length % 2 ^ 16), previousState with
    | .error e, _ => .error e
    | .ok m, none => .ok (x.length % 2 ^ 16, m)
    | .ok m, some previous =>
      match State.assign m previous with
      | .error e => .error e
      | .ok m => .ok (x.length % 2 ^ 16, State.reset (x.length % 2 ^ 16) m)
  else .ok (State.widthOfX P state, state)

/-- The lines of `transition` after the comment "Now do the transition step".  The product
`x * state.coef` of a row of `x.length` elements and a column of `w` elements raises when
the two numbers differ.  The value `xd = x * state.dir` of the source is never used. -/
def transitionStep (P : Prim F) (w : ℕ) (m : List F) (y : F) (x : List F) :
    Except Error (List F) :=
  let m := m.set (3 + 3 * w) (m.getD (3 + 3 * w) 0 + 1)
  if x.length ≠ w then
    .error (.logic_error "matrix multiplication: incompatible matrix dimensions")
  else
    let xc := dot x (State.coef w m)
    let m := setSlice m (4 + 3 * w) (vadd (State.gradNew w m) (smul (sigma P (-y * xc) * y) x))
    let a := sigma P xc * sigma P (-xc)
    let m := setSlice m (4 + 4 * w) (vadd (State.X_transp_AX w m) (outer a x))
    .ok (m.set (4 + w * w + 4 * w) (State.logLikelihood w m - P.log (1 + P.exp (-y * xc))))

/-- The aggregate transition function `transition`. -/
def transition (P : Prim F) (state : List F) (yArg : Bool) (x : List F)
    (previousState : Option (List F)) : Except Error (List F) :=
  let y : F := if yArg then 1 else -1
  match transitionInit P state x previousState with
  | .error e => .error e
  | .ok (w, m) => transitionStep P w m y x

/-- The aggregate merge function `mergeStates`. -/
def mergeStates (P : Prim F) (stateLeft stateRight : List F) : Except Error (List F) :=
  let wl := State.widthOfX P stateLeft
  let wr := State.widthOfX P stateRight
  if State.numRows P wl stateLeft = 0 then .ok stateRight
  else if State.numRows P wr stateRight = 0 then .ok stateLeft
  else State.plusAssign P wl stateLeft wr stateRight

/-- The aggregate final function `final`. -/
def final [LT F] [DecidableRel (fun a b : F => a < b)] (P : Prim F) (state : List F) :
    List F :=
  let w := State.widthOfX P state
  let m :=
    if State.iteration P state = 0 then
      let m := setSlice state (2 + w) (State.gradNew w state)
      setSlice m (2 + 2 * w) (State.gradNew w m)
    else
      let gradNewMinusGrad := vsub (State.gradNew w state) (State.grad w state)
      let m := state.set (2 + 3 * w)
        (dot (State.gradNew w state) gradNewMinusGrad / dot (State.dir w state) gradNewMinusGrad)
      let m :=
        if dot (State.gradNew w m) gradNewMinusGrad / dot (State.grad w m) (State.grad w m) < 0
        then m.set (2 + 3 * w) 0 else m
      let m := setSlice m (2 + w)
        (vsub (State.gradNew w m) (smul (State.beta w m) (State.dir w m)))
      setSlice m (2 + 2 * w) (State.gradNew w m)
  let m := setSlice m 2 (vadd (State.coef w m)
    (smul (dot (State.grad w m) (State.dir w m) /
      quadForm w (State.X_transp_AX w m) (State.dir w m)) (State.dir w m)))
  m.set 0 (m.getD 0 0 + 1)

/-- Folding `transition` over a list of rows `(label, x)`, from the given state and with
the same previous state in every call. -/
def accumulateFrom (P : Prim F) (previousState : Option (List F)) :
    List F → List (Bool × List F) → Except Error (List F)
  | state, [] => .ok state
  | state, row :: rows =>
    match transition P state row.1 row.2 previousState with
    | .error e => .error e
    | .ok next => accumulateFrom P previousState next rows

/-- What `transitionStep` does to the fields of a state for the row `(y, x)`. -/
def Fields.step (P : Prim F) (f : Fields F) (row : Bool × List F) : Fields F :=
  let y : F := if row.1 then 1 else -1
  { f with
    numRows := f.numRows + 1
    gradNew := vadd f.gradNew (smul (sigma P (-y * dot row.2 f.coef) * y) row.2)
    X_transp_AX := vadd f.X_transp_AX
      (outer (sigma P (dot row.2 f.coef) * sigma P (-dot row.2 f.coef)) row.2)
    logLikelihood := f.logLikelihood - P.log (1 + P.exp (-y * dot row.2 f.coef)) }

/-- What `reset` does to the fields of a state of width `w`. -/
def Fields.reset (w : ℕ) (f : Fields F) : Fields F :=
  { f with numRows := 0, gradNew := zeros w, X_transp_AX := zeros (w * w), logLikelihood := 0 }

/-- The states reachable from an all-zero state by calls of `transition` (with or without
a reachable previous state), `mergeStates` and `final` that return. -/
inductive Reachable [LT F] [DecidableRel (fun a b : F => a < b)] (P : Prim F) :
    List F → Prop where
  /-- An all-zero array. -/
  | zero (n : ℕ) : Reachable P (zeros n)
  /-- A call of `transition` without a previous state. -/
  | transition_first (s r : List F) (yArg : Bool) (x : List F) :
    Reachable P s → transition P s yArg x none = .ok r → Reachable P r
  /-- A call of `transition` with a previous state. -/
  | transition_next (s p r : List F) (yArg : Bool) (x : List F) :
    Reachable P s → Reachable P p → transition P s yArg x (some p) = .ok r → Reachable P r
  /-- A call of `mergeStates`. -/
  | merge (a b r : List F) :
    Reachable P a → Reachable P b → mergeStates P a b = .ok r → Reachable P r
  /-- A call of `final`. -/
  | final (s : List F) : Reachable P s → Reachable P (final P s)

/-- The invariant of the reachable states: the state has width 0 and no rows, or it has the
layout length for its width and its `X_transp_AX` is symmetric positive-semidefinite. -/
def State.Inv [LE F] (P : Prim F) (s : List F) : Prop :=
  (State.widthOfX P s = 0 ∧ State.numRows P 0 s = 0) ∨
    (s.length = State.total (State.widthOfX P s) ∧
      IsSymmPSD (State.widthOfX P s) (State.X_transp_AX (State.widthOfX P s) s))

end LogisticRegressionCG

/-! ## Iteratively-reweighted-least-squares state -/

namespace LogisticRegressionIRLS

namespace State

/-- The function `arraySize`: its result type is `uint32_t`. -/
def arraySize (inWidthOfX : ℕ) : ℕ :=
  (3 + inWidthOfX * inWidthOfX + 2 * inWidthOfX) % 2 ^ 32

/-- The number of array elements the layout for width `w` occupies. -/
def total (w : ℕ) : ℕ :=
  3 + w * w + 2 * w

/-- Field `widthOfX` at `&mStorage[0]`, read as `uint16_t`. -/
def widthOfX (P : Prim F) (m : List F) : ℕ :=
  P.toNat (m.getD 0 0)

/-- Field `coef` at `&mStorage[1]`. -/
def coef (w : ℕ) (m : List F) : List F :=
  slice m 1 w

/-- Field `numRows` at `&mStorage[1 + widthOfX]`, read as `uint64_t`. -/
def numRows (P : Prim F) (w : ℕ) (m : List F) : ℕ :=
  P.toNat (m.getD (1 + w) 0)

/-- Field `X_transp_Az` at `&mStorage[2 + widthOfX]`. -/
def X_transp_Az (w : ℕ) (m : List F) : List F :=
  slice m (2 + w) w

/-- Field `X_transp_AX` at `&mStorage[2 + 2 * widthOfX]`. -/
def X_transp_AX (w : ℕ) (m : List F) : List F :=
  slice m (2 + 2 * w) (w * w)

/-- The index `2 + widthOfX * widthOfX + 2 * widthOfX` at which the `State` constructor
and `initialize` bind `logLikelihood`, as the source computes it: in `int`.  It has a value
exactly for the widths up to 46339. -/
def logLikelihoodIndex (w : ℕ) : Option ℕ :=
  intIndex (2 + w * w + 2 * w)

/-- Field `logLikelihood` at `&mStorage[2 + widthOfX * widthOfX + 2 * widthOfX]`.  The
offset is the value of `logLikelihoodIndex` for the widths where the `int` expression of
the source has one. -/
def logLikelihood (w : ℕ) (m : List F) : F :=
  m.getD (2 + w * w + 2 * w) 0

/-- The function `reset`: zero the intra-iteration fields. -/
def reset (w : ℕ) (m : List F) : List F :=
  let m := m.set (1 + w) 0
  let m := setSlice m (2 + w) (zeros w)
  let m := setSlice m (2 + 2 * w) (zeros (w * w))
  m.set (2 + w * w + 2 * w) 0

/-- The function `initialize` of the source: allocate `arraySize inWidthOfX` zeroed
doubles, bind the fields and set them.  When the allocation is shorter than the layout the
writes leave the storage, and when the `int` index of `logLikelihood` overflows the field is
bound nowhere in the storage: both are reported as undefined behaviour.  A state is returned
for the widths up to 46339. -/
def init (inWidthOfX : ℕ) : Except Error (List F) :=
  if arraySize inWidthOfX < total inWidthOfX then
    .error (.undefined_behaviour "state layout exceeds the allocated storage")
  else if logLikelihoodIndex inWidthOfX = none then
    .error (.undefined_behaviour "signed overflow in the index of logLikelihood")
  else
    let m : List F := List.replicate (arraySize inWidthOfX) 0
    let m := m.set 0 (inWidthOfX : F)
    let m := setSlice m 1 (zeros inWidthOfX)
    .ok (reset inWidthOfX m)

/-- Modelled from the spec: `State::operator=` assigns `mStorage`, whose class `Array` is
not part of the source file.  The previous state is copied into the storage the fields are
bound to, which keeps its shape; arrays of different length cannot be assigned. -/
def assign (m other : List F) : Except Error (List F) :=
  if m.length = other.length then .ok other
  else .error (.undefined_behaviour "assignment between arrays of different shape")

/-- The operator `+=`: add the intra-iteration fields of the other state. -/
def plusAssign (P : Prim F) (w : ℕ) (m : List F) (wOther : ℕ) (other : List F) :
    Except Error (List F) :=
  if m.length ≠ other.length ∨ widthOfX P m ≠ widthOfX P other then
    .error (.logic_error "Internal error: Incompatible transition states")
  else
    let m := m.set (1 + w) (m.getD (1 + w) 0 + ((numRows P wOther other : ℕ) : F))
    let m := setSlice m (2 + w) (vadd (X_transp_Az w m) (X_transp_Az wOther other))
    let m := setSlice m (2 + 2 * w) (vadd (X_transp_AX w m) (X_transp_AX wOther other))
    .ok (m.set (2 + w * w + 2 * w) (logLikelihood w m + logLikelihood wOther other))

end State

/-- The fields of an IRLS state as values, in the order of the array layout. -/
structure Fields (F : Type) where
  /-- Element 0. -/
  widthOfX : F
  /-- Elements from 1. -/
  coef : List F
  /-- Element `1 + widthOfX`. -/
  numRows : F
  /-- Elements from `2 + widthOfX`. -/
  X_transp_Az : List F
  /-- Elements from `2 + 2 * widthOfX`. -/
  X_transp_AX : List F
  /-- Element `2 + widthOfX * widthOfX + 2 * widthOfX`. -/
  logLikelihood : F

/-- The array that holds the given fields one after the other, in the documented order. -/
def Fields.toArray (f : Fields F) : List F :=
  f.widthOfX :: (f.coef ++ (f.numRows :: (f.X_transp_Az ++ (f.X_transp_AX ++
    [f.logLikelihood]))))

/-- The vector fields have `w` elements and the matrix has `w * w`. -/
def Fields.Sized (w : ℕ) (f : Fields F) : Prop :=
  f.coef.length = w ∧ f.X_transp_Az.length = w ∧ f.X_transp_AX.length = w * w

/-- The fields that the view of width `w` reads from an array. -/
def State.fields (w : ℕ) (m : List F) : Fields F where
  widthOfX := m.getD 0 0
  coef := State.coef w m
  numRows := m.getD (1 + w) 0
  X_transp_Az := State.X_transp_Az w m
  X_transp_AX := State.X_transp_AX w m
  logLikelihood := State.logLikelihood w m

/-- The branch `state.numRows == 0` of `transition`: a fresh state is initialized with the
width of the row, narrowed to the parameter type `uint16_t`, and takes over the previous
state when one is supplied.  The result is the width the fields are bound with and the
storage. -/
def transitionInit (P : Prim F) (state : List F) (x : List F)
    (previousState : Option (List F)) : Except Error (ℕ × List F) :=
  if State.numRows P (State.widthOfX P state) state = 0 then
    match State.init (x.length % 2 ^ 16), previousState with
    | .error e, _ => .error e
    | .ok m, none => .ok (x.length % 2 ^ 16, m)
    | .ok m, some previous =>
      match State.assign m previous with
      | .error e => .error e
      | .ok m => .ok (x.length % 2 ^ 16, State.reset (x.length % 2 ^ 16) m)
  else .ok (State.widthOfX P state, state)

/-- The lines of `transition` after the comment "Now do the transition step".  The product
`x * state.coef` of a row of `x.length` elements and a column of `w` elements raises when
the two numbers differ. -/
def transitionStep (P : Prim F) (w : ℕ) (m : List F) (y : F) (x : List F) :
    Except Error (List F) :=
  let m := m.set (1 + w) (m.getD (1 + w) 0 + 1)
  if x.length ≠ w then
    .error (.logic_error "matrix multiplication: incompatible matrix dimensions")
  else
    let xc := dot x (State.coef w m)
    let a := sigma P xc * sigma P (-xc)
    let z := xc + sigma P (-y * xc) * y / a
    let m := setSlice m (2 + w) (vadd (State.X_transp_Az w m) (x.map (fun xi => xi * a * z)))
    let m := setSlice m (2 + 2 * w) (vadd (State.X_transp_AX w m) (outer a x))
    .ok (m.set (2 + w * w + 2 * w) (State.logLikelihood w m - P.log (1 + P.exp (-y * xc))))

/-- The aggregate transition function `transition`. -/
def transition (P : Prim F) (state : List F) (yArg : Bool) (x : List F)
    (previousState : Option (List F)) : Except Error (List F) :=
  let y : F := if yArg then 1 else -1
  if !P.isFinite y then
    .error (.invalid_argument "Dependent variables are not finite.")
  else if !x.all P.isFinite then
    .error (.invalid_argument "Design matrix is not finite.")
  else
    match transitionInit P state x previousState with
    | .error e => .error e
    | .ok (w, m) => transitionStep P w m y x

/-- The aggregate merge function `mergeStates`. -/
def mergeStates (P : Prim F) (stateLeft stateRight : List F) : Except Error (List F) :=
  let wl := State.widthOfX P stateLeft
  let wr := State.widthOfX P stateRight
  if State.numRows P wl stateLeft = 0 then .ok stateRight
  else if State.numRows P wr stateRight = 0 then .ok stateLeft
  else State.plusAssign P wl stateLeft wr stateRight

/-- The aggregate final function `final`. -/
def final (P : Prim F) (state : List F) : Except Error (List F) :=
  let w := State.widthOfX P state
  if !(State.X_transp_AX w state).all P.isFinite || !(State.X_transp_Az w state).all P.isFinite
  then .error (.invalid_argument "Design matrix is not finite.")
  else
    .ok (setSlice state 1 (matVec w (P.pinv w (State.X_transp_AX w state))
      (State.X_transp_Az w state)))

/-- Folding `transition` over a list of rows `(label, x)`, from the given state and with
the same previous state in every call. -/
def accumulateFrom (P : Prim F) (previousState : Option (List F)) :
    List F → List (Bool × List F) → Except Error (List F)
  | state, [] => .ok state
  | state, row :: rows =>
    match transition P state row.1 row.2 previousState with
    | .error e => .error e
    | .ok next => accumulateFrom P previousState next rows

/-- What `transitionStep` does to the fields of a state for the row `(y, x)`. -/
def Fields.step (P : Prim F) (f : Fields F) (row : Bool × List F) : Fields F :=
  let y : F := if row.1 then 1 else -1
  let xc := dot row.2 f.coef
  let a := sigma P xc * sigma P (-xc)
  let z := xc + sigma P (-y * xc) * y / a
  { f with
    numRows := f.numRows + 1
    X_transp_Az := vadd f.X_transp_Az (row.2.map (fun xi => xi * a * z))
    X_transp_AX := vadd f.X_transp_AX (outer a row.2)
    logLikelihood := f.logLikelihood - P.log (1 + P.exp (-y * xc)) }

/-- What `reset` does to the fields of a state of width `w`. -/
def Fields.reset (w : ℕ) (f : Fields F) : Fields F :=
  { f with numRows := 0, X_transp_Az := zeros w, X_transp_AX := zeros (w * w),
           logLikelihood := 0 }

/-- The states reachable from an all-zero state by calls of `transition` (with or without
a reachable previous state), `mergeStates` and `final` that return. -/
inductive Reachable (P : Prim F) : List F → Prop where
  /-- An all-zero array. -/
  | zero (n : ℕ) : Reachable P (zeros n)
  /-- A call of `transition` without a previous state. -/
  | transition_first (s r : List F) (yArg : Bool) (x : List F) :
    Reachable P s → transition P s yArg x none = .ok r → Reachable P r
  /-- A call of `transition` with a previous state. -/
  | transition_next (s p r : List F) (yArg : Bool) (x : List F) :
    Reachable P s → Reachable P p → transition P s yArg x (some p) = .ok r → Reachable P r
  /-- A call of `mergeStates`. -/
  | merge (a b r : List F) :
    Reachable P a → Reachable P b → mergeStates P a b = .ok r → Reachable P r
  /-- A call of `final`. -/
  | final (s r : List F) : Reachable P s → final P s = .ok r → Reachable P r

/-- The invariant of the reachable states: the state has width 0 and no rows, or it has the
layout length for its width and its `X_transp_AX` is symmetric positive-semidefinite. -/
def State.Inv [LE F] (P : Prim F) (s : List F) : Prop :=
  (State.widthOfX P s = 0 ∧ State.numRows P 0 s = 0) ∨
    (s.length = State.total (State.widthOfX P s) ∧
      IsSymmPSD (State.widthOfX P s) (State.X_transp_AX (State.widthOfX P s) s))

end LogisticRegressionIRLS

/-! ## Convergence metric and diagnostics -/

/-- The local function `stateToResult`: the diagnostic statistics of a coefficient vector.
The matrix is given by its number of rows and its elements, column by column; the loop
over `i < inCoef.n_elem` computes the four statistics of coefficient `i` one after the
other.  The result is the tuple in the order the source fills it. -/
def stateToResult [OfNat F 2] (P : Prim F) (inCoef : List F) (inLogLikelihood : F)
    (nRows : ℕ) (inInverse_of_X_transp_AX : List F) :
    List F × F × List F × List F × List F × List F :=
  let stats := (List.range inCoef.length).map (fun i =>
    let stdErr := P.sqrt (inInverse_of_X_transp_AX.getD (i + i * nRows) 0)
    let waldZStats := inCoef.getD i 0 / stdErr
    let waldPValues := 2 * P.normalCdf (-P.abs waldZStats)
    let oddRatios := P.exp (inCoef.getD i 0)
    (stdErr, waldZStats, waldPValues, oddRatios))
  (inCoef, inLogLikelihood, stats.map (fun t => t.1), stats.map (fun t => t.2.1),
    stats.map (fun t => t.2.2.1), stats.map (fun t => t.2.2.2))

/-- The function `LogisticRegressionCG::result`. -/
def LogisticRegressionCG.result [OfNat F 2] (P : Prim F) (state : List F) :
    List F × F × List F × List F × List F × List F :=
  let w := LogisticRegressionCG.State.widthOfX P state
  stateToResult P (LogisticRegressionCG.State.coef w state)
    (LogisticRegressionCG.State.logLikelihood w state) w
    (P.pinv w (LogisticRegressionCG.State.X_transp_AX w state))

/-- The function `LogisticRegressionIRLS::result`. -/
def LogisticRegressionIRLS.result [OfNat F 2] (P : Prim F) (state : List F) :
    List F × F × List F × List F × List F × List F :=
  let w := LogisticRegressionIRLS.State.widthOfX P state
  stateToResult P (LogisticRegressionIRLS.State.coef w state)
    (LogisticRegressionIRLS.State.logLikelihood w state) w
    (P.pinv w (LogisticRegressionIRLS.State.X_transp_AX w state))

/-! ## The storage of a state when a call ends -/

/-- The storage the variable `state` of `LogisticRegressionIRLS::transition` is bound to
when the call ends, and the exception when it ends by one.  The two tests on the input come
before every write; `state.numRows++` comes before the product `x * state.coef`, so a call
that ends in the product has counted the row.  For a call that ends in `initialize` or in
the assignment of the previous state the storage given is the argument. -/
def LogisticRegressionIRLS.transitionStore (P : Prim F) (state : List F) (yArg : Bool)
    (x : List F) (previousState : Option (List F)) : List F × Option Error :=
  let y : F := if yArg then 1 else -1
  if !P.isFinite y then
    (state, some (.invalid_argument "Dependent variables are not finite."))
  else if !x.all P.isFinite then
    (state, some (.invalid_argument "Design matrix is not finite."))
  else
    match LogisticRegressionIRLS.transitionInit P state x previousState with
    | .error e => (state, some e)
    | .ok (w, m) =>
      match LogisticRegressionIRLS.transitionStep P w m y x with
      | .error e => (m.set (1 + w) (m.getD (1 + w) 0 + 1), some e)
      | .ok r => (r, none)

/-! ## Matrix inverse and score -/

/-- The product `A * B` of two `w` by `w` matrices stored column by column: column `k` of
the product is `A` times column `k` of `B`. -/
def matMul (w : ℕ) (A B : List F) : List F :=
  (List.range w).flatMap (fun k => matVec w A (col w B k))

/-- The `w` by `w` identity matrix, column by column. -/
def identity (w : ℕ) : List F :=
  (List.range w).flatMap (fun k => (List.range w).map (fun i => if i = k then 1 else 0))

/-- The matrix `N` is the inverse of the `w` by `w` matrix `M`. -/
def IsInverse (w : ℕ) (M N : List F) : Prop :=
  M.length = w * w ∧ N.length = w * w ∧ matMul w M N = identity w ∧ matMul w N M = identity w

/-- The score of the log-likelihood at the coefficients `c`: the sum over the rows
`(y, x)` of `sigma(-y * x.c) * y * x`, a vector of `w` elements. -/
def score (P : Prim F) (w : ℕ) (c : List F) (rows : List (Bool × List F)) : List F :=
  rows.foldl (fun acc row =>
    vadd acc (smul (sigma P (-(if row.1 then 1 else -1) * dot row.2 c) *
      (if row.1 then 1 else -1)) row.2)) (zeros w)

end Defs

section Validity

variable {F : Type} [Zero F] [NatCast F]

/-- A valid CG state of width `w`: the array has the layout length for `w`, its element
`widthOfX` reads as `w`, and `numRows` holds a count. -/
def LogisticRegressionCG.State.Valid (P : Prim F) (w : ℕ) (m : List F) : Prop :=
  m.length = LogisticRegressionCG.State.total w ∧ LogisticRegressionCG.State.widthOfX P m = w ∧
    ∃ n : ℕ, m.getD (3 + 3 * w) 0 = (n : F)

/-- A valid IRLS state of width `w`: the array has the layout length for `w`, its element
`widthOfX` reads as `w`, and `numRows` holds a count. -/
def LogisticRegressionIRLS.State.Valid (P : Prim F) (w : ℕ) (m : List F) : Prop :=
  m.length = LogisticRegressionIRLS.State.total w ∧
    LogisticRegressionIRLS.State.widthOfX P m = w ∧ ∃ n : ℕ, m.getD (1 + w) 0 = (n : F)

/-- Fields of a valid CG state of width `w` that holds at least one row. -/
def LogisticRegressionCG.Fields.HoldsRows (P : Prim F) (w : ℕ)
    (f : LogisticRegressionCG.Fields F) : Prop :=
  f.Sized w ∧ P.toNat f.widthOfX = w ∧ ∃ n : ℕ, n ≠ 0 ∧ f.numRows = (n : F)

/-- Fields of a valid IRLS state of width `w` that holds at least one row. -/
def LogisticRegressionIRLS.Fields.HoldsRows (P : Prim F) (w : ℕ)
    (f : LogisticRegressionIRLS.Fields F) : Prop :=
  f.Sized w ∧ P.toNat f.widthOfX = w ∧ ∃ n : ℕ, n ≠ 0 ∧ f.numRows = (n : F)

end Validity

/-- A computable instance of the library functions over the rationals, for evaluating the
definitions on concrete states.  The conversion to an unsigned integer truncates. -/
def ratPrim : Prim ℚ where
  exp := fun t => 1 + t * t
  log := fun t => t - 1
  toNat := fun t => ⌊t⌋₊
  isFinite := fun _ => true
  sqrt := fun t => t
  abs := fun t => |t|
  normalCdf := fun t => t
  pinv := fun _ M => M

/-- A `double` that holds a rational number or is not a number (NaN).  Every operation on
`nan` gives `nan` and no comparison with `nan` holds.  The type has no infinities: a
quotient by zero is `nan`. -/
inductive Dbl where
  /-- A number. -/
  | val (q : ℚ)
  /-- Not a number. -/
  | nan
  deriving DecidableEq

namespace Dbl

/-- A function of one number on `Dbl`. -/
def lift1 (f : ℚ → ℚ) : Dbl → Dbl
  | val a => val (f a)
  | nan => nan

/-- A function of two numbers on `Dbl`. -/
def lift2 (f : ℚ → ℚ → ℚ) : Dbl → Dbl → Dbl
  | val a, val b => val (f a b)
  | _, _ => nan

/-- The quotient; by zero it is `nan`. -/
def div : Dbl → Dbl → Dbl
  | val a, val b => if b = 0 then nan else val (a / b)
  | _, _ => nan

/-- The comparison `<`. -/
def lt : Dbl → Dbl → Bool
  | val a, val b => decide (a < b)
  | _, _ => false

instance instZero : Zero Dbl := ⟨val 0⟩

instance instOne : One Dbl := ⟨val 1⟩

instance instAdd : Add Dbl := ⟨lift2 (fun a b => a + b)⟩

instance instSub : Sub Dbl := ⟨lift2 (fun a b => a - b)⟩

instance instMul : Mul Dbl := ⟨lift2 (fun a b => a * b)⟩

instance instDiv : Div Dbl := ⟨div⟩

instance instNeg : Neg Dbl := ⟨lift1 (fun a => -a)⟩

instance instNatCast : NatCast Dbl := ⟨fun n => val n⟩

instance instLT : LT Dbl := ⟨fun a b => lt a b = true⟩

instance instDecidableLT : DecidableRel (fun a b : Dbl => a < b) :=
  fun a b => inferInstanceAs (Decidable (lt a b = true))

end Dbl

/-- The library functions over `Dbl`: those of `ratPrim` on numbers; `nan` is the value
that is not finite. -/
def dblPrim : Prim Dbl where
  exp := Dbl.lift1 ratPrim.exp
  log := Dbl.lift1 ratPrim.log
  toNat := fun t => match t with
    | .val a => ratPrim.toNat a
    | .nan => 0
  isFinite := fun t => match t with
    | .val _ => true
    | .nan => false
  sqrt := Dbl.lift1 ratPrim.sqrt
  abs := Dbl.lift1 ratPrim.abs
  normalCdf := Dbl.lift1 ratPrim.normalCdf
  pinv := fun _ M => M

/-! ## Arrays: reading and writing at an offset -/

section ArrayLemmas

variable {F : Type}

@[simp] theorem length_setSlice (v : List F) (buf : List F) (off : ℕ) :
    (setSlice buf off v).length = buf.length := by
  induction v generalizing buf off with
  | nil => rfl
  | cons a v ih => simp [setSlice, ih]

theorem setSlice_eq (v buf : List F) (off : ℕ) (h : off + v.length ≤ buf.length) :
    setSlice buf off v = buf.take off ++ (v ++ buf.drop (off + v.length)) := by
  induction v generalizing buf off with
  | nil => simp [setSlice]
  | cons a v ih =>
    simp only [List.length_cons] at h
    have h1 : off < buf.length := by omega
    rw [setSlice, ih _ _ (by simp; omega)]
    rw [List.drop_set_of_lt a buf (show off < off + 1 + v.length by omega), List.take_succ]
    have h2 : List.take off (buf.set off a) = List.take off buf := by
      apply List.ext_getElem
      · simp
      · intro n hn hn2
        simp at hn
        simp [List.getElem_take, List.getElem_set]
        omega
    rw [h2]
    simp [h1]
    rw [show off + 1 + v.length = off + (v.length + 1) by omega]

theorem setSlice_append (p v u r : List F) (k : ℕ) (hk : p.length = k)
    (hv : u.length = v.length) :
    setSlice (p ++ (v ++ r)) k u = p ++ (u ++ r) := by
  subst hk
  rw [setSlice_eq _ _ _ (by simp; omega)]
  simp [hv]

theorem slice_append (p v r : List F) (k n : ℕ) (hk : p.length = k) (hv : v.length = n) :
    slice (p ++ (v ++ r)) k n = v := by
  subst hk; subst hv
  simp [slice]

theorem getD_append_cons (p r : List F) (a d : F) (k : ℕ) (hk : p.length = k) :
    (p ++ a :: r).getD k d = a := by
  subst hk
  rw [List.getD_append_right _ _ _ _ (le_refl _)]
  simp

theorem set_append_cons (p r : List F) (a b : F) (k : ℕ) (hk : p.length = k) :
    (p ++ a :: r).set k b = p ++ b :: r := by
  subst hk
  simp [List.set_append]

/-- An array splits at an offset into the part before it, the slice and the rest. -/
theorem split_slice (buf : List F) (off len : ℕ) :
    buf.drop off = slice buf off len ++ buf.drop (off + len) := by
  rw [slice, ← List.drop_drop, List.take_append_drop]

/-- An array splits at a position inside it into the element there and the rest. -/
theorem split_getD (buf : List F) (off : ℕ) (d : F) (h : off < buf.length) :
    buf.drop off = buf.getD off d :: buf.drop (off + 1) := by
  rw [List.drop_eq_getElem_cons h, List.getD_eq_getElem _ _ h]

theorem length_slice (buf : List F) (off len : ℕ) (h : off + len ≤ buf.length) :
    (slice buf off len).length = len := by
  simp [slice]
  omega

theorem length_vadd {F : Type} [Add F] {n : ℕ} {a b : List F} (ha : a.length = n)
    (hb : b.length = n) : (vadd a b).length = n := by
  simp [vadd, ha, hb]

theorem length_vsub {F : Type} [Sub F] {n : ℕ} {a b : List F} (ha : a.length = n)
    (hb : b.length = n) : (vsub a b).length = n := by
  simp [vsub, ha, hb]

theorem length_smul {F : Type} [Mul F] (c : F) (v : List F) : (smul c v).length = v.length := by
  simp [smul]

theorem length_flatMap_map {F : Type} (l x : List F) (g : F → F → F) :
    (l.flatMap (fun xj => x.map (g xj))).length = l.length * x.length := by
  induction l with
  | nil => simp
  | cons a l ih =>
    simp only [List.flatMap_cons, List.length_append, List.length_map, ih, List.length_cons]
    ring

theorem length_outer {F : Type} [Mul F] (a : F) (x : List F) :
    (outer a x).length = x.length * x.length :=
  length_flatMap_map x x (fun xj xi => xi * a * xj)

theorem length_matVec {F : Type} [Zero F] [Add F] [Mul F] (w : ℕ) (M v : List F) :
    (matVec w M v).length = w := by
  simp [matVec]

theorem getD_slice (buf : List F) (off len i : ℕ) (d : F) (h : i < len) :
    (slice buf off len).getD i d = buf.getD (off + i) d := by
  simp [slice, List.getD_eq_getElem?_getD, List.getElem?_take, h]

theorem getD_flatMap (l : List F) (f : F → List F) (n : ℕ) (hf : ∀ e, (f e).length = n)
    (i j : ℕ) (hi : i < n) (d e0 : F) (hj : j < l.length) :
    (l.flatMap f).getD (i + j * n) d = (f (l.getD j e0)).getD i d := by
  induction l generalizing j with
  | nil => simp at hj
  | cons a l ih =>
    rw [List.flatMap_cons]
    cases j with
    | zero =>
      simp only [zero_mul, add_zero, List.getD_cons_zero]
      rw [List.getD_append _ _ _ _ (by rw [hf]; exact hi)]
    | succ j =>
      rw [List.getD_append_right _ _ _ _ (by rw [hf]; nlinarith)]
      rw [hf, show i + (j + 1) * n - n = i + j * n by rw [Nat.succ_mul]; omega]
      simp only [List.getD_cons_succ]
      exact ih j (by simpa using hj)

/-- Entry `(i, j)` of the matrix `trans(x) * a * x`. -/
theorem getD_outer {F : Type} [Mul F] [Zero F] (a : F) (x : List F) (i j : ℕ)
    (hi : i < x.length) (hj : j < x.length) :
    (outer a x).getD (i + j * x.length) 0 = x.getD i 0 * a * x.getD j 0 := by
  rw [outer, getD_flatMap x _ x.length (fun e => by simp) i j hi 0 0 hj]
  rw [List.getD_eq_getElem _ _ (by simpa using hi)]
  simp [List.getD_eq_getElem?_getD, List.getElem?_eq_getElem hi]

theorem length_zeros {F : Type} [Zero F] (n : ℕ) : (zeros n : List F).length = n := by
  simp [zeros]

end ArrayLemmas

/-! ## The array layout of the CG state -/

namespace LogisticRegressionCG

section Layout

variable {F : Type}

theorem cg_length_toArray {w : ℕ} {f : Fields F} (h : f.Sized w) :
    f.toArray.length = State.total w := by
  obtain ⟨h1, h2, h3, h4, h5⟩ := h
  simp [Fields.toArray, State.total, h1, h2, h3, h4, h5]
  omega

variable [Zero F]

theorem cg_fields_toArray {w : ℕ} {f : Fields F} (h : f.Sized w) :
    State.fields w f.toArray = f := by
  obtain ⟨h1, h2, h3, h4, h5⟩ := h
  cases f with
  | mk it wd c d g b n gn M ll =>
    simp only at h1 h2 h3 h4 h5
    simp only [State.fields, Fields.toArray, Fields.mk.injEq]
    refine ⟨?_, ?_, ?_, ?_, ?_, ?_, ?_, ?_, ?_, ?_⟩
    · have e : it :: (wd :: (c ++ (d ++ (g ++ (b :: (n :: (gn ++ (M ++ ([ll]))))))))) = ([]) ++ it :: (wd :: (c ++ (d ++ (g ++ (b :: (n :: (gn ++ (M ++ ([ll]))))))))) := by simp
      rw [e]
      exact getD_append_cons _ _ _ _ _ (by simp only [List.length_cons, List.length_append, List.length_nil, List.length_singleton, h1, h2, h3, h4, h5] <;> omega)
    · have e : it :: (wd :: (c ++ (d ++ (g ++ (b :: (n :: (gn ++ (M ++ ([ll]))))))))) = ([it]) ++ wd :: (c ++ (d ++ (g ++ (b :: (n :: (gn ++ (M ++ ([ll])))))))) := by simp
      rw [e]
      exact getD_append_cons _ _ _ _ _ (by simp only [List.length_cons, List.length_append, List.length_nil, List.length_singleton, h1, h2, h3, h4, h5] <;> omega)
    · have e : it :: (wd :: (c ++ (d ++ (g ++ (b :: (n :: (gn ++ (M ++ ([ll]))))))))) = (it :: ([wd])) ++ (c ++ (d ++ (g ++ (b :: (n :: (gn ++ (M ++ ([ll])))))))) := by simp
      rw [State.coef, e]
      exact slice_append _ _ _ _ _ (by simp only [List.length_cons, List.length_append, List.length_nil, List.length_singleton, h1, h2, h3, h4, h5] <;> omega) h1
    · have e : it :: (wd :: (c ++ (d ++ (g ++ (b :: (n :: (gn ++ (M ++ ([ll]))))))))) = (it :: (wd :: (c))) ++ (d ++ (g ++ (b :: (n :: (gn ++ (M ++ ([ll]))))))) := by simp
      rw [State.dir, e]
      exact slice_append _ _ _ _ _ (by simp only [List.length_cons, List.length_append, List.length_nil, List.length_singleton, h1, h2, h3, h4, h5] <;> omega) h2
    · have e : it :: (wd :: (c ++ (d ++ (g ++ (b :: (n :: (gn ++ (M ++ ([ll]))))))))) = (it :: (wd :: (c ++ (d)))) ++ (g ++ (b :: (n :: (gn ++ (M ++ ([ll])))))) := by simp
      rw [State.grad, e]
      exact slice_append _ _ _ _ _ (by simp only [List.length_cons, List.length_append, List.length_nil, List.length_singleton, h1, h2, h3, h4, h5] <;> omega) h3
    · have e : it :: (wd :: (c ++ (d ++ (g ++ (b :: (n :: (gn ++ (M ++ ([ll]))))))))) = (it :: (wd :: (c ++ (d ++ (g))))) ++ b :: (n :: (gn ++ (M ++ ([ll])))) := by simp
      rw [State.beta, e]
      exact getD_append_cons _ _ _ _ _ (by simp only [List.length_cons, List.length_append, List.length_nil, List.length_singleton, h1, h2, h3, h4, h5] <;> omega)
    · have e : it :: (wd :: (c ++ (d ++ (g ++ (b :: (n :: (gn ++ (M ++ ([ll]))))))))) = (it :: (wd :: (c ++ (d ++ (g ++ ([b])))))) ++ n :: (gn ++ (M ++ ([ll]))) := by simp
      rw [e]
      exact getD_append_cons _ _ _ _ _ (by simp only [List.length_cons, List.length_append, List.length_nil, List.length_singleton, h1, h2, h3, h4, h5] <;> omega)
    · have e : it :: (wd :: (c ++ (d ++ (g ++ (b :: (n :: (gn ++ (M ++ ([ll]))))))))) = (it :: (wd :: (c ++ (d ++ (g ++ (b :: ([n]))))))) ++ (gn ++ (M ++ ([ll]))) := by simp
      rw [State.gradNew, e]
      exact slice_append _ _ _ _ _ (by simp only [List.length_cons, List.length_append, List.length_nil, List.length_singleton, h1, h2, h3, h4, h5] <;> omega) h4
    · have e : it :: (wd :: (c ++ (d ++ (g ++ (b :: (n :: (gn ++ (M ++ ([ll]))))))))) = (it :: (wd :: (c ++ (d ++ (g ++ (b :: (n :: (gn)))))))) ++ (M ++ ([ll])) := by simp
      rw [State.X_transp_AX, e]
      exact slice_append _ _ _ _ _ (by simp only [List.length_cons, List.length_append, List.length_nil, List.length_singleton, h1, h2, h3, h4, h5] <;> omega) h5
    · have e : it :: (wd :: (c ++ (d ++ (g ++ (b :: (n :: (gn ++ (M ++ ([ll]))))))))) = (it :: (wd :: (c ++ (d ++ (g ++ (b :: (n :: (gn ++ (M))))))))) ++ ll :: ([]) := by simp
      rw [State.logLikelihood, e]
      exact getD_append_cons _ _ _ _ _ (by simp only [List.length_cons, List.length_append, List.length_nil, List.length_singleton, h1, h2, h3, h4, h5] <;> omega)

theorem cg_set_iteration {w : ℕ} {f : Fields F} (h : f.Sized w) (a : F) :
    f.toArray.set (0) a = Fields.toArray { f with iteration := a } := by
  obtain ⟨h1, h2, h3, h4, h5⟩ := h
  cases f with
  | mk it wd c d g b n gn M ll =>
    simp only at h1 h2 h3 h4 h5
    simp only [Fields.toArray]
    have e : it :: (wd :: (c ++ (d ++ (g ++ (b :: (n :: (gn ++ (M ++ ([ll]))))))))) = ([]) ++ it :: (wd :: (c ++ (d ++ (g ++ (b :: (n :: (gn ++ (M ++ ([ll]))))))))) := by simp
    have e2 : a :: (wd :: (c ++ (d ++ (g ++ (b :: (n :: (gn ++ (M ++ ([ll]))))))))) = ([]) ++ a :: (wd :: (c ++ (d ++ (g ++ (b :: (n :: (gn ++ (M ++ ([ll]))))))))) := by simp
    rw [e, e2]
    exact set_append_cons _ _ _ _ _ (by simp only [List.length_cons, List.length_append, List.length_nil, List.length_singleton, h1, h2, h3, h4, h5] <;> omega)

theorem cg_set_widthOfX {w : ℕ} {f : Fields F} (h : f.Sized w) (a : F) :
    f.toArray.set (1) a = Fields.toArray { f with widthOfX := a } := by
  obtain ⟨h1, h2, h3, h4, h5⟩ := h
  cases f with
  | mk it wd c d g b n gn M ll =>
    simp only at h1 h2 h3 h4 h5
    simp only [Fields.toArray]
    have e : it :: (wd :: (c ++ (d ++ (g ++ (b :: (n :: (gn ++ (M ++ ([ll]))))))))) = ([it]) ++ wd :: (c ++ (d ++ (g ++ (b :: (n :: (gn ++ (M ++ ([ll])))))))) := by simp
    have e2 : it :: (a :: (c ++ (d ++ (g ++ (b :: (n :: (gn ++ (M ++ ([ll]))))))))) = ([it]) ++ a :: (c ++ (d ++ (g ++ (b :: (n :: (gn ++ (M ++ ([ll])))))))) := by simp
    rw [e, e2]
    exact set_append_cons _ _ _ _ _ (by simp only [List.length_cons, List.length_append, List.length_nil, List.length_singleton, h1, h2, h3, h4, h5] <;> omega)

theorem cg_set_coef {w : ℕ} {f : Fields F} (h : f.Sized w) (u : List F)
    (hu : u.length = w) :
    setSlice f.toArray (2) u = Fields.toArray { f with coef := u } := by
  obtain ⟨h1, h2, h3, h4, h5⟩ := h
  cases f with
  | mk it wd c d g b n gn M ll =>
    simp only at h1 h2 h3 h4 h5
    simp only [Fields.toArray]
    have e : it :: (wd :: (c ++ (d ++ (g ++ (b :: (n :: (gn ++ (M ++ ([ll]))))))))) = (it :: ([wd])) ++ (c ++ (d ++ (g ++ (b :: (n :: (gn ++ (M ++ ([ll])))))))) := by simp
    have e2 : it :: (wd :: (u ++ (d ++ (g ++ (b :: (n :: (gn ++ (M ++ ([ll]))))))))) = (it :: ([wd])) ++ (u ++ (d ++ (g ++ (b :: (n :: (gn ++ (M ++ ([ll])))))))) := by simp
    rw [e, e2]
    exact setSlice_append _ _ _ _ _ (by simp only [List.length_cons, List.length_append, List.length_nil, List.length_singleton, h1, h2, h3, h4, h5] <;> omega) (by rw [hu, h1])

theorem cg_set_dir {w : ℕ} {f : Fields F} (h : f.Sized w) (u : List F)
    (hu : u.length = w) :
    setSlice f.toArray (2 + w) u = Fields.toArray { f with dir := u } := by
  obtain ⟨h1, h2, h3, h4, h5⟩ := h
  cases f with
  | mk it wd c d g b n gn M ll =>
    simp only at h1 h2 h3 h4 h5
    simp only [Fields.toArray]
    have e : it :: (wd :: (c ++ (d ++ (g ++ (b :: (n :: (gn ++ (M ++ ([ll]))))))))) = (it :: (wd :: (c))) ++ (d ++ (g ++ (b :: (n :: (gn ++ (M ++ ([ll]))))))) := by simp
    have e2 : it :: (wd :: (c ++ (u ++ (g ++ (b :: (n :: (gn ++ (M ++ ([ll]))))))))) = (it :: (wd :: (c))) ++ (u ++ (g ++ (b :: (n :: (gn ++ (M ++ ([ll]))))))) := by simp
    rw [e, e2]
    exact setSlice_append _ _ _ _ _ (by simp only [List.length_cons, List.length_append, List.length_nil, List.length_singleton, h1, h2, h3, h4, h5] <;> omega) (by rw [hu, h2])

theorem cg_set_grad {w : ℕ} {f : Fields F} (h : f.Sized w) (u : List F)
    (hu : u.length = w) :
    setSlice f.toArray (2 + 2 * w) u = Fields.toArray { f with grad := u } := by
  obtain ⟨h1, h2, h3, h4, h5⟩ := h
  cases f with
  | mk it wd c d g b n gn M ll =>
    simp only at h1 h2 h3 h4 h5
    simp only [Fields.toArray]
    have e : it :: (wd :: (c ++ (d ++ (g ++ (b :: (n :: (gn ++ (M ++ ([ll]))))))))) = (it :: (wd :: (c ++ (d)))) ++ (g ++ (b :: (n :: (gn ++ (M ++ ([ll])))))) := by simp
    have e2 : it :: (wd :: (c ++ (d ++ (u ++ (b :: (n :: (gn ++ (M ++ ([ll]))))))))) = (it :: (wd :: (c ++ (d)))) ++ (u ++ (b :: (n :: (gn ++ (M ++ ([ll])))))) := by simp
    rw [e, e2]
    exact setSlice_append _ _ _ _ _ (by simp only [List.length_cons, List.length_append, List.length_nil, List.length_singleton, h1, h2, h3, h4, h5] <;> omega) (by rw [hu, h3])

theorem cg_set_beta {w : ℕ} {f : Fields F} (h : f.Sized w) (a : F) :
    f.toArray.set (2 + 3 * w) a = Fields.toArray { f with beta := a } := by
  obtain ⟨h1, h2, h3, h4, h5⟩ := h
  cases f with
  | mk it wd c d g b n gn M ll =>
    simp only at h1 h2 h3 h4 h5
    simp only [Fields.toArray]
    have e : it :: (wd :: (c ++ (d ++ (g ++ (b :: (n :: (gn ++ (M ++ ([ll]))))))))) = (it :: (wd :: (c ++ (d ++ (g))))) ++ b :: (n :: (gn ++ (M ++ ([ll])))) := by simp
    have e2 : it :: (wd :: (c ++ (d ++ (g ++ (a :: (n :: (gn ++ (M ++ ([ll]))))))))) = (it :: (wd :: (c ++ (d ++ (g))))) ++ a :: (n :: (gn ++ (M ++ ([ll])))) := by simp
    rw [e, e2]
    exact set_append_cons _ _ _ _ _ (by simp only [List.length_cons, List.length_append, List.length_nil, List.length_singleton, h1, h2, h3, h4, h5] <;> omega)

theorem cg_set_numRows {w : ℕ} {f : Fields F} (h : f.Sized w) (a : F) :
    f.toArray.set (3 + 3 * w) a = Fields.toArray { f with numRows := a } := by
  obtain ⟨h1, h2, h3, h4, h5⟩ := h
  cases f with
  | mk it wd c d g b n gn M ll =>
    simp only at h1 h2 h3 h4 h5
    simp only [Fields.toArray]
    have e : it :: (wd :: (c ++ (d ++ (g ++ (b :: (n :: (gn ++ (M ++ ([ll]))))))))) = (it :: (wd :: (c ++ (d ++ (g ++ ([b])))))) ++ n :: (gn ++ (M ++ ([ll]))) := by simp
    have e2 : it :: (wd :: (c ++ (d ++ (g ++ (b :: (a :: (gn ++ (M ++ ([ll]))))))))) = (it :: (wd :: (c ++ (d ++ (g ++ ([b])))))) ++ a :: (gn ++ (M ++ ([ll]))) := by simp
    rw [e, e2]
    exact set_append_cons _ _ _ _ _ (by simp only [List.length_cons, List.length_append, List.length_nil, List.length_singleton, h1, h2, h3, h4, h5] <;> omega)

theorem cg_set_gradNew {w : ℕ} {f : Fields F} (h : f.Sized w) (u : List F)
    (hu : u.length = w) :
    setSlice f.toArray (4 + 3 * w) u = Fields.toArray { f with gradNew := u } := by
  obtain ⟨h1, h2, h3, h4, h5⟩ := h
  cases f with
  | mk it wd c d g b n gn M ll =>
    simp only at h1 h2 h3 h4 h5
    simp only [Fields.toArray]
    have e : it :: (wd :: (c ++ (d ++ (g ++ (b :: (n :: (gn ++ (M ++ ([ll]))))))))) = (it :: (wd :: (c ++ (d ++ (g ++ (b :: ([n]))))))) ++ (gn ++ (M ++ ([ll]))) := by simp
    have e2 : it :: (wd :: (c ++ (d ++ (g ++ (b :: (n :: (u ++ (M ++ ([ll]))))))))) = (it :: (wd :: (c ++ (d ++ (g ++ (b :: ([n]))))))) ++ (u ++ (M ++ ([ll]))) := by simp
    rw [e, e2]
    exact setSlice_append _ _ _ _ _ (by simp only [List.length_cons, List.length_append, List.length_nil, List.length_singleton, h1, h2, h3, h4, h5] <;> omega) (by rw [hu, h4])

theorem cg_set_X_transp_AX {w : ℕ} {f : Fields F} (h : f.Sized w) (u : List F)
    (hu : u.length = w * w) :
    setSlice f.toArray (4 + 4 * w) u = Fields.toArray { f with X_transp_AX := u } := by
  obtain ⟨h1, h2, h3, h4, h5⟩ := h
  cases f with
  | mk it wd c d g b n gn M ll =>
    simp only at h1 h2 h3 h4 h5
    simp only [Fields.toArray]
    have e : it :: (wd :: (c ++ (d ++ (g ++ (b :: (n :: (gn ++ (M ++ ([ll]))))))))) = (it :: (wd :: (c ++ (d ++ (g ++ (b :: (n :: (gn)))))))) ++ (M ++ ([ll])) := by simp
    have e2 : it :: (wd :: (c ++ (d ++ (g ++ (b :: (n :: (gn ++ (u ++ ([ll]))))))))) = (it :: (wd :: (c ++ (d ++ (g ++ (b :: (n :: (gn)))))))) ++ (u ++ ([ll])) := by simp
    rw [e, e2]
    exact setSlice_append _ _ _ _ _ (by simp only [List.length_cons, List.length_append, List.length_nil, List.length_singleton, h1, h2, h3, h4, h5] <;> omega) (by rw [hu, h5])

theorem cg_set_logLikelihood {w : ℕ} {f : Fields F} (h : f.Sized w) (a : F) :
    f.toArray.set (4 + w * w + 4 * w) a = Fields.toArray { f with logLikelihood := a } := by
  obtain ⟨h1, h2, h3, h4, h5⟩ := h
  cases f with
  | mk it wd c d g b n gn M ll =>
    simp only at h1 h2 h3 h4 h5
    simp only [Fields.toArray]
    have e : it :: (wd :: (c ++ (d ++ (g ++ (b :: (n :: (gn ++ (M ++ ([ll]))))))))) = (it :: (wd :: (c ++ (d ++ (g ++ (b :: (n :: (gn ++ (M))))))))) ++ ll :: ([]) := by simp
    have e2 : it :: (wd :: (c ++ (d ++ (g ++ (b :: (n :: (gn ++ (M ++ ([a]))))))))) = (it :: (wd :: (c ++ (d ++ (g ++ (b :: (n :: (gn ++ (M))))))))) ++ a :: ([]) := by simp
    rw [e, e2]
    exact set_append_cons _ _ _ _ _ (by simp only [List.length_cons, List.length_append, List.length_nil, List.length_singleton, h1, h2, h3, h4, h5] <;> omega)


/-- A storage of the layout length is the concatenation of the fields its view reads. -/
theorem cg_toArray_fields {w : ℕ} {m : List F} (h : m.length = State.total w) :
    (State.fields w m).toArray = m := by
  unfold State.total at h
  have e0 : m = m.getD 0 0 :: m.drop 1 := by
    have := split_getD m 0 0 (by omega)
    simpa using this
  have e1 : m.drop 1 = m.getD 1 0 :: m.drop 2 := split_getD m 1 0 (by omega)
  have e2 : m.drop 2 = slice m 2 w ++ m.drop (2 + w) := split_slice m 2 w
  have e3 : m.drop (2 + w) = slice m (2 + w) w ++ m.drop (2 + 2 * w) := by
    have := split_slice m (2 + w) w
    rwa [show 2 + w + w = 2 + 2 * w by omega] at this
  have e4 : m.drop (2 + 2 * w) = slice m (2 + 2 * w) w ++ m.drop (2 + 3 * w) := by
    have := split_slice m (2 + 2 * w) w
    rwa [show 2 + 2 * w + w = 2 + 3 * w by omega] at this
  have e5 : m.drop (2 + 3 * w) = m.getD (2 + 3 * w) 0 :: m.drop (3 + 3 * w) := by
    have := split_getD m (2 + 3 * w) 0 (by omega)
    rwa [show 2 + 3 * w + 1 = 3 + 3 * w by omega] at this
  have e6 : m.drop (3 + 3 * w) = m.getD (3 + 3 * w) 0 :: m.drop (4 + 3 * w) := by
    have := split_getD m (3 + 3 * w) 0 (by omega)
    rwa [show 3 + 3 * w + 1 = 4 + 3 * w by omega] at this
  have e7 : m.drop (4 + 3 * w) = slice m (4 + 3 * w) w ++ m.drop (4 + 4 * w) := by
    have := split_slice m (4 + 3 * w) w
    rwa [show 4 + 3 * w + w = 4 + 4 * w by omega] at this
  have e8 : m.drop (4 + 4 * w) = slice m (4 + 4 * w) (w * w) ++ m.drop (4 + w * w + 4 * w) := by
    have := split_slice m (4 + 4 * w) (w * w)
    rwa [show 4 + 4 * w + w * w = 4 + w * w + 4 * w by omega] at this
  have e9 : m.drop (4 + w * w + 4 * w) = [m.getD (4 + w * w + 4 * w) 0] := by
    have := split_getD m (4 + w * w + 4 * w) 0 (by omega)
    rwa [List.drop_eq_nil_of_le (show m.length ≤ 4 + w * w + 4 * w + 1 by omega)] at this
  rw [e1, e2, e3, e4, e5, e6, e7, e8, e9] at e0
  exact e0.symm

theorem cg_sized_fields {w : ℕ} {m : List F} (h : m.length = State.total w) :
    (State.fields w m).Sized w := by
  unfold State.total at h
  refine ⟨?_, ?_, ?_, ?_, ?_⟩
  · exact length_slice _ _ _ (by omega)
  · exact length_slice _ _ _ (by omega)
  · exact length_slice _ _ _ (by omega)
  · exact length_slice _ _ _ (by omega)
  · exact length_slice _ _ _ (by omega)

theorem cg_sized_iff {w : ℕ} {f : Fields F} :
    f.Sized w ↔ f.coef.length = w ∧ f.dir.length = w ∧ f.grad.length = w ∧
      f.gradNew.length = w ∧ f.X_transp_AX.length = w * w :=
  Iff.rfl

theorem cg_coef_toArray {w : ℕ} {f : Fields F} (h : f.Sized w) :
    State.coef w f.toArray = f.coef :=
  congrArg Fields.coef (cg_fields_toArray h)

theorem cg_dir_toArray {w : ℕ} {f : Fields F} (h : f.Sized w) :
    State.dir w f.toArray = f.dir :=
  congrArg Fields.dir (cg_fields_toArray h)

theorem cg_grad_toArray {w : ℕ} {f : Fields F} (h : f.Sized w) :
    State.grad w f.toArray = f.grad :=
  congrArg Fields.grad (cg_fields_toArray h)

theorem cg_beta_toArray {w : ℕ} {f : Fields F} (h : f.Sized w) :
    State.beta w f.toArray = f.beta :=
  congrArg Fields.beta (cg_fields_toArray h)

theorem cg_rawNumRows_toArray {w : ℕ} {f : Fields F} (h : f.Sized w) :
    f.toArray.getD (3 + 3 * w) 0 = f.numRows :=
  congrArg Fields.numRows (cg_fields_toArray h)

theorem cg_numRows_toArray (P : Prim F) {w : ℕ} {f : Fields F} (h : f.Sized w) :
    State.numRows P w f.toArray = P.toNat f.numRows :=
  congrArg P.toNat (cg_rawNumRows_toArray h)

theorem cg_gradNew_toArray {w : ℕ} {f : Fields F} (h : f.Sized w) :
    State.gradNew w f.toArray = f.gradNew :=
  congrArg Fields.gradNew (cg_fields_toArray h)

theorem cg_X_transp_AX_toArray {w : ℕ} {f : Fields F} (h : f.Sized w) :
    State.X_transp_AX w f.toArray = f.X_transp_AX :=
  congrArg Fields.X_transp_AX (cg_fields_toArray h)

theorem cg_logLikelihood_toArray {w : ℕ} {f : Fields F} (h : f.Sized w) :
    State.logLikelihood w f.toArray = f.logLikelihood :=
  congrArg Fields.logLikelihood (cg_fields_toArray h)

theorem cg_widthOfX_toArray (P : Prim F) (f : Fields F) :
    State.widthOfX P f.toArray = P.toNat f.widthOfX :=
  rfl

theorem cg_iteration_toArray (P : Prim F) (f : Fields F) :
    State.iteration P f.toArray = P.toNat f.iteration :=
  rfl

end Layout

section Operations

variable {F : Type} [Zero F] [One F] [Add F] [Sub F] [Mul F] [Div F] [Neg F] [NatCast F]

theorem cg_plusAssign_toArray (P : Prim F) {w : ℕ} {f g : Fields F} (hf : f.Sized w)
    (hg : g.Sized w) (hw : P.toNat f.widthOfX = P.toNat g.widthOfX) :
    State.plusAssign P w f.toArray w g.toArray = .ok (Fields.toArray { f with
      numRows := f.numRows + ((P.toNat g.numRows : ℕ) : F)
      gradNew := vadd f.gradNew g.gradNew
      X_transp_AX := vadd f.X_transp_AX g.X_transp_AX
      logLikelihood := f.logLikelihood + g.logLikelihood }) := by
  have hl : f.toArray.length = g.toArray.length := by
    rw [cg_length_toArray hf, cg_length_toArray hg]
  obtain ⟨h1, h2, h3, h4, h5⟩ := cg_sized_iff.1 hf
  obtain ⟨k1, k2, k3, k4, k5⟩ := cg_sized_iff.1 hg
  simp only [State.plusAssign, cg_rawNumRows_toArray hf]
  simp [hl, cg_widthOfX_toArray, hw, cg_numRows_toArray, hf, hg,
    cg_rawNumRows_toArray, cg_set_numRows, cg_gradNew_toArray, cg_sized_iff,
    h1, h2, h3, h4, h5, k1, k2, k3, k4, k5, cg_set_gradNew, vadd,
    cg_X_transp_AX_toArray, cg_set_X_transp_AX, cg_logLikelihood_toArray,
    cg_set_logLikelihood]

theorem cg_mergeStates_toArray (P : Prim F) {w : ℕ} {f g : Fields F} (hf : f.Sized w)
    (hg : g.Sized w) (hwf : P.toNat f.widthOfX = w) (hwg : P.toNat g.widthOfX = w)
    (hnf : P.toNat f.numRows ≠ 0) (hng : P.toNat g.numRows ≠ 0) :
    mergeStates P f.toArray g.toArray = .ok (Fields.toArray { f with
      numRows := f.numRows + ((P.toNat g.numRows : ℕ) : F)
      gradNew := vadd f.gradNew g.gradNew
      X_transp_AX := vadd f.X_transp_AX g.X_transp_AX
      logLikelihood := f.logLikelihood + g.logLikelihood }) := by
  unfold mergeStates
  simp only [cg_widthOfX_toArray, hwf, hwg, cg_numRows_toArray P hf, cg_numRows_toArray P hg,
    hnf, hng, if_false]
  exact cg_plusAssign_toArray P hf hg (hwf.trans hwg.symm)

theorem cg_transitionStep_toArray (P : Prim F) {w : ℕ} {f : Fields F} (hf : f.Sized w)
    (y : F) (x : List F) (hx : x.length = w) :
    transitionStep P w f.toArray y x = .ok (Fields.toArray { f with
      numRows := f.numRows + 1
      gradNew := vadd f.gradNew (smul (sigma P (-y * dot x f.coef) * y) x)
      X_transp_AX := vadd f.X_transp_AX
        (outer (sigma P (dot x f.coef) * sigma P (-dot x f.coef)) x)
      logLikelihood := f.logLikelihood - P.log (1 + P.exp (-y * dot x f.coef)) }) := by
  obtain ⟨h1, h2, h3, h4, h5⟩ := cg_sized_iff.1 hf
  simp only [transitionStep, cg_rawNumRows_toArray hf]
  have s1 : Fields.Sized w { f with numRows := f.numRows + 1 } := hf
  rw [cg_set_numRows hf, if_neg (by simpa using hx), cg_coef_toArray s1, cg_gradNew_toArray s1]
  have l2 : (vadd f.gradNew (smul (sigma P (-y * dot x f.coef) * y) x)).length = w :=
    length_vadd h4 (by rw [length_smul, hx])
  rw [cg_set_gradNew s1 _ l2]
  have s2 : Fields.Sized w { f with
      numRows := f.numRows + 1
      gradNew := vadd f.gradNew (smul (sigma P (-y * dot x f.coef) * y) x) } :=
    ⟨h1, h2, h3, l2, h5⟩
  rw [cg_X_transp_AX_toArray s2]
  have l3 : (vadd f.X_transp_AX
      (outer (sigma P (dot x f.coef) * sigma P (-dot x f.coef)) x)).length = w * w :=
    length_vadd h5 (by rw [length_outer, hx])
  rw [cg_set_X_transp_AX s2 _ l3]
  have s3 : Fields.Sized w { f with
      numRows := f.numRows + 1
      gradNew := vadd f.gradNew (smul (sigma P (-y * dot x f.coef) * y) x)
      X_transp_AX := vadd f.X_transp_AX
        (outer (sigma P (dot x f.coef) * sigma P (-dot x f.coef)) x) } :=
    ⟨h1, h2, h3, l2, l3⟩
  rw [cg_logLikelihood_toArray s3, cg_set_logLikelihood s3]

theorem cg_reset_toArray {w : ℕ} {f : Fields F} (hf : f.Sized w) :
    State.reset w f.toArray = Fields.toArray { f with
      numRows := 0
      gradNew := zeros w
      X_transp_AX := zeros (w * w)
      logLikelihood := 0 } := by
  obtain ⟨h1, h2, h3, h4, h5⟩ := cg_sized_iff.1 hf
  simp only [State.reset]
  have s1 : Fields.Sized w { f with numRows := 0 } := hf
  rw [cg_set_numRows hf, cg_set_X_transp_AX s1 _ (length_zeros _)]
  have s2 : Fields.Sized w { f with numRows := 0, X_transp_AX := zeros (w * w) } :=
    ⟨h1, h2, h3, h4, length_zeros _⟩
  rw [cg_set_gradNew s2 _ (length_zeros _)]
  have s3 : Fields.Sized w { f with
      numRows := 0
      X_transp_AX := zeros (w * w)
      gradNew := zeros w } :=
    ⟨h1, h2, h3, length_zeros _, length_zeros _⟩
  rw [cg_set_logLikelihood s3]

/-- The fields of a freshly initialized CG state of width `w`. -/
theorem cg_replicate_total (w : ℕ) :
    List.replicate (State.total w) (0 : F) = Fields.toArray
      { iteration := 0, widthOfX := 0, coef := zeros w, dir := zeros w, grad := zeros w,
        beta := 0, numRows := 0, gradNew := zeros w, X_transp_AX := zeros (w * w),
        logLikelihood := 0 : Fields F } := by
  symm
  rw [List.eq_replicate_iff]
  constructor
  · simp [Fields.toArray, zeros, State.total]
    omega
  · intro b hb
    simp [Fields.toArray, zeros] at hb
    tauto

theorem cg_init_eq {w : ℕ} (hw : State.arraySize w = State.total w)
    (hi : State.logLikelihoodIndex w ≠ none) :
    (State.init w : Except Error (List F)) = .ok (Fields.toArray
      { iteration := 0, widthOfX := (w : F), coef := zeros w, dir := zeros w, grad := zeros w,
        beta := 0, numRows := 0, gradNew := zeros w, X_transp_AX := zeros (w * w),
        logLikelihood := 0 : Fields F }) := by
  have s0 : Fields.Sized w
      { iteration := 0, widthOfX := 0, coef := zeros w, dir := zeros w, grad := zeros w,
        beta := 0, numRows := 0, gradNew := zeros w, X_transp_AX := zeros (w * w),
        logLikelihood := 0 : Fields F } :=
    ⟨length_zeros _, length_zeros _, length_zeros _, length_zeros _, length_zeros _⟩
  have s1 : Fields.Sized w
      { iteration := 0, widthOfX := (w : F), coef := zeros w, dir := zeros w, grad := zeros w,
        beta := 0, numRows := 0, gradNew := zeros w, X_transp_AX := zeros (w * w),
        logLikelihood := 0 : Fields F } :=
    ⟨length_zeros _, length_zeros _, length_zeros _, length_zeros _, length_zeros _⟩
  simp only [State.init, hw, lt_irrefl, hi, if_false, cg_replicate_total]
  rw [cg_set_iteration s0, cg_set_widthOfX s0, cg_set_coef s1 _ (length_zeros _),
    cg_set_dir s1 _ (length_zeros _), cg_set_grad s1 _ (length_zeros _), cg_set_beta s1,
    cg_reset_toArray s1]

theorem cg_final_zero [LT F] [DecidableRel (fun a b : F => a < b)] (P : Prim F) {w : ℕ}
    {f : Fields F} (hf : f.Sized w) (hw : P.toNat f.widthOfX = w)
    (hi : P.toNat f.iteration = 0) :
    final P f.toArray = Fields.toArray { f with
      iteration := f.iteration + 1
      coef := vadd f.coef (smul (dot f.gradNew f.gradNew /
        quadForm w f.X_transp_AX f.gradNew) f.gradNew)
      dir := f.gradNew
      grad := f.gradNew } := by
  obtain ⟨h1, h2, h3, h4, h5⟩ := cg_sized_iff.1 hf
  simp only [final, cg_widthOfX_toArray, hw, cg_iteration_toArray, hi, if_true]
  rw [cg_gradNew_toArray hf, cg_set_dir hf _ h4]
  have s1 : Fields.Sized w { f with dir := f.gradNew } := ⟨h1, h4, h3, h4, h5⟩
  rw [cg_gradNew_toArray s1, cg_set_grad s1 _ h4]
  have s2 : Fields.Sized w { f with dir := f.gradNew, grad := f.gradNew } :=
    ⟨h1, h4, h4, h4, h5⟩
  rw [cg_coef_toArray s2, cg_grad_toArray s2, cg_dir_toArray s2, cg_X_transp_AX_toArray s2]
  have l3 : (vadd f.coef (smul (dot f.gradNew f.gradNew /
      quadForm w f.X_transp_AX f.gradNew) f.gradNew)).length = w :=
    length_vadd h1 (by rw [length_smul, h4])
  rw [cg_set_coef s2 _ l3]
  have s3 : Fields.Sized w { f with
      dir := f.gradNew
      grad := f.gradNew
      coef := vadd f.coef (smul (dot f.gradNew f.gradNew /
        quadForm w f.X_transp_AX f.gradNew) f.gradNew) } :=
    ⟨l3, h4, h4, h4, h5⟩
  rw [cg_set_iteration s3]
  rfl

theorem cg_final_succ [LT F] [DecidableRel (fun a b : F => a < b)] (P : Prim F) {w : ℕ}
    {f : Fields F} (hf : f.Sized w) (hw : P.toNat f.widthOfX = w)
    (hi : P.toNat f.iteration ≠ 0) (b : F) (d : List F)
    (hb : b = if dot f.gradNew (vsub f.gradNew f.grad) / dot f.grad f.grad < 0 then 0
      else dot f.gradNew (vsub f.gradNew f.grad) / dot f.dir (vsub f.gradNew f.grad))
    (hd : d = vsub f.gradNew (smul b f.dir)) :
    final P f.toArray = Fields.toArray { f with
      iteration := f.iteration + 1
      coef := vadd f.coef (smul (dot f.gradNew d / quadForm w f.X_transp_AX d) d)
      dir := d
      grad := f.gradNew
      beta := b } := by
  obtain ⟨h1, h2, h3, h4, h5⟩ := cg_sized_iff.1 hf
  simp only [final, cg_widthOfX_toArray, hw, cg_iteration_toArray, hi, if_false]
  rw [cg_gradNew_toArray hf, cg_grad_toArray hf, cg_dir_toArray hf, cg_set_beta hf]
  have s1 : ∀ c : F, Fields.Sized w { f with beta := c } := fun _ => hf
  rw [cg_gradNew_toArray (s1 _), cg_grad_toArray (s1 _)]
  have e : ∀ (c : Prop) [Decidable c] (b0 : F),
      (if c then (Fields.toArray { f with beta := b0 }).set (2 + 3 * w) 0
        else Fields.toArray { f with beta := b0 }) =
      Fields.toArray { f with beta := (if c then 0 else b0) } := by
    intro c _ b0
    split_ifs
    · rw [cg_set_beta (s1 _)]
    · rfl
  rw [e, ← hb]
  rw [cg_gradNew_toArray (s1 _), cg_beta_toArray (s1 _), cg_dir_toArray (s1 _)]
  have ld : d.length = w := by
    rw [hd]
    exact length_vsub h4 (by rw [length_smul, h2])
  rw [← hd, cg_set_dir (s1 _) _ ld]
  have s2 : Fields.Sized w { f with beta := b, dir := d } := ⟨h1, ld, h3, h4, h5⟩
  rw [cg_gradNew_toArray s2, cg_set_grad s2 _ h4]
  have s3 : Fields.Sized w { f with beta := b, dir := d, grad := f.gradNew } :=
    ⟨h1, ld, h4, h4, h5⟩
  rw [cg_coef_toArray s3, cg_grad_toArray s3, cg_dir_toArray s3, cg_X_transp_AX_toArray s3]
  have l3 : (vadd f.coef (smul (dot f.gradNew d / quadForm w f.X_transp_AX d) d)).length = w :=
    length_vadd h1 (by rw [length_smul, ld])
  rw [cg_set_coef s3 _ l3]
  have s4 : Fields.Sized w { f with
      beta := b
      dir := d
      grad := f.gradNew
      coef := vadd f.coef (smul (dot f.gradNew d / quadForm w f.X_transp_AX d) d) } :=
    ⟨l3, ld, h4, h4, h5⟩
  rw [cg_set_iteration s4]
  rfl

end Operations

end LogisticRegressionCG

/-! ## The array layout of the IRLS state -/

namespace LogisticRegressionIRLS

section Layout

variable {F : Type}

theorem irls_length_toArray {w : ℕ} {f : Fields F} (h : f.Sized w) :
    f.toArray.length = State.total w := by
  obtain ⟨h1, h2, h3⟩ := h
  simp [Fields.toArray, State.total, h1, h2, h3]
  omega

variable [Zero F]

theorem irls_fields_toArray {w : ℕ} {f : Fields F} (h : f.Sized w) :
    State.fields w f.toArray = f := by
  obtain ⟨h1, h2, h3⟩ := h
  cases f with
  | mk wd c n z M ll =>
    simp only at h1 h2 h3
    simp only [State.fields, Fields.toArray, Fields.mk.injEq]
    refine ⟨?_, ?_, ?_, ?_, ?_, ?_⟩
    · have e : wd :: (c ++ (n :: (z ++ (M ++ ([ll]))))) = ([]) ++ wd :: (c ++ (n :: (z ++ (M ++ ([ll]))))) := by simp
      rw [e]
      exact getD_append_cons _ _ _ _ _ (by simp only [List.length_cons, List.length_append, List.length_nil, List.length_singleton, h1, h2, h3] <;> omega)
    · have e : wd :: (c ++ (n :: (z ++ (M ++ ([ll]))))) = ([wd]) ++ (c ++ (n :: (z ++ (M ++ ([ll]))))) := by simp
      rw [State.coef, e]
      exact slice_append _ _ _ _ _ (by simp only [List.length_cons, List.length_append, List.length_nil, List.length_singleton, h1, h2, h3] <;> omega) h1
    · have e : wd :: (c ++ (n :: (z ++ (M ++ ([ll]))))) = (wd :: (c)) ++ n :: (z ++ (M ++ ([ll]))) := by simp
      rw [e]
      exact getD_append_cons _ _ _ _ _ (by simp only [List.length_cons, List.length_append, List.length_nil, List.length_singleton, h1, h2, h3] <;> omega)
    · have e : wd :: (c ++ (n :: (z ++ (M ++ ([ll]))))) = (wd :: (c ++ ([n]))) ++ (z ++ (M ++ ([ll]))) := by simp
      rw [State.X_transp_Az, e]
      exact slice_append _ _ _ _ _ (by simp only [List.length_cons, List.length_append, List.length_nil, List.length_singleton, h1, h2, h3] <;> omega) h2
    · have e : wd :: (c ++ (n :: (z ++ (M ++ ([ll]))))) = (wd :: (c ++ (n :: (z)))) ++ (M ++ ([ll])) := by simp
      rw [State.X_transp_AX, e]
      exact slice_append _ _ _ _ _ (by simp only [List.length_cons, List.length_append, List.length_nil, List.length_singleton, h1, h2, h3] <;> omega) h3
    · have e : wd :: (c ++ (n :: (z ++ (M ++ ([ll]))))) = (wd :: (c ++ (n :: (z ++ (M))))) ++ ll :: ([]) := by simp
      rw [State.logLikelihood, e]
      exact getD_append_cons _ _ _ _ _ (by simp only [List.length_cons, List.length_append, List.length_nil, List.length_singleton, h1, h2, h3] <;> omega)

theorem irls_set_widthOfX {w : ℕ} {f : Fields F} (h : f.Sized w) (a : F) :
    f.toArray.set (0) a = Fields.toArray { f with widthOfX := a } := by
  obtain ⟨h1, h2, h3⟩ := h
  cases f with
  | mk wd c n z M ll =>
    simp only at h1 h2 h3
    simp only [Fields.toArray]
    have e : wd :: (c ++ (n :: (z ++ (M ++ ([ll]))))) = ([]) ++ wd :: (c ++ (n :: (z ++ (M ++ ([ll]))))) := by simp
    have e2 : a :: (c ++ (n :: (z ++ (M ++ ([ll]))))) = ([]) ++ a :: (c ++ (n :: (z ++ (M ++ ([ll]))))) := by simp
    rw [e, e2]
    exact set_append_cons _ _ _ _ _ (by simp only [List.length_cons, List.length_append, List.length_nil, List.length_singleton, h1, h2, h3] <;> omega)

theorem irls_set_coef {w : ℕ} {f : Fields F} (h : f.Sized w) (u : List F)
    (hu : u.length = w) :
    setSlice f.toArray (1) u = Fields.toArray { f with coef := u } := by
  obtain ⟨h1, h2, h3⟩ := h
  cases f with
  | mk wd c n z M ll =>
    simp only at h1 h2 h3
    simp only [Fields.toArray]
    have e : wd :: (c ++ (n :: (z ++ (M ++ ([ll]))))) = ([wd]) ++ (c ++ (n :: (z ++ (M ++ ([ll]))))) := by simp
    have e2 : wd :: (u ++ (n :: (z ++ (M ++ ([ll]))))) = ([wd]) ++ (u ++ (n :: (z ++ (M ++ ([ll]))))) := by simp
    rw [e, e2]
    exact setSlice_append _ _ _ _ _ (by simp only [List.length_cons, List.length_append, List.length_nil, List.length_singleton, h1, h2, h3] <;> omega) (by rw [hu, h1])

theorem irls_set_numRows {w : ℕ} {f : Fields F} (h : f.Sized w) (a : F) :
    f.toArray.set (1 + w) a = Fields.toArray { f with numRows := a } := by
  obtain ⟨h1, h2, h3⟩ := h
  cases f with
  | mk wd c n z M ll =>
    simp only at h1 h2 h3
    simp only [Fields.toArray]
    have e : wd :: (c ++ (n :: (z ++ (M ++ ([ll]))))) = (wd :: (c)) ++ n :: (z ++ (M ++ ([ll]))) := by simp
    have e2 : wd :: (c ++ (a :: (z ++ (M ++ ([ll]))))) = (wd :: (c)) ++ a :: (z ++ (M ++ ([ll]))) := by simp
    rw [e, e2]
    exact set_append_cons _ _ _ _ _ (by simp only [List.length_cons, List.length_append, List.length_nil, List.length_singleton, h1, h2, h3] <;> omega)

theorem irls_set_X_transp_Az {w : ℕ} {f : Fields F} (h : f.Sized w) (u : List F)
    (hu : u.length = w) :
    setSlice f.toArray (2 + w) u = Fields.toArray { f with X_transp_Az := u } := by
  obtain ⟨h1, h2, h3⟩ := h
  cases f with
  | mk wd c n z M ll =>
    simp only at h1 h2 h3
    simp only [Fields.toArray]
    have e : wd :: (c ++ (n :: (z ++ (M ++ ([ll]))))) = (wd :: (c ++ ([n]))) ++ (z ++ (M ++ ([ll]))) := by simp
    have e2 : wd :: (c ++ (n :: (u ++ (M ++ ([ll]))))) = (wd :: (c ++ ([n]))) ++ (u ++ (M ++ ([ll]))) := by simp
    rw [e, e2]
    exact setSlice_append _ _ _ _ _ (by simp only [List.length_cons, List.length_append, List.length_nil, List.length_singleton, h1, h2, h3] <;> omega) (by rw [hu, h2])

theorem irls_set_X_transp_AX {w : ℕ} {f : Fields F} (h : f.Sized w) (u : List F)
    (hu : u.length = w * w) :
    setSlice f.toArray (2 + 2 * w) u = Fields.toArray { f with X_transp_AX := u } := by
  obtain ⟨h1, h2, h3⟩ := h
  cases f with
  | mk wd c n z M ll =>
    simp only at h1 h2 h3
    simp only [Fields.toArray]
    have e : wd :: (c ++ (n :: (z ++ (M ++ ([ll]))))) = (wd :: (c ++ (n :: (z)))) ++ (M ++ ([ll])) := by simp
    have e2 : wd :: (c ++ (n :: (z ++ (u ++ ([ll]))))) = (wd :: (c ++ (n :: (z)))) ++ (u ++ ([ll])) := by simp
    rw [e, e2]
    exact setSlice_append _ _ _ _ _ (by simp only [List.length_cons, List.length_append, List.length_nil, List.length_singleton, h1, h2, h3] <;> omega) (by rw [hu, h3])

theorem irls_set_logLikelihood {w : ℕ} {f : Fields F} (h : f.Sized w) (a : F) :
    f.toArray.set (2 + w * w + 2 * w) a = Fields.toArray { f with logLikelihood := a } := by
  obtain ⟨h1, h2, h3⟩ := h
  cases f with
  | mk wd c n z M ll =>
    simp only at h1 h2 h3
    simp only [Fields.toArray]
    have e : wd :: (c ++ (n :: (z ++ (M ++ ([ll]))))) = (wd :: (c ++ (n :: (z ++ (M))))) ++ ll :: ([]) := by simp
    have e2 : wd :: (c ++ (n :: (z ++ (M ++ ([a]))))) = (wd :: (c ++ (n :: (z ++ (M))))) ++ a :: ([]) := by simp
    rw [e, e2]
    exact set_append_cons _ _ _ _ _ (by simp only [List.length_cons, List.length_append, List.length_nil, List.length_singleton, h1, h2, h3] <;> omega)


/-- A storage of the layout length is the concatenation of the fields its view reads. -/
theorem irls_toArray_fields {w : ℕ} {m : List F} (h : m.length = State.total w) :
    (State.fields w m).toArray = m := by
  unfold State.total at h
  have e0 : m = m.getD 0 0 :: m.drop 1 := by
    have := split_getD m 0 0 (by omega)
    simpa using this
  have e1 : m.drop 1 = slice m 1 w ++ m.drop (1 + w) := split_slice m 1 w
  have e2 : m.drop (1 + w) = m.getD (1 + w) 0 :: m.drop (2 + w) := by
    have := split_getD m (1 + w) 0 (by omega)
    rwa [show 1 + w + 1 = 2 + w by omega] at this
  have e3 : m.drop (2 + w) = slice m (2 + w) w ++ m.drop (2 + 2 * w) := by
    have := split_slice m (2 + w) w
    rwa [show 2 + w + w = 2 + 2 * w by omega] at this
  have e4 : m.drop (2 + 2 * w) = slice m (2 + 2 * w) (w * w) ++ m.drop (2 + w * w + 2 * w) := by
    have := split_slice m (2 + 2 * w) (w * w)
    rwa [show 2 + 2 * w + w * w = 2 + w * w + 2 * w by omega] at this
  have e5 : m.drop (2 + w * w + 2 * w) = [m.getD (2 + w * w + 2 * w) 0] := by
    have := split_getD m (2 + w * w + 2 * w) 0 (by omega)
    rwa [List.drop_eq_nil_of_le (show m.length ≤ 2 + w * w + 2 * w + 1 by omega)] at this
  rw [e1, e2, e3, e4, e5] at e0
  exact e0.symm

theorem irls_sized_fields {w : ℕ} {m : List F} (h : m.length = State.total w) :
    (State.fields w m).Sized w := by
  unfold State.total at h
  refine ⟨?_, ?_, ?_⟩
  · exact length_slice _ _ _ (by omega)
  · exact length_slice _ _ _ (by omega)
  · exact length_slice _ _ _ (by omega)

theorem irls_sized_iff {w : ℕ} {f : Fields F} :
    f.Sized w ↔ f.coef.length = w ∧ f.X_transp_Az.length = w ∧ f.X_transp_AX.length = w * w :=
  Iff.rfl

theorem irls_coef_toArray {w : ℕ} {f : Fields F} (h : f.Sized w) :
    State.coef w f.toArray = f.coef :=
  congrArg Fields.coef (irls_fields_toArray h)

theorem irls_rawNumRows_toArray {w : ℕ} {f : Fields F} (h : f.Sized w) :
    f.toArray.getD (1 + w) 0 = f.numRows :=
  congrArg Fields.numRows (irls_fields_toArray h)

theorem irls_numRows_toArray (P : Prim F) {w : ℕ} {f : Fields F} (h : f.Sized w) :
    State.numRows P w f.toArray = P.toNat f.numRows :=
  congrArg P.toNat (irls_rawNumRows_toArray h)

theorem irls_X_transp_Az_toArray {w : ℕ} {f : Fields F} (h : f.Sized w) :
    State.X_transp_Az w f.toArray = f.X_transp_Az :=
  congrArg Fields.X_transp_Az (irls_fields_toArray h)

theorem irls_X_transp_AX_toArray {w : ℕ} {f : Fields F} (h : f.Sized w) :
    State.X_transp_AX w f.toArray = f.X_transp_AX :=
  congrArg Fields.X_transp_AX (irls_fields_toArray h)

theorem irls_logLikelihood_toArray {w : ℕ} {f : Fields F} (h : f.Sized w) :
    State.logLikelihood w f.toArray = f.logLikelihood :=
  congrArg Fields.logLikelihood (irls_fields_toArray h)

theorem irls_widthOfX_toArray (P : Prim F) (f : Fields F) :
    State.widthOfX P f.toArray = P.toNat f.widthOfX :=
  rfl

end Layout

section Operations

variable {F : Type} [Zero F] [One F] [Add F] [Sub F] [Mul F] [Div F] [Neg F] [NatCast F]

theorem irls_plusAssign_toArray (P : Prim F) {w : ℕ} {f g : Fields F} (hf : f.Sized w)
    (hg : g.Sized w) (hw : P.toNat f.widthOfX = P.toNat g.widthOfX) :
    State.plusAssign P w f.toArray w g.toArray = .ok (Fields.toArray { f with
      numRows := f.numRows + ((P.toNat g.numRows : ℕ) : F)
      X_transp_Az := vadd f.X_transp_Az g.X_transp_Az
      X_transp_AX := vadd f.X_transp_AX g.X_transp_AX
      logLikelihood := f.logLikelihood + g.logLikelihood }) := by
  have hl : f.toArray.length = g.toArray.length := by
    rw [irls_length_toArray hf, irls_length_toArray hg]
  obtain ⟨h1, h2, h3⟩ := irls_sized_iff.1 hf
  obtain ⟨k1, k2, k3⟩ := irls_sized_iff.1 hg
  simp only [State.plusAssign, irls_rawNumRows_toArray hf]
  simp [hl, irls_widthOfX_toArray, hw, irls_numRows_toArray, hf, hg,
    irls_rawNumRows_toArray, irls_set_numRows, irls_X_transp_Az_toArray, irls_sized_iff,
    h1, h2, h3, k1, k2, k3, irls_set_X_transp_Az, vadd,
    irls_X_transp_AX_toArray, irls_set_X_transp_AX, irls_logLikelihood_toArray,
    irls_set_logLikelihood]

theorem irls_mergeStates_toArray (P : Prim F) {w : ℕ} {f g : Fields F} (hf : f.Sized w)
    (hg : g.Sized w) (hwf : P.toNat f.widthOfX = w) (hwg : P.toNat g.widthOfX = w)
    (hnf : P.toNat f.numRows ≠ 0) (hng : P.toNat g.numRows ≠ 0) :
    mergeStates P f.toArray g.toArray = .ok (Fields.toArray { f with
      numRows := f.numRows + ((P.toNat g.numRows : ℕ) : F)
      X_transp_Az := vadd f.X_transp_Az g.X_transp_Az
      X_transp_AX := vadd f.X_transp_AX g.X_transp_AX
      logLikelihood := f.logLikelihood + g.logLikelihood }) := by
  unfold mergeStates
  simp only [irls_widthOfX_toArray, hwf, hwg, irls_numRows_toArray P hf,
    irls_numRows_toArray P hg, hnf, hng, if_false]
  exact irls_plusAssign_toArray P hf hg (hwf.trans hwg.symm)

theorem irls_transitionStep_toArray (P : Prim F) {w : ℕ} {f : Fields F} (hf : f.Sized w)
    (y : F) (x : List F) (hx : x.length = w) :
    transitionStep P w f.toArray y x = .ok (Fields.toArray { f with
      numRows := f.numRows + 1
      X_transp_Az := vadd f.X_transp_Az (x.map (fun xi =>
        xi * (sigma P (dot x f.coef) * sigma P (-dot x f.coef)) *
          (dot x f.coef + sigma P (-y * dot x f.coef) * y /
            (sigma P (dot x f.coef) * sigma P (-dot x f.coef)))))
      X_transp_AX := vadd f.X_transp_AX
        (outer (sigma P (dot x f.coef) * sigma P (-dot x f.coef)) x)
      logLikelihood := f.logLikelihood - P.log (1 + P.exp (-y * dot x f.coef)) }) := by
  obtain ⟨h1, h4, h5⟩ := irls_sized_iff.1 hf
  simp only [transitionStep, irls_rawNumRows_toArray hf]
  have s1 : Fields.Sized w { f with numRows := f.numRows + 1 } := hf
  rw [irls_set_numRows hf, if_neg (by simpa using hx), irls_coef_toArray s1,
    irls_X_transp_Az_toArray s1]
  have l2 : (vadd f.X_transp_Az (x.map (fun xi =>
        xi * (sigma P (dot x f.coef) * sigma P (-dot x f.coef)) *
          (dot x f.coef + sigma P (-y * dot x f.coef) * y /
            (sigma P (dot x f.coef) * sigma P (-dot x f.coef)))))).length = w :=
    length_vadd h4 (by rw [List.length_map, hx])
  rw [irls_set_X_transp_Az s1 _ l2]
  have s2 : Fields.Sized w { f with
      numRows := f.numRows + 1
      X_transp_Az := vadd f.X_transp_Az (x.map (fun xi =>
        xi * (sigma P (dot x f.coef) * sigma P (-dot x f.coef)) *
          (dot x f.coef + sigma P (-y * dot x f.coef) * y /
            (sigma P (dot x f.coef) * sigma P (-dot x f.coef))))) } :=
    ⟨h1, l2, h5⟩
  rw [irls_X_transp_AX_toArray s2]
  have l3 : (vadd f.X_transp_AX
      (outer (sigma P (dot x f.coef) * sigma P (-dot x f.coef)) x)).length = w * w :=
    length_vadd h5 (by rw [length_outer, hx])
  rw [irls_set_X_transp_AX s2 _ l3]
  have s3 : Fields.Sized w { f with
      numRows := f.numRows + 1
      X_transp_Az := vadd f.X_transp_Az (x.map (fun xi =>
        xi * (sigma P (dot x f.coef) * sigma P (-dot x f.coef)) *
          (dot x f.coef + sigma P (-y * dot x f.coef) * y /
            (sigma P (dot x f.coef) * sigma P (-dot x f.coef)))))
      X_transp_AX := vadd f.X_transp_AX
        (outer (sigma P (dot x f.coef) * sigma P (-dot x f.coef)) x) } :=
    ⟨h1, l2, l3⟩
  rw [irls_logLikelihood_toArray s3, irls_set_logLikelihood s3]

theorem irls_reset_toArray {w : ℕ} {f : Fields F} (hf : f.Sized w) :
    State.reset w f.toArray = Fields.toArray { f with
      numRows := 0
      X_transp_Az := zeros w
      X_transp_AX := zeros (w * w)
      logLikelihood := 0 } := by
  obtain ⟨h1, h4, h5⟩ := irls_sized_iff.1 hf
  simp only [State.reset]
  have s1 : Fields.Sized w { f with numRows := 0 } := hf
  rw [irls_set_numRows hf, irls_set_X_transp_Az s1 _ (length_zeros _)]
  have s2 : Fields.Sized w { f with numRows := 0, X_transp_Az := zeros w } :=
    ⟨h1, length_zeros _, h5⟩
  rw [irls_set_X_transp_AX s2 _ (length_zeros _)]
  have s3 : Fields.Sized w { f with
      numRows := 0
      X_transp_Az := zeros w
      X_transp_AX := zeros (w * w) } :=
    ⟨h1, length_zeros _, length_zeros _⟩
  rw [irls_set_logLikelihood s3]

/-- The fields of a freshly initialized IRLS state of width `w`. -/
theorem irls_replicate_total (w : ℕ) :
    List.replicate (State.total w) (0 : F) = Fields.toArray
      { widthOfX := 0, coef := zeros w, numRows := 0, X_transp_Az := zeros w,
        X_transp_AX := zeros (w * w), logLikelihood := 0 : Fields F } := by
  symm
  rw [List.eq_replicate_iff]
  constructor
  · simp [Fields.toArray, zeros, State.total]
    omega
  · intro b hb
    simp [Fields.toArray, zeros] at hb
    tauto

theorem irls_init_eq {w : ℕ} (hw : State.arraySize w = State.total w)
    (hi : State.logLikelihoodIndex w ≠ none) :
    (State.init w : Except Error (List F)) = .ok (Fields.toArray
      { widthOfX := (w : F), coef := zeros w, numRows := 0, X_transp_Az := zeros w,
        X_transp_AX := zeros (w * w), logLikelihood := 0 : Fields F }) := by
  have s0 : Fields.Sized w
      { widthOfX := 0, coef := zeros w, numRows := 0, X_transp_Az := zeros w,
        X_transp_AX := zeros (w * w), logLikelihood := 0 : Fields F } :=
    ⟨length_zeros _, length_zeros _, length_zeros _⟩
  have s1 : Fields.Sized w
      { widthOfX := (w : F), coef := zeros w, numRows := 0, X_transp_Az := zeros w,
        X_transp_AX := zeros (w * w), logLikelihood := 0 : Fields F } :=
    ⟨length_zeros _, length_zeros _, length_zeros _⟩
  simp only [State.init, hw, lt_irrefl, hi, if_false, irls_replicate_total]
  rw [irls_set_widthOfX s0, irls_set_coef s1 _ (length_zeros _), irls_reset_toArray s1]

theorem irls_final_toArray (P : Prim F) {w : ℕ} {f : Fields F} (hf : f.Sized w)
    (hw : P.toNat f.widthOfX = w)
    (hfin : (!f.X_transp_AX.all P.isFinite || !f.X_transp_Az.all P.isFinite) = false) :
    final P f.toArray = .ok (Fields.toArray { f with
      coef := matVec w (P.pinv w f.X_transp_AX) f.X_transp_Az }) := by
  simp only [final, irls_widthOfX_toArray, hw, irls_X_transp_AX_toArray hf,
    irls_X_transp_Az_toArray hf, hfin]
  rw [irls_set_coef hf _ (length_matVec _ _ _)]
  rfl

end Operations

end LogisticRegressionIRLS

/-! ## Merging with the all-zero state -/

section MergeIdentity

variable {F : Type} [Zero F] [One F] [Add F] [Sub F] [Mul F] [Div F] [Neg F] [NatCast F]

theorem getD_zeros (n k : ℕ) : (zeros n : List F).getD k 0 = 0 := by
  unfold zeros
  by_cases h : k < n
  · rw [List.getD_eq_getElem _ _ (by simpa using h)]
    simp
  · rw [List.getD_eq_default _ _ (by simpa using h)]

/-- Claim C1 fails as stated.  The CG state `[1, 0, 0, 0, 0]` (width 0, `iteration = 1`,
`numRows = 0`: what `final` returns for the all-zero state) merged with the all-zero state
on its right is the all-zero state, not the state itself; likewise for the IRLS state
`[1, 5, 0, 0, 0, 0]` of width 1 with `coef = [5]` and `numRows = 0`. -/
theorem C1_counterexample :
    LogisticRegressionCG.final ratPrim [0, 0, 0, 0, 0] = [1, 0, 0, 0, 0] ∧
    LogisticRegressionCG.mergeStates ratPrim [1, 0, 0, 0, 0] [0, 0, 0, 0, 0]
      = .ok [0, 0, 0, 0, 0] ∧
    LogisticRegressionCG.mergeStates ratPrim [1, 0, 0, 0, 0] [0, 0, 0, 0, 0]
      ≠ .ok [1, 0, 0, 0, 0] ∧
    LogisticRegressionIRLS.mergeStates ratPrim [1, 5, 0, 0, 0, 0] [0, 0, 0]
      = .ok [0, 0, 0] ∧
    LogisticRegressionIRLS.mergeStates ratPrim [1, 5, 0, 0, 0, 0] [0, 0, 0]
      ≠ .ok [1, 5, 0, 0, 0, 0] := by
  refine ⟨?_, ?_, ?_, ?_, ?_⟩
  · simp [LogisticRegressionCG.final, LogisticRegressionCG.State.iteration,
      LogisticRegressionCG.State.widthOfX, ratPrim, setSlice, slice,
      LogisticRegressionCG.State.gradNew, LogisticRegressionCG.State.coef,
      LogisticRegressionCG.State.dir, LogisticRegressionCG.State.grad, vadd, smul]
  · simp [LogisticRegressionCG.mergeStates, LogisticRegressionCG.State.numRows,
      LogisticRegressionCG.State.widthOfX, ratPrim]
  · simp [LogisticRegressionCG.mergeStates, LogisticRegressionCG.State.numRows,
      LogisticRegressionCG.State.widthOfX, ratPrim]
  · simp [LogisticRegressionIRLS.mergeStates, LogisticRegressionIRLS.State.numRows,
      LogisticRegressionIRLS.State.widthOfX, ratPrim]
  · simp [LogisticRegressionIRLS.mergeStates, LogisticRegressionIRLS.State.numRows,
      LogisticRegressionIRLS.State.widthOfX, ratPrim]

theorem cg_numRows_zeros (P : Prim F) (hP : P.toNat 0 = 0) (n w : ℕ) :
    LogisticRegressionCG.State.numRows P w (zeros n) = 0 := by
  rw [LogisticRegressionCG.State.numRows, getD_zeros, hP]

theorem irls_numRows_zeros (P : Prim F) (hP : P.toNat 0 = 0) (n w : ℕ) :
    LogisticRegressionIRLS.State.numRows P w (zeros n) = 0 := by
  rw [LogisticRegressionIRLS.State.numRows, getD_zeros, hP]

/-- Claim C1, amended.  For every state `s` and every all-zero state (an array of `n`
zeros), in both variants: `mergeStates(zero, s)` returns `s`; `mergeStates(s, zero)` returns
`s` when the `numRows` of `s` is not 0, and returns the all-zero state when it is 0.  No
call raises. -/
theorem C1_merge_identity (P : Prim F) (hP : P.toNat 0 = 0) (s : List F) (n : ℕ) :
    (LogisticRegressionCG.mergeStates P (zeros n) s = .ok s ∧
      (LogisticRegressionCG.State.numRows P (LogisticRegressionCG.State.widthOfX P s) s ≠ 0 →
        LogisticRegressionCG.mergeStates P s (zeros n) = .ok s) ∧
      (LogisticRegressionCG.State.numRows P (LogisticRegressionCG.State.widthOfX P s) s = 0 →
        LogisticRegressionCG.mergeStates P s (zeros n) = .ok (zeros n))) ∧
    (LogisticRegressionIRLS.mergeStates P (zeros n) s = .ok s ∧
      (LogisticRegressionIRLS.State.numRows P (LogisticRegressionIRLS.State.widthOfX P s) s ≠ 0 →
        LogisticRegressionIRLS.mergeStates P s (zeros n) = .ok s) ∧
      (LogisticRegressionIRLS.State.numRows P (LogisticRegressionIRLS.State.widthOfX P s) s = 0 →
        LogisticRegressionIRLS.mergeStates P s (zeros n) = .ok (zeros n))) := by
  refine ⟨⟨?_, ?_, ?_⟩, ?_, ?_, ?_⟩
  · simp [LogisticRegressionCG.mergeStates, cg_numRows_zeros P hP]
  · intro h
    simp [LogisticRegressionCG.mergeStates, cg_numRows_zeros P hP, h]
  · intro h
    simp [LogisticRegressionCG.mergeStates, h]
  · simp [LogisticRegressionIRLS.mergeStates, irls_numRows_zeros P hP]
  · intro h
    simp [LogisticRegressionIRLS.mergeStates, irls_numRows_zeros P hP, h]
  · intro h
    simp [LogisticRegressionIRLS.mergeStates, h]

/-- The amended claim C1 at the CG state `[0, 1, 2, 0, 0, 0, 3, 4, 5, 6]` of width 1 with
three rows and the all-zero state of five elements. -/
theorem C1_merge_identity_witness :
    ratPrim.toNat 0 = 0 ∧
    LogisticRegressionCG.mergeStates ratPrim (zeros 5) [0, 1, 2, 0, 0, 0, 3, 4, 5, 6]
      = .ok [0, 1, 2, 0, 0, 0, 3, 4, 5, 6] :=
  ⟨by simp [ratPrim],
    (C1_merge_identity ratPrim (by simp [ratPrim]) [0, 1, 2, 0, 0, 0, 3, 4, 5, 6] 5).1.1⟩

end MergeIdentity

/-! ## Merging in exact arithmetic -/

section MergeAlgebra

variable {K : Type} [LinearOrderedField K]

theorem vadd_comm (a b : List K) : vadd a b = vadd b a :=
  List.zipWith_comm_of_comm _ (fun x y => add_comm x y) a b

theorem vadd_assoc (a b c : List K) : vadd (vadd a b) c = vadd a (vadd b c) := by
  induction a generalizing b c with
  | nil => simp [vadd]
  | cons x a ih =>
    cases b with
    | nil => simp [vadd]
    | cons y b =>
      cases c with
      | nil => simp [vadd]
      | cons z c =>
        have := ih b c
        simp only [vadd] at this
        simp [vadd, add_assoc, this]

open LogisticRegressionCG in
theorem cg_valid_elim (P : Prim K) {w : ℕ} {m : List K} (h : State.Valid P w m) :
    ∃ f : Fields K, f.Sized w ∧ P.toNat f.widthOfX = w ∧ (∃ n : ℕ, f.numRows = (n : K)) ∧
      m = f.toArray ∧ State.fields w m = f := by
  obtain ⟨h1, h2, h3⟩ := h
  exact ⟨State.fields w m, cg_sized_fields h1, h2, h3, (cg_toArray_fields h1).symm, rfl⟩

open LogisticRegressionCG in
theorem cg_valid_toArray (P : Prim K) {w : ℕ} {f : Fields K} (hs : f.Sized w)
    (hw : P.toNat f.widthOfX = w) (hn : ∃ n : ℕ, f.numRows = (n : K)) :
    State.Valid P w f.toArray :=
  ⟨cg_length_toArray hs, hw, by rw [cg_rawNumRows_toArray hs]; exact hn⟩

open LogisticRegressionCG in
/-- Merging two valid CG states that both hold rows adds the intra-iteration fields and
keeps the inter-iteration fields of the left state. -/
theorem cg_merge_fields (P : Prim K) (hP : ∀ n : ℕ, P.toNat (n : K) = n) {w : ℕ}
    {f g : Fields K} (hf : f.Sized w) (hg : g.Sized w) (hwf : P.toNat f.widthOfX = w)
    (hwg : P.toNat g.widthOfX = w) (hcg : ∃ n : ℕ, g.numRows = (n : K))
    (hnf : P.toNat f.numRows ≠ 0) (hng : P.toNat g.numRows ≠ 0) :
    mergeStates P f.toArray g.toArray = .ok (Fields.toArray { f with
      numRows := f.numRows + g.numRows
      gradNew := vadd f.gradNew g.gradNew
      X_transp_AX := vadd f.X_transp_AX g.X_transp_AX
      logLikelihood := f.logLikelihood + g.logLikelihood }) := by
  rw [cg_mergeStates_toArray P hf hg hwf hwg hnf hng]
  obtain ⟨n, hn⟩ := hcg
  rw [hn, hP]

open LogisticRegressionIRLS in
theorem irls_valid_elim (P : Prim K) {w : ℕ} {m : List K} (h : State.Valid P w m) :
    ∃ f : Fields K, f.Sized w ∧ P.toNat f.widthOfX = w ∧ (∃ n : ℕ, f.numRows = (n : K)) ∧
      m = f.toArray ∧ State.fields w m = f := by
  obtain ⟨h1, h2, h3⟩ := h
  exact ⟨State.fields w m, irls_sized_fields h1, h2, h3, (irls_toArray_fields h1).symm, rfl⟩

open LogisticRegressionIRLS in
theorem irls_valid_toArray (P : Prim K) {w : ℕ} {f : Fields K} (hs : f.Sized w)
    (hw : P.toNat f.widthOfX = w) (hn : ∃ n : ℕ, f.numRows = (n : K)) :
    State.Valid P w f.toArray :=
  ⟨irls_length_toArray hs, hw, by rw [irls_rawNumRows_toArray hs]; exact hn⟩

open LogisticRegressionIRLS in
/-- Merging two valid IRLS states that both hold rows adds the intra-iteration fields and
keeps the inter-iteration fields of the left state. -/
theorem irls_merge_fields (P : Prim K) (hP : ∀ n : ℕ, P.toNat (n : K) = n) {w : ℕ}
    {f g : Fields K} (hf : f.Sized w) (hg : g.Sized w) (hwf : P.toNat f.widthOfX = w)
    (hwg : P.toNat g.widthOfX = w) (hcg : ∃ n : ℕ, g.numRows = (n : K))
    (hnf : P.toNat f.numRows ≠ 0) (hng : P.toNat g.numRows ≠ 0) :
    mergeStates P f.toArray g.toArray = .ok (Fields.toArray { f with
      numRows := f.numRows + g.numRows
      X_transp_Az := vadd f.X_transp_Az g.X_transp_Az
      X_transp_AX := vadd f.X_transp_AX g.X_transp_AX
      logLikelihood := f.logLikelihood + g.logLikelihood }) := by
  rw [irls_mergeStates_toArray P hf hg hwf hwg hnf hng]
  obtain ⟨n, hn⟩ := hcg
  rw [hn, hP]

open LogisticRegressionCG in
theorem cg_merge_comm (P : Prim K) (hP : ∀ n : ℕ, P.toNat (n : K) = n) (w : ℕ)
    (a b : List K) (ha : State.Valid P w a) (hb : State.Valid P w b) :
    (State.numRows P w a ≠ 0 → State.numRows P w b ≠ 0 →
      ∃ s t, mergeStates P a b = .ok s ∧ mergeStates P b a = .ok t ∧
        State.fields w s = { State.fields w a with
          numRows := (State.fields w a).numRows + (State.fields w b).numRows
          gradNew := vadd (State.fields w a).gradNew (State.fields w b).gradNew
          X_transp_AX := vadd (State.fields w a).X_transp_AX (State.fields w b).X_transp_AX
          logLikelihood := (State.fields w a).logLikelihood + (State.fields w b).logLikelihood } ∧
        State.fields w t = { State.fields w b with
          numRows := (State.fields w a).numRows + (State.fields w b).numRows
          gradNew := vadd (State.fields w a).gradNew (State.fields w b).gradNew
          X_transp_AX := vadd (State.fields w a).X_transp_AX (State.fields w b).X_transp_AX
          logLikelihood := (State.fields w a).logLikelihood + (State.fields w b).logLikelihood } ∧
        ((State.fields w a).iteration = (State.fields w b).iteration ∧
          (State.fields w a).widthOfX = (State.fields w b).widthOfX ∧
          (State.fields w a).coef = (State.fields w b).coef ∧
          (State.fields w a).dir = (State.fields w b).dir ∧
          (State.fields w a).grad = (State.fields w b).grad ∧
          (State.fields w a).beta = (State.fields w b).beta → s = t)) ∧
    ((State.numRows P w a = 0 ∧ State.numRows P w b ≠ 0) ∨
        (State.numRows P w a ≠ 0 ∧ State.numRows P w b = 0) →
      ∃ s, mergeStates P a b = .ok s ∧ mergeStates P b a = .ok s) := by
  constructor
  · intro hna hnb
    obtain ⟨f, hf, hwf, hcf, rfl, ef⟩ := cg_valid_elim P ha
    obtain ⟨g, hg, hwg, hcg, rfl, eg⟩ := cg_valid_elim P hb
    rw [cg_numRows_toArray P hf] at hna
    rw [cg_numRows_toArray P hg] at hnb
    rw [ef, eg, cg_merge_fields P hP hf hg hwf hwg hcg hna hnb,
      cg_merge_fields P hP hg hf hwg hwf hcf hnb hna]
    obtain ⟨h1, h2, h3, h4, h5⟩ := hf
    obtain ⟨k1, k2, k3, k4, k5⟩ := hg
    refine ⟨_, _, rfl, rfl, ?_, ?_, ?_⟩
    · exact cg_fields_toArray ⟨h1, h2, h3, length_vadd h4 k4, length_vadd h5 k5⟩
    · refine (cg_fields_toArray ?_).trans ?_
      · exact ⟨k1, k2, k3, length_vadd k4 h4, length_vadd k5 h5⟩
      · rw [add_comm g.numRows, add_comm g.logLikelihood, vadd_comm g.gradNew,
          vadd_comm g.X_transp_AX]
    · rintro ⟨e1, e2, e3, e4, e5, e6⟩
      rw [add_comm g.numRows, add_comm g.logLikelihood, vadd_comm g.gradNew,
        vadd_comm g.X_transp_AX, e1, e2, e3, e4, e5, e6]
  · have hwa : State.widthOfX P a = w := ha.2.1
    have hwb : State.widthOfX P b = w := hb.2.1
    rintro (⟨h0, h1⟩ | ⟨h1, h0⟩)
    · exact ⟨b, by simp [mergeStates, hwa, hwb, h0, h1]⟩
    · exact ⟨a, by simp [mergeStates, hwa, hwb, h0, h1]⟩

open LogisticRegressionIRLS in
theorem irls_merge_comm (P : Prim K) (hP : ∀ n : ℕ, P.toNat (n : K) = n) (w : ℕ)
    (a b : List K) (ha : State.Valid P w a) (hb : State.Valid P w b) :
    (State.numRows P w a ≠ 0 → State.numRows P w b ≠ 0 →
      ∃ s t, mergeStates P a b = .ok s ∧ mergeStates P b a = .ok t ∧
        State.fields w s = { State.fields w a with
          numRows := (State.fields w a).numRows + (State.fields w b).numRows
          X_transp_Az := vadd (State.fields w a).X_transp_Az (State.fields w b).X_transp_Az
          X_transp_AX := vadd (State.fields w a).X_transp_AX (State.fields w b).X_transp_AX
          logLikelihood := (State.fields w a).logLikelihood + (State.fields w b).logLikelihood } ∧
        State.fields w t = { State.fields w b with
          numRows := (State.fields w a).numRows + (State.fields w b).numRows
          X_transp_Az := vadd (State.fields w a).X_transp_Az (State.fields w b).X_transp_Az
          X_transp_AX := vadd (State.fields w a).X_transp_AX (State.fields w b).X_transp_AX
          logLikelihood := (State.fields w a).logLikelihood + (State.fields w b).logLikelihood } ∧
        ((State.fields w a).widthOfX = (State.fields w b).widthOfX ∧
          (State.fields w a).coef = (State.fields w b).coef → s = t)) ∧
    ((State.numRows P w a = 0 ∧ State.numRows P w b ≠ 0) ∨
        (State.numRows P w a ≠ 0 ∧ State.numRows P w b = 0) →
      ∃ s, mergeStates P a b = .ok s ∧ mergeStates P b a = .ok s) := by
  constructor
  · intro hna hnb
    obtain ⟨f, hf, hwf, hcf, rfl, ef⟩ := irls_valid_elim P ha
    obtain ⟨g, hg, hwg, hcg, rfl, eg⟩ := irls_valid_elim P hb
    rw [irls_numRows_toArray P hf] at hna
    rw [irls_numRows_toArray P hg] at hnb
    rw [ef, eg, irls_merge_fields P hP hf hg hwf hwg hcg hna hnb,
      irls_merge_fields P hP hg hf hwg hwf hcf hnb hna]
    obtain ⟨h1, h4, h5⟩ := hf
    obtain ⟨k1, k4, k5⟩ := hg
    refine ⟨_, _, rfl, rfl, ?_, ?_, ?_⟩
    · exact irls_fields_toArray ⟨h1, length_vadd h4 k4, length_vadd h5 k5⟩
    · refine (irls_fields_toArray ?_).trans ?_
      · exact ⟨k1, length_vadd k4 h4, length_vadd k5 h5⟩
      · rw [add_comm g.numRows, add_comm g.logLikelihood, vadd_comm g.X_transp_Az,
          vadd_comm g.X_transp_AX]
    · rintro ⟨e1, e2⟩
      rw [add_comm g.numRows, add_comm g.logLikelihood, vadd_comm g.X_transp_Az,
        vadd_comm g.X_transp_AX, e1, e2]
  · have hwa : State.widthOfX P a = w := ha.2.1
    have hwb : State.widthOfX P b = w := hb.2.1
    rintro (⟨h0, h1⟩ | ⟨h1, h0⟩)
    · exact ⟨b, by simp [mergeStates, hwa, hwb, h0, h1]⟩
    · exact ⟨a, by simp [mergeStates, hwa, hwb, h0, h1]⟩

end MergeAlgebra

/-! ## Claim C3: commutativity of the merge -/

section MergeComm

variable {K : Type} [LinearOrderedField K]

/-- Claim C3 fails as stated.  The CG states `a = [0, 1, 1, 0, 0, 0, 1, 0, 0, 0]` and
`b = [0, 1, 2, 0, 0, 0, 1, 0, 0, 0]` are valid states of width 1 with one row each,
`coef = [1]` in `a` and `coef = [2]` in `b`.  `mergeStates(a, b)` keeps `coef = [1]` and
`mergeStates(b, a)` keeps `coef = [2]`: the results differ. -/
theorem C3_counterexample :
    LogisticRegressionCG.State.Valid ratPrim 1 [0, 1, 1, 0, 0, 0, 1, 0, 0, 0] ∧
    LogisticRegressionCG.State.Valid ratPrim 1 [0, 1, 2, 0, 0, 0, 1, 0, 0, 0] ∧
    LogisticRegressionCG.mergeStates ratPrim [0, 1, 1, 0, 0, 0, 1, 0, 0, 0]
      [0, 1, 2, 0, 0, 0, 1, 0, 0, 0] = .ok [0, 1, 1, 0, 0, 0, 2, 0, 0, 0] ∧
    LogisticRegressionCG.mergeStates ratPrim [0, 1, 2, 0, 0, 0, 1, 0, 0, 0]
      [0, 1, 1, 0, 0, 0, 1, 0, 0, 0] = .ok [0, 1, 2, 0, 0, 0, 2, 0, 0, 0] ∧
    LogisticRegressionCG.mergeStates ratPrim [0, 1, 1, 0, 0, 0, 1, 0, 0, 0]
      [0, 1, 2, 0, 0, 0, 1, 0, 0, 0] ≠
    LogisticRegressionCG.mergeStates ratPrim [0, 1, 2, 0, 0, 0, 1, 0, 0, 0]
      [0, 1, 1, 0, 0, 0, 1, 0, 0, 0] := by
  have e1 : LogisticRegressionCG.mergeStates ratPrim [0, 1, 1, 0, 0, 0, 1, 0, 0, 0]
      [0, 1, 2, 0, 0, 0, 1, 0, 0, 0] = .ok [0, 1, 1, 0, 0, 0, 2, 0, 0, 0] := by
    simp [LogisticRegressionCG.mergeStates, LogisticRegressionCG.State.numRows,
      LogisticRegressionCG.State.widthOfX, ratPrim, LogisticRegressionCG.State.plusAssign,
      setSlice, slice, vadd, LogisticRegressionCG.State.gradNew,
      LogisticRegressionCG.State.X_transp_AX, LogisticRegressionCG.State.logLikelihood]
    norm_num
  have e2 : LogisticRegressionCG.mergeStates ratPrim [0, 1, 2, 0, 0, 0, 1, 0, 0, 0]
      [0, 1, 1, 0, 0, 0, 1, 0, 0, 0] = .ok [0, 1, 2, 0, 0, 0, 2, 0, 0, 0] := by
    simp [LogisticRegressionCG.mergeStates, LogisticRegressionCG.State.numRows,
      LogisticRegressionCG.State.widthOfX, ratPrim, LogisticRegressionCG.State.plusAssign,
      setSlice, slice, vadd, LogisticRegressionCG.State.gradNew,
      LogisticRegressionCG.State.X_transp_AX, LogisticRegressionCG.State.logLikelihood]
    norm_num
  refine ⟨⟨by decide, by simp [LogisticRegressionCG.State.widthOfX, ratPrim], 1, by simp⟩,
    ⟨by decide, by simp [LogisticRegressionCG.State.widthOfX, ratPrim], 1, by simp⟩,
    e1, e2, ?_⟩
  rw [e1, e2]
  simp

/-- Claim C3, amended.  In exact arithmetic, for valid states `a` and `b` of equal width `w`,
in both variants: when both hold rows (`numRows` not 0), `mergeStates(a, b)` and
`mergeStates(b, a)` both return a state, with the same `numRows`, `gradNew` (CG) or
`X_transp_Az` (IRLS), `X_transp_AX` and `logLikelihood` (the element-wise sums), while the
inter-iteration fields of `mergeStates(a, b)` are those of `a` and the inter-iteration fields
of `mergeStates(b, a)` are those of `b`; the two results are equal as whole states when the
inter-iteration fields of `a` and `b` are equal.  When exactly one of the two states has
`numRows = 0`, both orders return the same state. -/
theorem C3_merge_comm (P : Prim K) (hP : ∀ n : ℕ, P.toNat (n : K) = n) (w : ℕ)
    (a b : List K) :
    (LogisticRegressionCG.State.Valid P w a → LogisticRegressionCG.State.Valid P w b →
        (LogisticRegressionCG.State.numRows P w a ≠ 0 → LogisticRegressionCG.State.numRows P w b ≠ 0 →
          ∃ s t, LogisticRegressionCG.mergeStates P a b = .ok s ∧ LogisticRegressionCG.mergeStates P b a = .ok t ∧
            LogisticRegressionCG.State.fields w s = { LogisticRegressionCG.State.fields w a with
              numRows := (LogisticRegressionCG.State.fields w a).numRows + (LogisticRegressionCG.State.fields w b).numRows
              gradNew := vadd (LogisticRegressionCG.State.fields w a).gradNew (LogisticRegressionCG.State.fields w b).gradNew
              X_transp_AX := vadd (LogisticRegressionCG.State.fields w a).X_transp_AX (LogisticRegressionCG.State.fields w b).X_transp_AX
              logLikelihood := (LogisticRegressionCG.State.fields w a).logLikelihood + (LogisticRegressionCG.State.fields w b).logLikelihood } ∧
            LogisticRegressionCG.State.fields w t = { LogisticRegressionCG.State.fields w b with
              numRows := (LogisticRegressionCG.State.fields w a).numRows + (LogisticRegressionCG.State.fields w b).numRows
              gradNew := vadd (LogisticRegressionCG.State.fields w a).gradNew (LogisticRegressionCG.State.fields w b).gradNew
              X_transp_AX := vadd (LogisticRegressionCG.State.fields w a).X_transp_AX (LogisticRegressionCG.State.fields w b).X_transp_AX
              logLikelihood := (LogisticRegressionCG.State.fields w a).logLikelihood + (LogisticRegressionCG.State.fields w b).logLikelihood } ∧
            ((LogisticRegressionCG.State.fields w a).iteration = (LogisticRegressionCG.State.fields w b).iteration ∧
              (LogisticRegressionCG.State.fields w a).widthOfX = (LogisticRegressionCG.State.fields w b).widthOfX ∧
              (LogisticRegressionCG.State.fields w a).coef = (LogisticRegressionCG.State.fields w b).coef ∧
              (LogisticRegressionCG.State.fields w a).dir = (LogisticRegressionCG.State.fields w b).dir ∧
              (LogisticRegressionCG.State.fields w a).grad = (LogisticRegressionCG.State.fields w b).grad ∧
              (LogisticRegressionCG.State.fields w a).beta = (LogisticRegressionCG.State.fields w b).beta → s = t)) ∧
        ((LogisticRegressionCG.State.numRows P w a = 0 ∧ LogisticRegressionCG.State.numRows P w b ≠ 0) ∨
            (LogisticRegressionCG.State.numRows P w a ≠ 0 ∧ LogisticRegressionCG.State.numRows P w b = 0) →
          ∃ s, LogisticRegressionCG.mergeStates P a b = .ok s ∧ LogisticRegressionCG.mergeStates P b a = .ok s)) ∧
    (LogisticRegressionIRLS.State.Valid P w a → LogisticRegressionIRLS.State.Valid P w b →
        (LogisticRegressionIRLS.State.numRows P w a ≠ 0 → LogisticRegressionIRLS.State.numRows P w b ≠ 0 →
          ∃ s t, LogisticRegressionIRLS.mergeStates P a b = .ok s ∧ LogisticRegressionIRLS.mergeStates P b a = .ok t ∧
            LogisticRegressionIRLS.State.fields w s = { LogisticRegressionIRLS.State.fields w a with
              numRows := (LogisticRegressionIRLS.State.fields w a).numRows + (LogisticRegressionIRLS.State.fields w b).numRows
              X_transp_Az := vadd (LogisticRegressionIRLS.State.fields w a).X_transp_Az (LogisticRegressionIRLS.State.fields w b).X_transp_Az
              X_transp_AX := vadd (LogisticRegressionIRLS.State.fields w a).X_transp_AX (LogisticRegressionIRLS.State.fields w b).X_transp_AX
              logLikelihood := (LogisticRegressionIRLS.State.fields w a).logLikelihood + (LogisticRegressionIRLS.State.fields w b).logLikelihood } ∧
            LogisticRegressionIRLS.State.fields w t = { LogisticRegressionIRLS.State.fields w b with
              numRows := (LogisticRegressionIRLS.State.fields w a).numRows + (LogisticRegressionIRLS.State.fields w b).numRows
              X_transp_Az := vadd (LogisticRegressionIRLS.State.fields w a).X_transp_Az (LogisticRegressionIRLS.State.fields w b).X_transp_Az
              X_transp_AX := vadd (LogisticRegressionIRLS.State.fields w a).X_transp_AX (LogisticRegressionIRLS.State.fields w b).X_transp_AX
              logLikelihood := (LogisticRegressionIRLS.State.fields w a).logLikelihood + (LogisticRegressionIRLS.State.fields w b).logLikelihood } ∧
            ((LogisticRegressionIRLS.State.fields w a).widthOfX = (LogisticRegressionIRLS.State.fields w b).widthOfX ∧
              (LogisticRegressionIRLS.State.fields w a).coef = (LogisticRegressionIRLS.State.fields w b).coef → s = t)) ∧
        ((LogisticRegressionIRLS.State.numRows P w a = 0 ∧ LogisticRegressionIRLS.State.numRows P w b ≠ 0) ∨
            (LogisticRegressionIRLS.State.numRows P w a ≠ 0 ∧ LogisticRegressionIRLS.State.numRows P w b = 0) →
          ∃ s, LogisticRegressionIRLS.mergeStates P a b = .ok s ∧ LogisticRegressionIRLS.mergeStates P b a = .ok s)) :=
  ⟨fun ha hb => cg_merge_comm P hP w a b ha hb, fun ha hb => irls_merge_comm P hP w a b ha hb⟩

/-- The amended claim C3 at two valid CG states of width 1 with one row each. -/
theorem C3_merge_comm_witness :
    (∀ n : ℕ, ratPrim.toNat (n : ℚ) = n) ∧
    LogisticRegressionCG.State.Valid ratPrim 1 [0, 1, 1, 0, 0, 0, 1, 0, 0, 0] ∧
    LogisticRegressionCG.State.Valid ratPrim 1 [0, 1, 2, 0, 0, 0, 1, 0, 0, 0] ∧
    ∃ s t, LogisticRegressionCG.mergeStates ratPrim [0, 1, 1, 0, 0, 0, 1, 0, 0, 0]
        [0, 1, 2, 0, 0, 0, 1, 0, 0, 0] = .ok s ∧
      LogisticRegressionCG.mergeStates ratPrim [0, 1, 2, 0, 0, 0, 1, 0, 0, 0]
        [0, 1, 1, 0, 0, 0, 1, 0, 0, 0] = .ok t ∧
      (LogisticRegressionCG.State.fields 1 s).numRows
        = (LogisticRegressionCG.State.fields 1 t).numRows := by
  have hP : ∀ n : ℕ, ratPrim.toNat (n : ℚ) = n := fun n => by simp [ratPrim]
  have va : LogisticRegressionCG.State.Valid ratPrim 1 [0, 1, 1, 0, 0, 0, 1, 0, 0, 0] :=
    ⟨by decide, by simp [LogisticRegressionCG.State.widthOfX, ratPrim], 1, by simp⟩
  have vb : LogisticRegressionCG.State.Valid ratPrim 1 [0, 1, 2, 0, 0, 0, 1, 0, 0, 0] :=
    ⟨by decide, by simp [LogisticRegressionCG.State.widthOfX, ratPrim], 1, by simp⟩
  obtain ⟨s, t, h1, h2, h3, h4, _⟩ :=
    ((C3_merge_comm ratPrim hP 1 _ _).1 va vb).1
      (by simp [LogisticRegressionCG.State.numRows, ratPrim])
      (by simp [LogisticRegressionCG.State.numRows, ratPrim])
  exact ⟨hP, va, vb, s, t, h1, h2, by rw [h3, h4]⟩

end MergeComm

/-! ## Claim C2: associativity of the merge -/

section MergeAssoc

variable {K : Type} [LinearOrderedField K]

open LogisticRegressionCG in
theorem cg_merge_valid (P : Prim K) (hP : ∀ n : ℕ, P.toNat (n : K) = n) {w : ℕ}
    {a b : List K} (ha : State.Valid P w a) (hb : State.Valid P w b)
    (hna : State.numRows P w a ≠ 0) (hnb : State.numRows P w b ≠ 0) :
    ∃ r, mergeStates P a b = .ok r ∧ State.Valid P w r ∧ State.numRows P w r ≠ 0 ∧
      State.fields w r = { State.fields w a with
        numRows := (State.fields w a).numRows + (State.fields w b).numRows
        gradNew := vadd (State.fields w a).gradNew (State.fields w b).gradNew
        X_transp_AX := vadd (State.fields w a).X_transp_AX (State.fields w b).X_transp_AX
        logLikelihood :=
          (State.fields w a).logLikelihood + (State.fields w b).logLikelihood } := by
  obtain ⟨f, hf, hwf, hcf, rfl, ef⟩ := cg_valid_elim P ha
  obtain ⟨g, hg, hwg, hcg, rfl, eg⟩ := cg_valid_elim P hb
  rw [cg_numRows_toArray P hf] at hna
  rw [cg_numRows_toArray P hg] at hnb
  rw [ef, eg, cg_merge_fields P hP hf hg hwf hwg hcg hna hnb]
  obtain ⟨h1, h2, h3, h4, h5⟩ := hf
  obtain ⟨k1, k2, k3, k4, k5⟩ := hg
  obtain ⟨nf, hnf⟩ := hcf
  obtain ⟨ng, hng⟩ := hcg
  have hs : Fields.Sized w { f with
      numRows := f.numRows + g.numRows
      gradNew := vadd f.gradNew g.gradNew
      X_transp_AX := vadd f.X_transp_AX g.X_transp_AX
      logLikelihood := f.logLikelihood + g.logLikelihood } :=
    ⟨h1, h2, h3, length_vadd h4 k4, length_vadd h5 k5⟩
  have hc : f.numRows + g.numRows = ((nf + ng : ℕ) : K) := by
    rw [hnf, hng, Nat.cast_add]
  refine ⟨_, rfl, cg_valid_toArray P hs hwf ⟨nf + ng, hc⟩, ?_, cg_fields_toArray hs⟩
  rw [cg_numRows_toArray P hs]
  show P.toNat (f.numRows + g.numRows) ≠ 0
  rw [hc, hP]
  rw [hnf, hP] at hna
  omega

open LogisticRegressionCG in
theorem cg_merge_assoc_valid (P : Prim K) (hP : ∀ n : ℕ, P.toNat (n : K) = n) {w : ℕ}
    {a b c : List K} (ha : State.Valid P w a) (hb : State.Valid P w b)
    (hc : State.Valid P w c) (hna : State.numRows P w a ≠ 0)
    (hnb : State.numRows P w b ≠ 0) (hnc : State.numRows P w c ≠ 0) :
    ∃ ab bc r, mergeStates P a b = .ok ab ∧ mergeStates P b c = .ok bc ∧
      mergeStates P ab c = .ok r ∧ mergeStates P a bc = .ok r := by
  obtain ⟨ab, e1, v1, n1, f1⟩ := cg_merge_valid P hP ha hb hna hnb
  obtain ⟨bc, e2, v2, n2, f2⟩ := cg_merge_valid P hP hb hc hnb hnc
  obtain ⟨r1, e3, v3, n3, f3⟩ := cg_merge_valid P hP v1 hc n1 hnc
  obtain ⟨r2, e4, v4, n4, f4⟩ := cg_merge_valid P hP ha v2 hna n2
  have e : r1 = r2 := by
    rw [← cg_toArray_fields v3.1, ← cg_toArray_fields v4.1, f3, f4, f1, f2]
    simp only [vadd_assoc, add_assoc]
  exact ⟨ab, bc, r1, e1, e2, e3, e ▸ e4⟩

open LogisticRegressionCG in
theorem cg_holds_rows (P : Prim K) (hP : ∀ n : ℕ, P.toNat (n : K) = n) {w : ℕ} {s : List K}
    (hs : State.Valid P w s ∨ ∃ n, s = zeros n)
    (h : State.numRows P (State.widthOfX P s) s ≠ 0) :
    State.Valid P w s ∧ State.numRows P w s ≠ 0 := by
  rcases hs with hv | ⟨n, rfl⟩
  · exact ⟨hv, by rw [hv.2.1] at h; exact h⟩
  · exact absurd (cg_numRows_zeros P (by simpa using hP 0) n _) h

open LogisticRegressionCG in
theorem cg_merge_total (P : Prim K) (hP : ∀ n : ℕ, P.toNat (n : K) = n) {w : ℕ}
    {s t : List K} (hs : State.Valid P w s ∨ ∃ n, s = zeros n)
    (ht : State.Valid P w t ∨ ∃ n, t = zeros n) : ∃ r, mergeStates P s t = .ok r := by
  by_cases h1 : State.numRows P (State.widthOfX P s) s = 0
  · exact ⟨t, by simp only [mergeStates, h1, if_true]⟩
  · by_cases h2 : State.numRows P (State.widthOfX P t) t = 0
    · exact ⟨s, by simp only [mergeStates, h1, h2, if_true, if_false]⟩
    · obtain ⟨v1, n1⟩ := cg_holds_rows P hP hs h1
      obtain ⟨v2, n2⟩ := cg_holds_rows P hP ht h2
      obtain ⟨r, e, _⟩ := cg_merge_valid P hP v1 v2 n1 n2
      exact ⟨r, e⟩

open LogisticRegressionCG in
theorem cg_merge_assoc (P : Prim K) (hP : ∀ n : ℕ, P.toNat (n : K) = n) (w : ℕ)
    (a b c : List K) (ha : State.Valid P w a ∨ ∃ n, a = zeros n)
    (hb : State.Valid P w b ∨ ∃ n, b = zeros n) (hc : State.Valid P w c ∨ ∃ n, c = zeros n) :
    ∃ ab bc r, mergeStates P a b = .ok ab ∧ mergeStates P b c = .ok bc ∧
      mergeStates P ab c = .ok r ∧ mergeStates P a bc = .ok r := by
  by_cases h1 : State.numRows P (State.widthOfX P a) a = 0
  · obtain ⟨bc, e⟩ := cg_merge_total P hP hb hc
    exact ⟨b, bc, bc, by simp only [mergeStates, h1, if_true], e, e,
      by simp only [mergeStates, h1, if_true]⟩
  · by_cases h2 : State.numRows P (State.widthOfX P b) b = 0
    · obtain ⟨r, e⟩ := cg_merge_total P hP ha hc
      exact ⟨a, c, r, by simp only [mergeStates, h1, h2, if_true, if_false],
        by simp only [mergeStates, h2, if_true], e, e⟩
    · obtain ⟨v1, n1⟩ := cg_holds_rows P hP ha h1
      obtain ⟨v2, n2⟩ := cg_holds_rows P hP hb h2
      by_cases h3 : State.numRows P (State.widthOfX P c) c = 0
      · obtain ⟨ab, e, v, n, _⟩ := cg_merge_valid P hP v1 v2 n1 n2
        have n0 : State.numRows P (State.widthOfX P ab) ab ≠ 0 := by rw [v.2.1]; exact n
        exact ⟨ab, b, ab, e, by simp only [mergeStates, h2, h3, if_true, if_false],
          by simp only [mergeStates, n0, h3, if_true, if_false], e⟩
      · obtain ⟨v3, n3⟩ := cg_holds_rows P hP hc h3
        exact cg_merge_assoc_valid P hP v1 v2 v3 n1 n2 n3

open LogisticRegressionIRLS in
theorem irls_merge_valid (P : Prim K) (hP : ∀ n : ℕ, P.toNat (n : K) = n) {w : ℕ}
    {a b : List K} (ha : State.Valid P w a) (hb : State.Valid P w b)
    (hna : State.numRows P w a ≠ 0) (hnb : State.numRows P w b ≠ 0) :
    ∃ r, mergeStates P a b = .ok r ∧ State.Valid P w r ∧ State.numRows P w r ≠ 0 ∧
      State.fields w r = { State.fields w a with
        numRows := (State.fields w a).numRows + (State.fields w b).numRows
        X_transp_Az := vadd (State.fields w a).X_transp_Az (State.fields w b).X_transp_Az
        X_transp_AX := vadd (State.fields w a).X_transp_AX (State.fields w b).X_transp_AX
        logLikelihood :=
          (State.fields w a).logLikelihood + (State.fields w b).logLikelihood } := by
  obtain ⟨f, hf, hwf, hcf, rfl, ef⟩ := irls_valid_elim P ha
  obtain ⟨g, hg, hwg, hcg, rfl, eg⟩ := irls_valid_elim P hb
  rw [irls_numRows_toArray P hf] at hna
  rw [irls_numRows_toArray P hg] at hnb
  rw [ef, eg, irls_merge_fields P hP hf hg hwf hwg hcg hna hnb]
  obtain ⟨h1, h4, h5⟩ := hf
  obtain ⟨k1, k4, k5⟩ := hg
  obtain ⟨nf, hnf⟩ := hcf
  obtain ⟨ng, hng⟩ := hcg
  have hs : Fields.Sized w { f with
      numRows := f.numRows + g.numRows
      X_transp_Az := vadd f.X_transp_Az g.X_transp_Az
      X_transp_AX := vadd f.X_transp_AX g.X_transp_AX
      logLikelihood := f.logLikelihood + g.logLikelihood } :=
    ⟨h1, length_vadd h4 k4, length_vadd h5 k5⟩
  have hc : f.numRows + g.numRows = ((nf + ng : ℕ) : K) := by
    rw [hnf, hng, Nat.cast_add]
  refine ⟨_, rfl, irls_valid_toArray P hs hwf ⟨nf + ng, hc⟩, ?_, irls_fields_toArray hs⟩
  rw [irls_numRows_toArray P hs]
  show P.toNat (f.numRows + g.numRows) ≠ 0
  rw [hc, hP]
  rw [hnf, hP] at hna
  omega

open LogisticRegressionIRLS in
theorem irls_merge_assoc_valid (P : Prim K) (hP : ∀ n : ℕ, P.toNat (n : K) = n) {w : ℕ}
    {a b c : List K} (ha : State.Valid P w a) (hb : State.Valid P w b)
    (hc : State.Valid P w c) (hna : State.numRows P w a ≠ 0)
    (hnb : State.numRows P w b ≠ 0) (hnc : State.numRows P w c ≠ 0) :
    ∃ ab bc r, mergeStates P a b = .ok ab ∧ mergeStates P b c = .ok bc ∧
      mergeStates P ab c = .ok r ∧ mergeStates P a bc = .ok r := by
  obtain ⟨ab, e1, v1, n1, f1⟩ := irls_merge_valid P hP ha hb hna hnb
  obtain ⟨bc, e2, v2, n2, f2⟩ := irls_merge_valid P hP hb hc hnb hnc
  obtain ⟨r1, e3, v3, n3, f3⟩ := irls_merge_valid P hP v1 hc n1 hnc
  obtain ⟨r2, e4, v4, n4, f4⟩ := irls_merge_valid P hP ha v2 hna n2
  have e : r1 = r2 := by
    rw [← irls_toArray_fields v3.1, ← irls_toArray_fields v4.1, f3, f4, f1, f2]
    simp only [vadd_assoc, add_assoc]
  exact ⟨ab, bc, r1, e1, e2, e3, e ▸ e4⟩

open LogisticRegressionIRLS in
theorem irls_holds_rows (P : Prim K) (hP : ∀ n : ℕ, P.toNat (n : K) = n) {w : ℕ} {s : List K}
    (hs : State.Valid P w s ∨ ∃ n, s = zeros n)
    (h : State.numRows P (State.widthOfX P s) s ≠ 0) :
    State.Valid P w s ∧ State.numRows P w s ≠ 0 := by
  rcases hs with hv | ⟨n, rfl⟩
  · exact ⟨hv, by rw [hv.2.1] at h; exact h⟩
  · exact absurd (irls_numRows_zeros P (by simpa using hP 0) n _) h

open LogisticRegressionIRLS in
theorem irls_merge_total (P : Prim K) (hP : ∀ n : ℕ, P.toNat (n : K) = n) {w : ℕ}
    {s t : List K} (hs : State.Valid P w s ∨ ∃ n, s = zeros n)
    (ht : State.Valid P w t ∨ ∃ n, t = zeros n) : ∃ r, mergeStates P s t = .ok r := by
  by_cases h1 : State.numRows P (State.widthOfX P s) s = 0
  · exact ⟨t, by simp only [mergeStates, h1, if_true]⟩
  · by_cases h2 : State.numRows P (State.widthOfX P t) t = 0
    · exact ⟨s, by simp only [mergeStates, h1, h2, if_true, if_false]⟩
    · obtain ⟨v1, n1⟩ := irls_holds_rows P hP hs h1
      obtain ⟨v2, n2⟩ := irls_holds_rows P hP ht h2
      obtain ⟨r, e, _⟩ := irls_merge_valid P hP v1 v2 n1 n2
      exact ⟨r, e⟩

open LogisticRegressionIRLS in
theorem irls_merge_assoc (P : Prim K) (hP : ∀ n : ℕ, P.toNat (n : K) = n) (w : ℕ)
    (a b c : List K) (ha : State.Valid P w a ∨ ∃ n, a = zeros n)
    (hb : State.Valid P w b ∨ ∃ n, b = zeros n) (hc : State.Valid P w c ∨ ∃ n, c = zeros n) :
    ∃ ab bc r, mergeStates P a b = .ok ab ∧ mergeStates P b c = .ok bc ∧
      mergeStates P ab c = .ok r ∧ mergeStates P a bc = .ok r := by
  by_cases h1 : State.numRows P (State.widthOfX P a) a = 0
  · obtain ⟨bc, e⟩ := irls_merge_total P hP hb hc
    exact ⟨b, bc, bc, by simp only [mergeStates, h1, if_true], e, e,
      by simp only [mergeStates, h1, if_true]⟩
  · by_cases h2 : State.numRows P (State.widthOfX P b) b = 0
    · obtain ⟨r, e⟩ := irls_merge_total P hP ha hc
      exact ⟨a, c, r, by simp only [mergeStates, h1, h2, if_true, if_false],
        by simp only [mergeStates, h2, if_true], e, e⟩
    · obtain ⟨v1, n1⟩ := irls_holds_rows P hP ha h1
      obtain ⟨v2, n2⟩ := irls_holds_rows P hP hb h2
      by_cases h3 : State.numRows P (State.widthOfX P c) c = 0
      · obtain ⟨ab, e, v, n, _⟩ := irls_merge_valid P hP v1 v2 n1 n2
        have n0 : State.numRows P (State.widthOfX P ab) ab ≠ 0 := by rw [v.2.1]; exact n
        exact ⟨ab, b, ab, e, by simp only [mergeStates, h2, h3, if_true, if_false],
          by simp only [mergeStates, n0, h3, if_true, if_false], e⟩
      · obtain ⟨v3, n3⟩ := irls_holds_rows P hP hc h3
        exact irls_merge_assoc_valid P hP v1 v2 v3 n1 n2 n3

/-- Claim C2.  In exact arithmetic, in both variants: for states `a`, `b`, `c` that each
are a valid state of width `w` or an all-zero state, the four calls `mergeStates(a, b)`,
`mergeStates(b, c)`, `mergeStates(mergeStates(a, b), c)` and
`mergeStates(a, mergeStates(b, c))` all return a state, and the last two return the same
state. -/
theorem C2_merge_assoc (P : Prim K) (hP : ∀ n : ℕ, P.toNat (n : K) = n) (w : ℕ)
    (a b c : List K) :
    ((LogisticRegressionCG.State.Valid P w a ∨ ∃ n, a = zeros n) →
      (LogisticRegressionCG.State.Valid P w b ∨ ∃ n, b = zeros n) →
      (LogisticRegressionCG.State.Valid P w c ∨ ∃ n, c = zeros n) →
      ∃ ab bc r, LogisticRegressionCG.mergeStates P a b = .ok ab ∧
        LogisticRegressionCG.mergeStates P b c = .ok bc ∧
        LogisticRegressionCG.mergeStates P ab c = .ok r ∧
        LogisticRegressionCG.mergeStates P a bc = .ok r) ∧
    ((LogisticRegressionIRLS.State.Valid P w a ∨ ∃ n, a = zeros n) →
      (LogisticRegressionIRLS.State.Valid P w b ∨ ∃ n, b = zeros n) →
      (LogisticRegressionIRLS.State.Valid P w c ∨ ∃ n, c = zeros n) →
      ∃ ab bc r, LogisticRegressionIRLS.mergeStates P a b = .ok ab ∧
        LogisticRegressionIRLS.mergeStates P b c = .ok bc ∧
        LogisticRegressionIRLS.mergeStates P ab c = .ok r ∧
        LogisticRegressionIRLS.mergeStates P a bc = .ok r) :=
  ⟨cg_merge_assoc P hP w a b c, irls_merge_assoc P hP w a b c⟩

/-- Claim C2 at two valid CG states of width 1 with one row each and the all-zero state. -/
theorem C2_merge_assoc_witness :
    (∀ n : ℕ, ratPrim.toNat (n : ℚ) = n) ∧
    LogisticRegressionCG.State.Valid ratPrim 1 [0, 1, 1, 0, 0, 0, 1, 0, 0, 0] ∧
    LogisticRegressionCG.State.Valid ratPrim 1 [0, 1, 2, 0, 0, 0, 1, 0, 0, 0] ∧
    ∃ ab bc r,
      LogisticRegressionCG.mergeStates ratPrim [0, 1, 1, 0, 0, 0, 1, 0, 0, 0]
        [0, 1, 2, 0, 0, 0, 1, 0, 0, 0] = .ok ab ∧
      LogisticRegressionCG.mergeStates ratPrim [0, 1, 2, 0, 0, 0, 1, 0, 0, 0] (zeros 5)
        = .ok bc ∧
      LogisticRegressionCG.mergeStates ratPrim ab (zeros 5) = .ok r ∧
      LogisticRegressionCG.mergeStates ratPrim [0, 1, 1, 0, 0, 0, 1, 0, 0, 0] bc = .ok r := by
  have hP : ∀ n : ℕ, ratPrim.toNat (n : ℚ) = n := fun n => by simp [ratPrim]
  have va : LogisticRegressionCG.State.Valid ratPrim 1 [0, 1, 1, 0, 0, 0, 1, 0, 0, 0] :=
    ⟨by decide, by simp [LogisticRegressionCG.State.widthOfX, ratPrim], 1, by simp⟩
  have vb : LogisticRegressionCG.State.Valid ratPrim 1 [0, 1, 2, 0, 0, 0, 1, 0, 0, 0] :=
    ⟨by decide, by simp [LogisticRegressionCG.State.widthOfX, ratPrim], 1, by simp⟩
  exact ⟨hP, va, vb,
    (C2_merge_assoc ratPrim hP 1 _ _ (zeros 5)).1 (Or.inl va) (Or.inl vb) (Or.inr ⟨5, rfl⟩)⟩

end MergeAssoc

/-! ## Claim C5: the state layout -/

section LayoutClaim

variable {F : Type} [Zero F]

end LayoutClaim

/-! ## Claims C9 and C10: the CG finalizer -/

section CGFinal

variable {F : Type} [Zero F] [One F] [Add F] [Sub F] [Mul F] [Div F] [Neg F] [NatCast F]
  [LT F] [DecidableRel (fun a b : F => a < b)]

open LogisticRegressionCG in
/-- Claim C9.  For every scalar type (the quotient is the one of the scalar type, whatever
it gives for a zero divisor) and every CG state of width `w` whose `iteration` reads 0,
`final` returns the state in which `dir` and `grad` are the old `gradNew`, `coef` is the old
`coef` plus `(gradNew . gradNew) / (gradNew^T * X_transp_AX * gradNew)` times `gradNew`,
the stored `iteration` is the old one plus 1, and `beta`, `widthOfX`, `numRows`, `gradNew`,
`X_transp_AX` and `logLikelihood` are unchanged; `iteration` reads 1 when the increment of
the stored count is exact. -/
theorem C9_final_first (P : Prim F) (w : ℕ) (m : List F) (hl : m.length = State.total w)
    (hw : State.widthOfX P m = w) (hi : State.iteration P m = 0) :
    State.fields w (final P m) = { State.fields w m with
      iteration := m.getD 0 0 + 1
      coef := vadd (State.coef w m)
        (smul (dot (State.gradNew w m) (State.gradNew w m) /
          quadForm w (State.X_transp_AX w m) (State.gradNew w m)) (State.gradNew w m))
      dir := State.gradNew w m
      grad := State.gradNew w m } ∧
    (final P m).length = m.length ∧ State.widthOfX P (final P m) = w ∧
    State.iteration P (final P m) = P.toNat (m.getD 0 0 + 1) ∧
    (P.toNat (m.getD 0 0 + 1) = P.toNat (m.getD 0 0) + 1 →
      State.iteration P (final P m) = 1) := by
  have ht := cg_toArray_fields hl
  have hs := cg_sized_fields hl
  have e0 : m.getD 0 0 = (State.fields w m).iteration := rfl
  have e1 : State.coef w m = (State.fields w m).coef := rfl
  have e2 : State.gradNew w m = (State.fields w m).gradNew := rfl
  have e3 : State.X_transp_AX w m = (State.fields w m).X_transp_AX := rfl
  rw [e0, e1, e2, e3]
  generalize State.fields w m = f at ht hs ⊢
  subst ht
  obtain ⟨h1, h2, h3, h4, h5⟩ := cg_sized_iff.1 hs
  rw [cg_final_zero P hs hw hi]
  have l3 : (vadd f.coef (smul (dot f.gradNew f.gradNew /
      quadForm w f.X_transp_AX f.gradNew) f.gradNew)).length = w :=
    length_vadd h1 (by rw [length_smul, h4])
  have s3 : Fields.Sized w { f with
      iteration := f.iteration + 1
      coef := vadd f.coef (smul (dot f.gradNew f.gradNew /
        quadForm w f.X_transp_AX f.gradNew) f.gradNew)
      dir := f.gradNew
      grad := f.gradNew } :=
    ⟨l3, h4, h4, h4, h5⟩
  have hit : P.toNat f.iteration = 0 := hi
  refine ⟨?_, ?_, hw, rfl, ?_⟩
  · rw [cg_fields_toArray s3]
  · rw [cg_length_toArray s3, cg_length_toArray hs]
  · intro hinc
    rw [cg_iteration_toArray]
    show P.toNat (f.iteration + 1) = 1
    rw [hinc, hit]

open LogisticRegressionCG in
/-- Claim C10.  For every scalar type (the quotients are those of the scalar type, whatever
they give for a zero divisor) and every CG state of width `w` whose `iteration` reads
`k >= 1`, with `D = gradNew - grad`: `final` returns the state in which `beta` is 0 if
`(gradNew . D) / (grad . grad) < 0` and `(gradNew . D) / (dir . D)` otherwise, `dir` is
`gradNew - beta * dir` for the new `beta` and the old `dir`, `grad` is the old `gradNew`,
`coef` is the old `coef` plus `(new grad . new dir) / (new dir^T * X_transp_AX * new dir)`
times the new `dir`, the stored `iteration` is the old one plus 1, and `widthOfX`,
`numRows`, `gradNew`, `X_transp_AX` and `logLikelihood` are unchanged; `iteration` reads
`k + 1` when the increment of the stored count is exact. -/
theorem C10_final_next (P : Prim F) (w k : ℕ) (m : List F)
    (hl : m.length = State.total w) (hw : State.widthOfX P m = w)
    (hc : State.iteration P m = k) (hk : 1 ≤ k) (b : F) (d : List F)
    (hb : b = if dot (State.gradNew w m) (vsub (State.gradNew w m) (State.grad w m)) /
          dot (State.grad w m) (State.grad w m) < 0 then 0
        else dot (State.gradNew w m) (vsub (State.gradNew w m) (State.grad w m)) /
          dot (State.dir w m) (vsub (State.gradNew w m) (State.grad w m)))
    (hd : d = vsub (State.gradNew w m) (smul b (State.dir w m))) :
    State.fields w (final P m) = { State.fields w m with
      iteration := m.getD 0 0 + 1
      coef := vadd (State.coef w m)
        (smul (dot (State.gradNew w m) d / quadForm w (State.X_transp_AX w m) d) d)
      dir := d
      grad := State.gradNew w m
      beta := b } ∧
    (final P m).length = m.length ∧ State.widthOfX P (final P m) = w ∧
    State.iteration P (final P m) = P.toNat (m.getD 0 0 + 1) ∧
    (P.toNat (m.getD 0 0 + 1) = P.toNat (m.getD 0 0) + 1 →
      State.iteration P (final P m) = k + 1) := by
  have ht := cg_toArray_fields hl
  have hs := cg_sized_fields hl
  have hi : State.iteration P m ≠ 0 := by
    rw [hc]
    omega
  have e0 : m.getD 0 0 = (State.fields w m).iteration := rfl
  have e1 : State.coef w m = (State.fields w m).coef := rfl
  have e2 : State.gradNew w m = (State.fields w m).gradNew := rfl
  have e3 : State.X_transp_AX w m = (State.fields w m).X_transp_AX := rfl
  have e4 : State.grad w m = (State.fields w m).grad := rfl
  have e5 : State.dir w m = (State.fields w m).dir := rfl
  rw [e2, e4, e5] at hb
  rw [e2, e5] at hd
  rw [e0, e1, e2, e3]
  generalize State.fields w m = f at ht hs hb hd ⊢
  subst ht
  obtain ⟨h1, h2, h3, h4, h5⟩ := cg_sized_iff.1 hs
  rw [cg_final_succ P hs hw hi b d hb hd]
  have ld : d.length = w := by
    rw [hd]
    exact length_vsub h4 (by rw [length_smul, h2])
  have l3 : (vadd f.coef (smul (dot f.gradNew d / quadForm w f.X_transp_AX d) d)).length = w :=
    length_vadd h1 (by rw [length_smul, ld])
  have s3 : Fields.Sized w { f with
      iteration := f.iteration + 1
      coef := vadd f.coef (smul (dot f.gradNew d / quadForm w f.X_transp_AX d) d)
      dir := d
      grad := f.gradNew
      beta := b } :=
    ⟨l3, ld, h4, h4, h5⟩
  have hit : P.toNat f.iteration = k := hc
  refine ⟨?_, ?_, hw, rfl, ?_⟩
  · rw [cg_fields_toArray s3]
  · rw [cg_length_toArray s3, cg_length_toArray hs]
  · intro hinc
    rw [cg_iteration_toArray]
    show P.toNat (f.iteration + 1) = k + 1
    rw [hinc, hit]

/-- Claim C9 at the CG state `[0, 1, 2, 0, 0, 0, 3, 4, 5, 6]` of width 1 over the rationals:
`gradNew = [4]` and `X_transp_AX = [5]`, the divisor is 80, the new `coef` is
`2 + (16 / 80) * 4 = 14 / 5` and `iteration` reads 1. -/
theorem C9_final_first_witness :
    ([0, 1, 2, 0, 0, 0, 3, 4, 5, 6] : List ℚ).length = LogisticRegressionCG.State.total 1 ∧
    LogisticRegressionCG.State.widthOfX ratPrim [0, 1, 2, 0, 0, 0, 3, 4, 5, 6] = 1 ∧
    LogisticRegressionCG.State.iteration ratPrim [0, 1, 2, 0, 0, 0, 3, 4, 5, 6] = 0 ∧
    quadForm 1 (LogisticRegressionCG.State.X_transp_AX 1 [0, 1, 2, 0, 0, 0, 3, 4, 5, 6])
      (LogisticRegressionCG.State.gradNew 1 [0, 1, 2, 0, 0, 0, 3, 4, 5, 6]) = 80 ∧
    LogisticRegressionCG.State.iteration ratPrim
      (LogisticRegressionCG.final ratPrim [0, 1, 2, 0, 0, 0, 3, 4, 5, 6]) = 1 ∧
    (LogisticRegressionCG.State.fields 1
      (LogisticRegressionCG.final ratPrim [0, 1, 2, 0, 0, 0, 3, 4, 5, 6])).coef = [14 / 5] := by
  have hw : LogisticRegressionCG.State.widthOfX ratPrim [0, 1, 2, 0, 0, 0, 3, 4, 5, 6] = 1 := by
    simp [LogisticRegressionCG.State.widthOfX, ratPrim]
  have hi : LogisticRegressionCG.State.iteration ratPrim [0, 1, 2, 0, 0, 0, 3, 4, 5, 6] = 0 := by
    simp [LogisticRegressionCG.State.iteration, ratPrim]
  obtain ⟨h1, _, _, _, h5⟩ :=
    C9_final_first ratPrim 1 [0, 1, 2, 0, 0, 0, 3, 4, 5, 6] (by decide) hw hi
  refine ⟨by decide, hw, hi, ?_, h5 (by simp [ratPrim]), ?_⟩
  · simp [LogisticRegressionCG.State.X_transp_AX, LogisticRegressionCG.State.gradNew, slice,
      quadForm, vecMat, col, dot, List.range, List.range.loop]
  · rw [h1]
    simp [LogisticRegressionCG.State.X_transp_AX, LogisticRegressionCG.State.gradNew,
      LogisticRegressionCG.State.coef, slice, quadForm, vecMat, col, dot, vadd, smul,
      List.range, List.range.loop]
    norm_num

/-- Claim C10 at the CG state of width 2 with `iteration = 1`, `coef = [0, 0]`,
`dir = [1, 0]`, `grad = [1, 1]`, `gradNew = [3, 1]` and `X_transp_AX` the identity, over
the rationals: `D = [2, 0]`, `dir . D = 2` and `(gradNew . D) / (grad . grad) = 3`, so
`beta = 3`, the new `dir` is `[0, 1]`, the divisor `dir^T * X_transp_AX * dir` is 1, the
new `coef` is `[0, 1]` and `iteration` reads 2. -/
theorem C10_final_next_witness :
    ([1, 2, 0, 0, 1, 0, 1, 1, 0, 1, 3, 1, 1, 0, 0, 1, 0] : List ℚ).length =
      LogisticRegressionCG.State.total 2 ∧
    LogisticRegressionCG.State.widthOfX ratPrim
      [1, 2, 0, 0, 1, 0, 1, 1, 0, 1, 3, 1, 1, 0, 0, 1, 0] = 2 ∧
    LogisticRegressionCG.State.iteration ratPrim
      [1, 2, 0, 0, 1, 0, 1, 1, 0, 1, 3, 1, 1, 0, 0, 1, 0] = 1 ∧
    LogisticRegressionCG.State.iteration ratPrim (LogisticRegressionCG.final ratPrim
      [1, 2, 0, 0, 1, 0, 1, 1, 0, 1, 3, 1, 1, 0, 0, 1, 0]) = 1 + 1 ∧
    LogisticRegressionCG.State.fields 2 (LogisticRegressionCG.final ratPrim
      [1, 2, 0, 0, 1, 0, 1, 1, 0, 1, 3, 1, 1, 0, 0, 1, 0]) =
      { iteration := 2, widthOfX := 2, coef := [0, 1], dir := [0, 1], grad := [3, 1],
        beta := 3, numRows := 1, gradNew := [3, 1], X_transp_AX := [1, 0, 0, 1],
        logLikelihood := 0 } := by
  have hw : LogisticRegressionCG.State.widthOfX ratPrim
      [1, 2, 0, 0, 1, 0, 1, 1, 0, 1, 3, 1, 1, 0, 0, 1, 0] = 2 := by
    simp [LogisticRegressionCG.State.widthOfX, ratPrim]
  have hi : LogisticRegressionCG.State.iteration ratPrim
      [1, 2, 0, 0, 1, 0, 1, 1, 0, 1, 3, 1, 1, 0, 0, 1, 0] = 1 := by
    simp [LogisticRegressionCG.State.iteration, ratPrim]
  obtain ⟨h1, _, _, _, h5⟩ :=
    C10_final_next ratPrim 2 1 [1, 2, 0, 0, 1, 0, 1, 1, 0, 1, 3, 1, 1, 0, 0, 1, 0] (by decide) hw hi
      (le_refl 1) 3 [0, 1]
      (by
        simp [LogisticRegressionCG.State.gradNew, LogisticRegressionCG.State.grad,
          LogisticRegressionCG.State.dir, slice, dot, vsub]
        norm_num)
      (by
        simp [LogisticRegressionCG.State.gradNew, LogisticRegressionCG.State.dir, slice, vsub,
          smul])
  refine ⟨by decide, hw, hi, h5 (by norm_num [ratPrim]), ?_⟩
  rw [h1]
  simp [LogisticRegressionCG.State.fields, LogisticRegressionCG.State.X_transp_AX,
    LogisticRegressionCG.State.gradNew, LogisticRegressionCG.State.coef,
    LogisticRegressionCG.State.beta, LogisticRegressionCG.State.logLikelihood, slice,
    quadForm, vecMat, col, dot, vadd, smul, List.range, List.range.loop]
  norm_num

end CGFinal

/-! ## Claim C8: accumulating one row -/

section Accumulate

variable {K : Type} [LinearOrderedField K]

open LogisticRegressionCG in
theorem cg_transitionInit_rows {F : Type} [Zero F] [NatCast F] (P : Prim F) (m x : List F)
    (previous : Option (List F)) (h : State.numRows P (State.widthOfX P m) m ≠ 0) :
    transitionInit P m x previous = .ok (State.widthOfX P m, m) := by
  unfold transitionInit
  rw [if_neg h]

open LogisticRegressionIRLS in
theorem irls_transitionInit_rows {F : Type} [Zero F] [NatCast F] (P : Prim F) (m x : List F)
    (previous : Option (List F)) (h : State.numRows P (State.widthOfX P m) m ≠ 0) :
    transitionInit P m x previous = .ok (State.widthOfX P m, m) := by
  unfold transitionInit
  rw [if_neg h]

end Accumulate

/-! ## Claim C7: the first call of `transition` -/

section FirstCall

variable {K : Type} [LinearOrderedField K]

theorem cg_arraySize_eq {w : ℕ} (hw : w ≤ 65533) :
    LogisticRegressionCG.State.arraySize w = LogisticRegressionCG.State.total w := by
  unfold LogisticRegressionCG.State.arraySize LogisticRegressionCG.State.total
  apply Nat.mod_eq_of_lt
  have h : w * w ≤ 65533 * 65533 := Nat.mul_le_mul hw hw
  omega

theorem irls_arraySize_eq {w : ℕ} (hw : w ≤ 65534) :
    LogisticRegressionIRLS.State.arraySize w = LogisticRegressionIRLS.State.total w := by
  unfold LogisticRegressionIRLS.State.arraySize LogisticRegressionIRLS.State.total
  apply Nat.mod_eq_of_lt
  have h : w * w ≤ 65534 * 65534 := Nat.mul_le_mul hw hw
  omega

theorem cg_index_eq {w : ℕ} (hw : w ≤ 46338) :
    LogisticRegressionCG.State.logLikelihoodIndex w = some (4 + w * w + 4 * w) := by
  unfold LogisticRegressionCG.State.logLikelihoodIndex intIndex
  have h : w * w ≤ 46338 * 46338 := Nat.mul_le_mul hw hw
  rw [if_pos (by omega)]

theorem cg_index_none {w : ℕ} (hw : 46339 ≤ w) :
    LogisticRegressionCG.State.logLikelihoodIndex w = none := by
  unfold LogisticRegressionCG.State.logLikelihoodIndex intIndex
  have h : 46339 * 46339 ≤ w * w := Nat.mul_le_mul hw hw
  rw [if_neg (by omega)]

theorem cg_index_ne_none {w : ℕ} (hw : w ≤ 46338) :
    LogisticRegressionCG.State.logLikelihoodIndex w ≠ none := by
  rw [cg_index_eq hw]
  exact Option.some_ne_none _

theorem irls_index_eq {w : ℕ} (hw : w ≤ 46339) :
    LogisticRegressionIRLS.State.logLikelihoodIndex w = some (2 + w * w + 2 * w) := by
  unfold LogisticRegressionIRLS.State.logLikelihoodIndex intIndex
  have h : w * w ≤ 46339 * 46339 := Nat.mul_le_mul hw hw
  rw [if_pos (by omega)]

theorem irls_index_none {w : ℕ} (hw : 46340 ≤ w) :
    LogisticRegressionIRLS.State.logLikelihoodIndex w = none := by
  unfold LogisticRegressionIRLS.State.logLikelihoodIndex intIndex
  have h : 46340 * 46340 ≤ w * w := Nat.mul_le_mul hw hw
  rw [if_neg (by omega)]

theorem irls_index_ne_none {w : ℕ} (hw : w ≤ 46339) :
    LogisticRegressionIRLS.State.logLikelihoodIndex w ≠ none := by
  rw [irls_index_eq hw]
  exact Option.some_ne_none _

open LogisticRegressionCG in
/-- The first call without a previous state, on the fields. -/
theorem cg_transitionInit_none (P : Prim K) (st x : List K) {w : ℕ}
    (h0 : State.numRows P (State.widthOfX P st) st = 0) (hx : x.length = w)
    (hw : w ≤ 46338) :
    transitionInit P st x none = .ok (w, Fields.toArray
      { iteration := 0, widthOfX := (w : K), coef := zeros w, dir := zeros w, grad := zeros w,
        beta := 0, numRows := 0, gradNew := zeros w, X_transp_AX := zeros (w * w),
        logLikelihood := 0 : Fields K }) := by
  have e : x.length % 2 ^ 16 = w := by rw [hx]; exact Nat.mod_eq_of_lt (by omega)
  unfold transitionInit
  rw [if_pos h0, e, cg_init_eq (cg_arraySize_eq (by omega)) (cg_index_ne_none hw)]

theorem vadd_zeros_left (v : List K) : vadd (zeros v.length) v = v := by
  induction v with
  | nil => rfl
  | cons a v ih =>
    simp only [zeros, vadd] at ih
    simp [zeros, vadd, List.replicate_succ, ih]

theorem vadd_zeros_left_of_length {n : ℕ} (v : List K) (h : v.length = n) :
    vadd (zeros n) v = v := by
  subst h
  exact vadd_zeros_left v

open LogisticRegressionCG in
theorem cg_transition_first_none (P : Prim K) (hP : ∀ n : ℕ, P.toNat (n : K) = n) (w : ℕ)
    (hw : w ≤ 46338) (st : List K) (h0 : State.numRows P (State.widthOfX P st) st = 0)
    (yArg : Bool) (x : List K) (hx : x.length = w) (y xc a : K)
    (hy : y = if yArg then 1 else -1) (hxc : xc = dot x (zeros w))
    (ha : a = sigma P xc * sigma P (-xc)) :
    ∃ r, transition P st yArg x none = .ok r ∧ State.Valid P w r ∧
      State.numRows P w r = 1 ∧
      State.fields w r =
        { iteration := 0, widthOfX := (w : K), coef := zeros w, dir := zeros w,
          grad := zeros w, beta := 0, numRows := 1,
          gradNew := smul (sigma P (-y * xc) * y) x, X_transp_AX := outer a x,
          logLikelihood := -P.log (1 + P.exp (-y * xc)) : Fields K } := by
  have s1 : Fields.Sized w
      { iteration := 0, widthOfX := (w : K), coef := zeros w, dir := zeros w, grad := zeros w,
        beta := 0, numRows := 0, gradNew := zeros w, X_transp_AX := zeros (w * w),
        logLikelihood := 0 : Fields K } :=
    ⟨length_zeros _, length_zeros _, length_zeros _, length_zeros _, length_zeros _⟩
  have s2 : Fields.Sized w
      { iteration := 0, widthOfX := (w : K), coef := zeros w, dir := zeros w,
        grad := zeros w, beta := 0, numRows := 1,
        gradNew := smul (sigma P (-y * xc) * y) x, X_transp_AX := outer a x,
        logLikelihood := -P.log (1 + P.exp (-y * xc)) : Fields K } :=
    ⟨length_zeros _, length_zeros _, length_zeros _, by rw [length_smul, hx],
      by rw [length_outer, hx]⟩
  refine ⟨_, ?_, cg_valid_toArray P s2 (hP w) ⟨1, by simp⟩, ?_, cg_fields_toArray s2⟩
  · unfold transition
    rw [cg_transitionInit_none P st x h0 hx hw]
    simp only []
    rw [cg_transitionStep_toArray P s1 _ x hx]
    simp only [← hy, ← hxc, ← ha, zero_add, zero_sub]
    rw [vadd_zeros_left_of_length _ (by rw [length_smul, hx]),
      vadd_zeros_left_of_length _ (by rw [length_outer, hx])]
  · rw [cg_numRows_toArray P s2]
    simpa using hP 1

open LogisticRegressionIRLS in
/-- The first call with a previous state of the same width, on the fields. -/
theorem irls_transitionInit_some (P : Prim K) (st x : List K) {w : ℕ} {f : Fields K}
    (hf : f.Sized w) (h0 : State.numRows P (State.widthOfX P st) st = 0)
    (hx : x.length = w) (hw : w ≤ 46339) :
    transitionInit P st x (some f.toArray) = .ok (w, Fields.toArray { f with
      numRows := 0
      X_transp_Az := zeros w
      X_transp_AX := zeros (w * w)
      logLikelihood := 0 }) := by
  have e : x.length % 2 ^ 16 = w := by rw [hx]; exact Nat.mod_eq_of_lt (by omega)
  have s1 : Fields.Sized w
      { widthOfX := (w : K), coef := zeros w, numRows := 0, X_transp_Az := zeros w,
        X_transp_AX := zeros (w * w), logLikelihood := 0 : Fields K } :=
    ⟨length_zeros _, length_zeros _, length_zeros _⟩
  unfold transitionInit
  rw [if_pos h0, e, irls_init_eq (irls_arraySize_eq (by omega)) (irls_index_ne_none hw)]
  simp only [State.assign, irls_length_toArray s1, irls_length_toArray hf, if_true]
  rw [irls_reset_toArray hf]

end FirstCall

/-! ## Claim C4: accumulating rows and merging -/

section Linearity

variable {K : Type} [LinearOrderedField K]

theorem vadd_zeros_right_of_length {n : ℕ} (v : List K) (h : v.length = n) :
    vadd v (zeros n) = v := by
  rw [vadd_comm, vadd_zeros_left_of_length v h]

open LogisticRegressionCG in
theorem cg_reset_sized {w : ℕ} {f : Fields K} (hf : f.Sized w) :
    (Fields.reset w f).Sized w :=
  ⟨hf.1, hf.2.1, hf.2.2.1, length_zeros _, length_zeros _⟩

open LogisticRegressionIRLS in
theorem irls_step_holds (P : Prim K) {w : ℕ} {f : Fields K} (hs : f.Sized w)
    (hw : P.toNat f.widthOfX = w) (hc : ∃ n : ℕ, f.numRows = (n : K))
    (row : Bool × List K) (hx : row.2.length = w) :
    Fields.HoldsRows P w (Fields.step P f row) := by
  obtain ⟨h1, h4, h5⟩ := hs
  obtain ⟨n, hn⟩ := hc
  refine ⟨⟨h1, length_vadd h4 (by rw [List.length_map, hx]),
    length_vadd h5 (by rw [length_outer, hx])⟩, hw, n + 1, by omega, ?_⟩
  show f.numRows + 1 = ((n + 1 : ℕ) : K)
  rw [hn, Nat.cast_add, Nat.cast_one]

open LogisticRegressionIRLS in
theorem irls_transition_holds (P : Prim K) (hP : ∀ n : ℕ, P.toNat (n : K) = n)
    (hfin : ∀ t : K, P.isFinite t = true) {w : ℕ}
    {f : Fields K} (hf : Fields.HoldsRows P w f) (row : Bool × List K)
    (hx : row.2.length = w) (previous : Option (List K)) :
    transition P f.toArray row.1 row.2 previous = .ok (Fields.step P f row).toArray := by
  obtain ⟨hs, hw, n, hn0, hn⟩ := hf
  have h0 : State.numRows P (State.widthOfX P f.toArray) f.toArray ≠ 0 := by
    rw [irls_widthOfX_toArray, hw, irls_numRows_toArray P hs, hn, hP]
    exact hn0
  have hxf : row.2.all P.isFinite = true := List.all_eq_true.2 (fun t _ => hfin t)
  unfold transition
  rw [irls_transitionInit_rows P _ _ previous h0, irls_widthOfX_toArray, hw]
  simp only [hfin, hxf, Bool.not_true, Bool.false_eq_true, if_false]
  rw [irls_transitionStep_toArray P hs _ _ hx]
  rfl

open LogisticRegressionIRLS in
theorem irls_accumulateFrom_holds (P : Prim K) (hP : ∀ n : ℕ, P.toNat (n : K) = n)
    (hfin : ∀ t : K, P.isFinite t = true) {w : ℕ}
    (previous : Option (List K)) (rows : List (Bool × List K))
    (hx : ∀ r ∈ rows, r.2.length = w) (f : Fields K) (hf : Fields.HoldsRows P w f) :
    accumulateFrom P previous f.toArray rows = .ok (rows.foldl (Fields.step P) f).toArray ∧
      Fields.HoldsRows P w (rows.foldl (Fields.step P) f) ∧
      (rows.foldl (Fields.step P) f).coef = f.coef := by
  induction rows generalizing f with
  | nil => exact ⟨rfl, hf, rfl⟩
  | cons r rows ih =>
    have hr : r.2.length = w := hx r (List.mem_cons_self _ _)
    have hf2 : Fields.HoldsRows P w (Fields.step P f r) :=
      irls_step_holds P hf.1 hf.2.1 (by obtain ⟨n, _, hn⟩ := hf.2.2; exact ⟨n, hn⟩) r hr
    obtain ⟨e1, e2, e3⟩ := ih (fun r hr => hx r (List.mem_cons_of_mem _ hr)) _ hf2
    refine ⟨?_, e2, e3⟩
    rw [accumulateFrom, irls_transition_holds P hP hfin hf r hr previous]
    exact e1

open LogisticRegressionIRLS in
theorem irls_reset_sized {w : ℕ} {f : Fields K} (hf : f.Sized w) :
    (Fields.reset w f).Sized w :=
  ⟨hf.1, length_zeros _, length_zeros _⟩

open LogisticRegressionIRLS in
/-- Accumulating a non-empty list of rows of length `w` from a state with `numRows = 0`,
when the first call binds width `w` and starts from the reset fields `b`. -/
theorem irls_accumulate_first (P : Prim K) (hP : ∀ n : ℕ, P.toNat (n : K) = n)
    (hfin : ∀ t : K, P.isFinite t = true) {w : ℕ}
    (previous : Option (List K)) (b : Fields K) (hb : b.Sized w)
    (hwb : P.toNat b.widthOfX = w) (st : List K)
    (hinit : ∀ x : List K, x.length = w →
      transitionInit P st x previous = .ok (w, (Fields.reset w b).toArray))
    (r : Bool × List K) (rows : List (Bool × List K))
    (hx : ∀ q ∈ r :: rows, q.2.length = w) :
    accumulateFrom P previous st (r :: rows)
        = .ok ((r :: rows).foldl (Fields.step P) (Fields.reset w b)).toArray ∧
      Fields.HoldsRows P w ((r :: rows).foldl (Fields.step P) (Fields.reset w b)) ∧
      ((r :: rows).foldl (Fields.step P) (Fields.reset w b)).coef = b.coef := by
  have hr : r.2.length = w := hx r (List.mem_cons_self _ _)
  have hf2 : Fields.HoldsRows P w (Fields.step P (Fields.reset w b) r) :=
    irls_step_holds P (irls_reset_sized hb) hwb ⟨0, by simp [Fields.reset]⟩ r hr
  obtain ⟨e1, e2, e3⟩ := irls_accumulateFrom_holds P hP hfin previous rows
    (fun q hq => hx q (List.mem_cons_of_mem _ hq)) _ hf2
  refine ⟨?_, e2, e3⟩
  have e : transition P st r.1 r.2 previous
      = .ok (Fields.step P (Fields.reset w b) r).toArray := by
    have hxf : r.2.all P.isFinite = true := List.all_eq_true.2 (fun t _ => hfin t)
    unfold transition
    rw [hinit r.2 hr]
    simp only [hfin, hxf, Bool.not_true, Bool.false_eq_true, if_false]
    rw [irls_transitionStep_toArray P (irls_reset_sized hb) _ _ hr]
    rfl
  rw [accumulateFrom, e]
  exact e1

end Linearity

/-! ## Claim C6: `X_transp_AX` is symmetric positive-semidefinite -/

section PosSemidef

variable {K : Type} [LinearOrderedField K]

theorem dot_eq_sum (a b : List K) (w : ℕ) (ha : a.length = w) (hb : b.length = w) :
    dot a b = ∑ i ∈ Finset.range w, a.getD i 0 * b.getD i 0 := by
  induction a generalizing b w with
  | nil =>
    subst ha
    simp [dot]
  | cons x a ih =>
    cases b with
    | nil => subst ha; simp at hb
    | cons y b =>
      cases w with
      | zero => simp at ha
      | succ w =>
        have := ih b w (by simpa using ha) (by simpa using hb)
        simp only [dot] at this
        simp [dot, Finset.sum_range_succ', this, add_comm]

/-- The quadratic form `trans(v) * M * v` as a double sum over the entries of `M`. -/
theorem quadForm_eq (w : ℕ) (M v : List K) (hv : v.length = w) (hM : M.length = w * w) :
    quadForm w M v = ∑ j ∈ Finset.range w,
      (∑ i ∈ Finset.range w, v.getD i 0 * M.getD (i + j * w) 0) * v.getD j 0 := by
  rw [quadForm, dot_eq_sum _ _ w (by simp [vecMat]) hv]
  apply Finset.sum_congr rfl
  intro j hj
  have hj2 : j < w := Finset.mem_range.1 hj
  congr 1
  have hjw : j * w + w ≤ w * w := by nlinarith
  rw [vecMat, List.getD_eq_getElem _ _ (by simpa using hj2)]
  simp only [List.getElem_map, List.getElem_range]
  rw [col, dot_eq_sum v _ w hv (length_slice _ _ _ (by rw [hM]; exact hjw))]
  apply Finset.sum_congr rfl
  intro i hi
  rw [getD_slice _ _ _ _ _ (Finset.mem_range.1 hi), add_comm (j * w) i]

theorem getD_vadd (a b : List K) (h : a.length = b.length) (i : ℕ) :
    (vadd a b).getD i 0 = a.getD i 0 + b.getD i 0 := by
  induction a generalizing b i with
  | nil =>
    cases b with
    | nil => simp [vadd]
    | cons y b => simp at h
  | cons x a ih =>
    cases b with
    | nil => simp at h
    | cons y b =>
      cases i with
      | zero => simp [vadd]
      | succ i =>
        have := ih b (by simpa using h) i
        simp only [vadd] at this
        simpa [vadd] using this

theorem psd_zeros (w : ℕ) : IsSymmPSD w (zeros (w * w) : List K) := by
  constructor
  · intro i j _ _
    rw [getD_zeros, getD_zeros]
  · intro v hv
    rw [quadForm_eq w _ v hv (by simp [zeros])]
    simp only [getD_zeros, mul_zero, Finset.sum_const_zero, zero_mul, le_refl]

theorem psd_vadd (w : ℕ) (M N : List K) (hM : M.length = w * w) (hN : N.length = w * w)
    (h1 : IsSymmPSD w M) (h2 : IsSymmPSD w N) : IsSymmPSD w (vadd M N) := by
  have hl : M.length = N.length := by rw [hM, hN]
  constructor
  · intro i j hi hj
    rw [getD_vadd _ _ hl, getD_vadd _ _ hl, h1.1 i j hi hj, h2.1 i j hi hj]
  · intro v hv
    have e : quadForm w (vadd M N) v = quadForm w M v + quadForm w N v := by
      rw [quadForm_eq w _ v hv (by simp [vadd, hM, hN]), quadForm_eq w M v hv hM,
        quadForm_eq w N v hv hN, ← Finset.sum_add_distrib]
      apply Finset.sum_congr rfl
      intro j _
      rw [← add_mul, ← Finset.sum_add_distrib]
      congr 1
      apply Finset.sum_congr rfl
      intro i _
      rw [getD_vadd _ _ hl, mul_add]
    rw [e]
    exact add_nonneg (h1.2 v hv) (h2.2 v hv)

/-- The quadratic form of `trans(x) * a * x` at `v` is `a * (v . x) ^ 2`. -/
theorem quadForm_outer (a : K) (x v : List K) (w : ℕ) (hx : x.length = w)
    (hv : v.length = w) : quadForm w (outer a x) v = a * (dot v x) ^ 2 := by
  rw [quadForm_eq w _ v hv (by rw [length_outer, hx]), dot_eq_sum v x w hv hx]
  have e : ∀ j ∈ Finset.range w,
      (∑ i ∈ Finset.range w, v.getD i 0 * (outer a x).getD (i + j * w) 0) * v.getD j 0
        = a * (∑ i ∈ Finset.range w, v.getD i 0 * x.getD i 0)
          * (v.getD j 0 * x.getD j 0) := by
    intro j hj
    have e2 : ∀ i ∈ Finset.range w, v.getD i 0 * (outer a x).getD (i + j * w) 0
        = (a * x.getD j 0) * (v.getD i 0 * x.getD i 0) := by
      intro i hi
      subst hx
      rw [getD_outer a x i j (Finset.mem_range.1 hi) (Finset.mem_range.1 hj)]
      ring
    rw [Finset.sum_congr rfl e2, ← Finset.mul_sum]
    ring
  rw [Finset.sum_congr rfl e, ← Finset.mul_sum]
  ring

theorem psd_outer (a : K) (ha : 0 ≤ a) (x : List K) (w : ℕ) (hx : x.length = w) :
    IsSymmPSD w (outer a x) := by
  constructor
  · intro i j hi hj
    subst hx
    rw [getD_outer a x i j hi hj, getD_outer a x j i hj hi]
    ring
  · intro v hv
    rw [quadForm_outer a x v w hx hv]
    exact mul_nonneg ha (sq_nonneg _)

theorem psd_width_zero (M : List K) : IsSymmPSD 0 M := by
  constructor
  · intro i j hi _
    omega
  · intro v _
    simp [quadForm, vecMat, dot]

theorem sigma_pos (P : Prim K) (hexp : ∀ t : K, 0 < P.exp t) (t : K) : 0 < sigma P t := by
  unfold sigma
  have := hexp (-t)
  positivity

theorem weight_nonneg (P : Prim K) (hexp : ∀ t : K, 0 < P.exp t) (t : K) :
    0 ≤ sigma P t * sigma P (-t) :=
  le_of_lt (mul_pos (sigma_pos P hexp t) (sigma_pos P hexp (-t)))

end PosSemidef

/-! ### The invariant of the reachable CG states -/

section CGInvariant

variable {K : Type} [LinearOrderedField K]

open LogisticRegressionCG

theorem cg_inv_zero (P : Prim K) (hP : ∀ n : ℕ, P.toNat (n : K) = n) (n : ℕ) :
    State.Inv P (zeros n : List K) := by
  have hP0 : P.toNat 0 = 0 := by simpa using hP 0
  left
  exact ⟨by rw [State.widthOfX, getD_zeros, hP0], cg_numRows_zeros P hP0 n 0⟩

theorem cg_inv_of_fields (P : Prim K) {w : ℕ} {g : Fields K} (hg : g.Sized w)
    (hw : P.toNat g.widthOfX = w) (hpsd : IsSymmPSD w g.X_transp_AX) :
    State.Inv P g.toArray := by
  right
  rw [cg_widthOfX_toArray, hw, cg_X_transp_AX_toArray hg]
  exact ⟨cg_length_toArray hg, hpsd⟩

theorem cg_inv_elim (P : Prim K) {s : List K} (h : State.Inv P s)
    (hn : State.numRows P (State.widthOfX P s) s ≠ 0) :
    ∃ f : Fields K, f.Sized (State.widthOfX P s) ∧ s = f.toArray ∧
      IsSymmPSD (State.widthOfX P s) f.X_transp_AX := by
  rcases h with ⟨h1, h2⟩ | ⟨h1, h2⟩
  · rw [h1] at hn
    exact absurd h2 hn
  · exact ⟨State.fields _ s, cg_sized_fields h1, (cg_toArray_fields h1).symm, h2⟩

theorem cg_step_ok (P : Prim K) {w : ℕ} {f : Fields K} (hf : f.Sized w) (y : K)
    (x r : List K) (h : transitionStep P w f.toArray y x = .ok r) :
    x.length = w ∧ r = Fields.toArray { f with
      numRows := f.numRows + 1
      gradNew := vadd f.gradNew (smul (sigma P (-y * dot x f.coef) * y) x)
      X_transp_AX := vadd f.X_transp_AX
        (outer (sigma P (dot x f.coef) * sigma P (-dot x f.coef)) x)
      logLikelihood := f.logLikelihood - P.log (1 + P.exp (-y * dot x f.coef)) } := by
  by_cases hx : x.length = w
  · rw [cg_transitionStep_toArray P hf y x hx] at h
    exact ⟨hx, (Except.ok.inj h).symm⟩
  · exfalso
    unfold transitionStep at h
    simp only [ne_eq, hx, not_false_eq_true, if_true] at h
    cases h

/-- A returning `transitionStep` on a state with a positive-semidefinite matrix. -/
theorem cg_step_inv (P : Prim K) (hexp : ∀ t : K, 0 < P.exp t) {w : ℕ} {f : Fields K}
    (hf : f.Sized w) (hpsd : IsSymmPSD w f.X_transp_AX) (y : K) (x r : List K)
    (h : transitionStep P w f.toArray y x = .ok r) :
    ∃ g : Fields K, g.Sized w ∧ r = g.toArray ∧ IsSymmPSD w g.X_transp_AX ∧
      g.iteration = f.iteration ∧ g.widthOfX = f.widthOfX ∧ g.coef = f.coef ∧
      g.dir = f.dir := by
  obtain ⟨hx, hr⟩ := cg_step_ok P hf y x r h
  obtain ⟨h1, h2, h3, h4, h5⟩ := cg_sized_iff.1 hf
  have l5 : (outer (sigma P (dot x f.coef) * sigma P (-dot x f.coef)) x).length = w * w := by
    rw [length_outer, hx]
  refine ⟨_, ?_, hr, ?_, rfl, rfl, rfl, rfl⟩
  · exact ⟨h1, h2, h3, length_vadd h4 (by rw [length_smul, hx]), length_vadd h5 l5⟩
  · exact psd_vadd w _ _ h5 l5 hpsd (psd_outer _ (weight_nonneg P hexp _) x w hx)

theorem cg_total_injective {a b : ℕ} (h : State.total a = State.total b) : a = b := by
  unfold State.total at h
  rcases Nat.lt_trichotomy a b with hlt | heq | hgt
  · have : a * a ≤ b * b := Nat.mul_le_mul (le_of_lt hlt) (le_of_lt hlt)
    omega
  · exact heq
  · have : b * b ≤ a * a := Nat.mul_le_mul (le_of_lt hgt) (le_of_lt hgt)
    omega

theorem cg_getD_three {w : ℕ} (hw : w ≠ 0) {f : Fields K} (hf : f.Sized w) :
    f.toArray.getD 3 0 = (f.coef ++ f.dir).getD 1 0 := by
  obtain ⟨h1, h2, _, _, _⟩ := hf
  unfold Fields.toArray
  rw [← List.append_assoc]
  simp only [List.getD_cons_succ]
  rw [List.getD_append _ _ _ _ (by rw [List.length_append, h1, h2]; omega)]

theorem cg_inv_transition (P : Prim K) (hP : ∀ n : ℕ, P.toNat (n : K) = n)
    (hexp : ∀ t : K, 0 < P.exp t) (s r : List K) (yArg : Bool) (x : List K)
    (previous : Option (List K)) (hs : State.Inv P s)
    (hp : ∀ p, previous = some p → State.Inv P p)
    (h : transition P s yArg x previous = .ok r) : State.Inv P r := by
  unfold transition at h
  by_cases h0 : State.numRows P (State.widthOfX P s) s = 0
  · unfold transitionInit at h
    rw [if_pos h0] at h
    by_cases hlt : State.arraySize (x.length % 2 ^ 16) < State.total (x.length % 2 ^ 16)
    · exfalso
      simp only [State.init, hlt, if_true] at h
      cases previous <;> cases h
    · have harr : State.arraySize (x.length % 2 ^ 16) = State.total (x.length % 2 ^ 16) :=
        le_antisymm (Nat.mod_le _ _) (not_lt.1 hlt)
      by_cases hov : State.logLikelihoodIndex (x.length % 2 ^ 16) = none
      · exfalso
        simp only [State.init, hlt, hov, if_true, if_false] at h
        cases previous <;> cases h
      rw [cg_init_eq harr hov] at h
      have s1 : Fields.Sized (x.length % 2 ^ 16)
          { iteration := 0, widthOfX := ((x.length % 2 ^ 16 : ℕ) : K),
            coef := zeros (x.length % 2 ^ 16), dir := zeros (x.length % 2 ^ 16),
            grad := zeros (x.length % 2 ^ 16), beta := 0, numRows := 0,
            gradNew := zeros (x.length % 2 ^ 16),
            X_transp_AX := zeros (x.length % 2 ^ 16 * (x.length % 2 ^ 16)),
            logLikelihood := 0 : Fields K } :=
        ⟨length_zeros _, length_zeros _, length_zeros _, length_zeros _, length_zeros _⟩
      cases previous with
      | none =>
        simp only [] at h
        obtain ⟨g, hg, rfl, hpsd, _, hwd, _, _⟩ :=
          cg_step_inv P hexp s1 (psd_zeros _) _ x r h
        exact cg_inv_of_fields P hg (by rw [hwd]; exact hP _) hpsd
      | some p =>
        simp only [State.assign, cg_length_toArray s1] at h
        by_cases hl : State.total (x.length % 2 ^ 16) = p.length
        · rw [if_pos hl] at h
          simp only [] at h
          have hfp := cg_sized_fields hl.symm
          rw [← cg_toArray_fields hl.symm, cg_reset_toArray hfp] at h
          obtain ⟨g, hg, rfl, hpsd, hit, hwd, hco, hdi⟩ :=
            cg_step_inv P hexp (cg_reset_sized hfp) (psd_zeros _) _ x r h
          have hwr : P.toNat g.widthOfX = State.widthOfX P p := by rw [hwd]; rfl
          by_cases hw : State.widthOfX P p = x.length % 2 ^ 16
          · exact cg_inv_of_fields P hg (hwr.trans hw) hpsd
          · rcases hp p rfl with ⟨k1, k2⟩ | ⟨k1, _⟩
            · left
              refine ⟨by rw [cg_widthOfX_toArray, hwr, k1], ?_⟩
              have hw0 : x.length % 2 ^ 16 ≠ 0 := by rw [k1] at hw; exact fun e => hw e.symm
              have e3 : g.toArray.getD 3 0 = p.getD 3 0 := by
                have e4 := cg_getD_three hw0 hfp
                rw [cg_toArray_fields hl.symm] at e4
                rw [cg_getD_three hw0 hg, hco, hdi, e4]
                rfl
              have k3 : P.toNat (p.getD 3 0) = 0 := k2
              show P.toNat (g.toArray.getD (3 + 3 * 0) 0) = 0
              rw [show 3 + 3 * 0 = 3 from rfl, e3, k3]
            · exact absurd (cg_total_injective (k1.symm.trans hl.symm)) hw
        · rw [if_neg hl] at h
          cases h
  · rw [cg_transitionInit_rows P s x previous h0] at h
    simp only [] at h
    obtain ⟨f, hf, rfl, hpsd⟩ := cg_inv_elim P hs h0
    obtain ⟨g, hg, rfl, hpsd2, _, hwd, _, _⟩ := cg_step_inv P hexp hf hpsd _ x r h
    exact cg_inv_of_fields P hg (by rw [hwd]; rfl) hpsd2

theorem cg_inv_merge (P : Prim K) (a b r : List K) (ha : State.Inv P a)
    (hb : State.Inv P b) (h : mergeStates P a b = .ok r) : State.Inv P r := by
  unfold mergeStates at h
  by_cases h1 : State.numRows P (State.widthOfX P a) a = 0
  · simp only [h1, if_true] at h
    exact Except.ok.inj h ▸ hb
  · by_cases h2 : State.numRows P (State.widthOfX P b) b = 0
    · simp only [h1, h2, if_true, if_false] at h
      exact Except.ok.inj h ▸ ha
    · simp only [h1, h2, if_false] at h
      by_cases hc : a.length ≠ b.length ∨ State.widthOfX P a ≠ State.widthOfX P b
      · exfalso
        unfold State.plusAssign at h
        rw [if_pos hc] at h
        cases h
      · have hw : State.widthOfX P a = State.widthOfX P b := by
          by_contra hne
          exact hc (Or.inr hne)
        obtain ⟨f, hf, rfl, hpf⟩ := cg_inv_elim P ha h1
        obtain ⟨g, hg, rfl, hpg⟩ := cg_inv_elim P hb h2
        rw [← hw] at hg hpg h
        rw [cg_plusAssign_toArray P hf hg hw] at h
        have e := Except.ok.inj h
        subst e
        obtain ⟨l1, l2, l3, l4, l5⟩ := cg_sized_iff.1 hf
        obtain ⟨k1, k2, k3, k4, k5⟩ := cg_sized_iff.1 hg
        exact cg_inv_of_fields P ⟨l1, l2, l3, length_vadd l4 k4, length_vadd l5 k5⟩ rfl
          (psd_vadd _ _ _ l5 k5 hpf hpg)

theorem cg_final_width_zero (P : Prim K) (s : List K) (h : State.widthOfX P s = 0) :
    (final P s).getD 1 0 = s.getD 1 0 ∧ (final P s).getD 3 0 = s.getD 3 0 := by
  unfold final
  simp only [h, State.gradNew, State.grad, State.dir, State.coef, State.X_transp_AX, slice,
    List.take_zero, setSlice, vadd, vsub, smul, List.zipWith_nil_left, List.map_nil,
    Nat.mul_zero, Nat.add_zero]
  constructor <;> split_ifs <;> simp [List.getD_eq_getElem?_getD, List.getElem?_set]

theorem cg_inv_final (P : Prim K) (s : List K) (hs : State.Inv P s) :
    State.Inv P (final P s) := by
  rcases hs with ⟨h1, h2⟩ | ⟨h1, h2⟩
  · obtain ⟨e1, e3⟩ := cg_final_width_zero P s h1
    left
    have hw : State.widthOfX P (final P s) = 0 := by
      rw [State.widthOfX, e1]
      exact h1
    refine ⟨hw, ?_⟩
    show P.toNat ((final P s).getD (3 + 3 * 0) 0) = 0
    rw [show 3 + 3 * 0 = 3 from rfl, e3]
    exact h2
  · have hf := cg_sized_fields h1
    have ht := cg_toArray_fields h1
    have hx : State.X_transp_AX (State.widthOfX P s) s
        = (State.fields (State.widthOfX P s) s).X_transp_AX := rfl
    have hw : P.toNat (State.fields (State.widthOfX P s) s).widthOfX = State.widthOfX P s := rfl
    rw [hx] at h2
    generalize State.widthOfX P s = w at hf ht h2 hw
    generalize State.fields w s = f at hf ht h2 hw
    subst ht
    obtain ⟨l1, l2, l3, l4, l5⟩ := cg_sized_iff.1 hf
    by_cases hi : P.toNat f.iteration = 0
    · rw [cg_final_zero P hf hw hi]
      exact cg_inv_of_fields P
        ⟨length_vadd l1 (by rw [length_smul, l4]), l4, l4, l4, l5⟩ hw h2
    · rw [cg_final_succ P hf hw hi _ _ rfl rfl]
      have ld : (vsub f.gradNew (smul (if dot f.gradNew (vsub f.gradNew f.grad) /
          dot f.grad f.grad < 0 then 0 else dot f.gradNew (vsub f.gradNew f.grad) /
          dot f.dir (vsub f.gradNew f.grad)) f.dir)).length = w :=
        length_vsub l4 (by rw [length_smul, l2])
      exact cg_inv_of_fields P
        ⟨length_vadd l1 (by rw [length_smul, ld]), ld, l4, l4, l5⟩ hw h2

theorem cg_reachable_inv (P : Prim K) (hP : ∀ n : ℕ, P.toNat (n : K) = n)
    (hexp : ∀ t : K, 0 < P.exp t) (s : List K) (h : Reachable P s) : State.Inv P s := by
  induction h with
  | zero n => exact cg_inv_zero P hP n
  | transition_first s r yArg x _ h ih =>
    exact cg_inv_transition P hP hexp s r yArg x none ih (fun p hp => by cases hp) h
  | transition_next s p r yArg x _ _ h ih1 ih2 =>
    exact cg_inv_transition P hP hexp s r yArg x (some p) ih1
      (fun q hq => by cases hq; exact ih2) h
  | merge a b r _ _ h ih1 ih2 => exact cg_inv_merge P a b r ih1 ih2 h
  | final s _ ih => exact cg_inv_final P s ih

theorem cg_reachable_psd (P : Prim K) (hP : ∀ n : ℕ, P.toNat (n : K) = n)
    (hexp : ∀ t : K, 0 < P.exp t) (s : List K) (h : Reachable P s) :
    (State.X_transp_AX (State.widthOfX P s) s).length
        = State.widthOfX P s * State.widthOfX P s ∧
      IsSymmPSD (State.widthOfX P s) (State.X_transp_AX (State.widthOfX P s) s) := by
  rcases cg_reachable_inv P hP hexp s h with ⟨h1, _⟩ | ⟨h1, h2⟩
  · rw [h1]
    exact ⟨by simp [State.X_transp_AX, slice], psd_width_zero _⟩
  · exact ⟨(cg_sized_fields h1).2.2.2.2, h2⟩

end CGInvariant

/-! ### The invariant of the reachable IRLS states -/

section IRLSInvariant

variable {K : Type} [LinearOrderedField K]

open LogisticRegressionIRLS

theorem irls_inv_zero (P : Prim K) (hP : ∀ n : ℕ, P.toNat (n : K) = n) (n : ℕ) :
    State.Inv P (zeros n : List K) := by
  have hP0 : P.toNat 0 = 0 := by simpa using hP 0
  left
  exact ⟨by rw [State.widthOfX, getD_zeros, hP0], irls_numRows_zeros P hP0 n 0⟩

theorem irls_inv_of_fields (P : Prim K) {w : ℕ} {g : Fields K} (hg : g.Sized w)
    (hw : P.toNat g.widthOfX = w) (hpsd : IsSymmPSD w g.X_transp_AX) :
    State.Inv P g.toArray := by
  right
  rw [irls_widthOfX_toArray, hw, irls_X_transp_AX_toArray hg]
  exact ⟨irls_length_toArray hg, hpsd⟩

theorem irls_inv_elim (P : Prim K) {s : List K} (h : State.Inv P s)
    (hn : State.numRows P (State.widthOfX P s) s ≠ 0) :
    ∃ f : Fields K, f.Sized (State.widthOfX P s) ∧ s = f.toArray ∧
      IsSymmPSD (State.widthOfX P s) f.X_transp_AX := by
  rcases h with ⟨h1, h2⟩ | ⟨h1, h2⟩
  · rw [h1] at hn
    exact absurd h2 hn
  · exact ⟨State.fields _ s, irls_sized_fields h1, (irls_toArray_fields h1).symm, h2⟩

/-- A returning `transitionStep` on a state with a positive-semidefinite matrix. -/
theorem irls_step_inv (P : Prim K) (hexp : ∀ t : K, 0 < P.exp t) {w : ℕ} {f : Fields K}
    (hf : f.Sized w) (hpsd : IsSymmPSD w f.X_transp_AX) (y : K) (x r : List K)
    (h : transitionStep P w f.toArray y x = .ok r) :
    ∃ g : Fields K, g.Sized w ∧ r = g.toArray ∧ IsSymmPSD w g.X_transp_AX ∧
      g.widthOfX = f.widthOfX ∧ g.coef = f.coef := by
  by_cases hx : x.length = w
  · rw [irls_transitionStep_toArray P hf y x hx] at h
    obtain ⟨h1, h4, h5⟩ := irls_sized_iff.1 hf
    have l5 : (outer (sigma P (dot x f.coef) * sigma P (-dot x f.coef)) x).length = w * w := by
      rw [length_outer, hx]
    refine ⟨_, ?_, (Except.ok.inj h).symm, ?_, rfl, rfl⟩
    · exact ⟨h1, length_vadd h4 (by rw [List.length_map, hx]), length_vadd h5 l5⟩
    · exact psd_vadd w _ _ h5 l5 hpsd (psd_outer _ (weight_nonneg P hexp _) x w hx)
  · exfalso
    unfold transitionStep at h
    simp only [ne_eq, hx, not_false_eq_true, if_true] at h
    cases h

theorem irls_total_injective {a b : ℕ} (h : State.total a = State.total b) : a = b := by
  unfold State.total at h
  rcases Nat.lt_trichotomy a b with hlt | heq | hgt
  · have : a * a ≤ b * b := Nat.mul_le_mul (le_of_lt hlt) (le_of_lt hlt)
    omega
  · exact heq
  · have : b * b ≤ a * a := Nat.mul_le_mul (le_of_lt hgt) (le_of_lt hgt)
    omega

theorem irls_getD_one {w : ℕ} (hw : w ≠ 0) {f : Fields K} (hf : f.Sized w) :
    f.toArray.getD 1 0 = f.coef.getD 0 0 := by
  obtain ⟨h1, _, _⟩ := hf
  unfold Fields.toArray
  simp only [List.getD_cons_succ]
  rw [List.getD_append _ _ _ _ (by rw [h1]; omega)]

theorem irls_inv_transitionCore (P : Prim K) (hP : ∀ n : ℕ, P.toNat (n : K) = n)
    (hexp : ∀ t : K, 0 < P.exp t) (s r : List K) (y : K) (x : List K)
    (previous : Option (List K)) (hs : State.Inv P s)
    (hp : ∀ p, previous = some p → State.Inv P p)
    (h : (match transitionInit P s x previous with
      | Except.error e => (Except.error e : Except Error (List K))
      | Except.ok (w, m) => transitionStep P w m y x) = Except.ok r) : State.Inv P r := by
  by_cases h0 : State.numRows P (State.widthOfX P s) s = 0
  · unfold transitionInit at h
    rw [if_pos h0] at h
    by_cases hlt : State.arraySize (x.length % 2 ^ 16) < State.total (x.length % 2 ^ 16)
    · exfalso
      simp only [State.init, hlt, if_true] at h
      cases previous <;> cases h
    · have harr : State.arraySize (x.length % 2 ^ 16) = State.total (x.length % 2 ^ 16) :=
        le_antisymm (Nat.mod_le _ _) (not_lt.1 hlt)
      by_cases hov : State.logLikelihoodIndex (x.length % 2 ^ 16) = none
      · exfalso
        simp only [State.init, hlt, hov, if_true, if_false] at h
        cases previous <;> cases h
      rw [irls_init_eq harr hov] at h
      have s1 : Fields.Sized (x.length % 2 ^ 16)
          { widthOfX := ((x.length % 2 ^ 16 : ℕ) : K), coef := zeros (x.length % 2 ^ 16),
            numRows := 0, X_transp_Az := zeros (x.length % 2 ^ 16),
            X_transp_AX := zeros (x.length % 2 ^ 16 * (x.length % 2 ^ 16)),
            logLikelihood := 0 : Fields K } :=
        ⟨length_zeros _, length_zeros _, length_zeros _⟩
      cases previous with
      | none =>
        simp only [] at h
        obtain ⟨g, hg, rfl, hpsd, hwd, _⟩ :=
          irls_step_inv P hexp s1 (psd_zeros _) _ x r h
        exact irls_inv_of_fields P hg (by rw [hwd]; exact hP _) hpsd
      | some p =>
        simp only [State.assign, irls_length_toArray s1] at h
        by_cases hl : State.total (x.length % 2 ^ 16) = p.length
        · rw [if_pos hl] at h
          simp only [] at h
          have hfp := irls_sized_fields hl.symm
          rw [← irls_toArray_fields hl.symm, irls_reset_toArray hfp] at h
          obtain ⟨g, hg, rfl, hpsd, hwd, hco⟩ :=
            irls_step_inv P hexp (irls_reset_sized hfp) (psd_zeros _) _ x r h
          have hwr : P.toNat g.widthOfX = State.widthOfX P p := by rw [hwd]; rfl
          by_cases hw : State.widthOfX P p = x.length % 2 ^ 16
          · exact irls_inv_of_fields P hg (hwr.trans hw) hpsd
          · rcases hp p rfl with ⟨k1, k2⟩ | ⟨k1, _⟩
            · left
              refine ⟨by rw [irls_widthOfX_toArray, hwr, k1], ?_⟩
              have hw0 : x.length % 2 ^ 16 ≠ 0 := by rw [k1] at hw; exact fun e => hw e.symm
              have e3 : g.toArray.getD 1 0 = p.getD 1 0 := by
                have e4 := irls_getD_one hw0 hfp
                rw [irls_toArray_fields hl.symm] at e4
                rw [irls_getD_one hw0 hg, hco, e4]
                rfl
              have k3 : P.toNat (p.getD 1 0) = 0 := k2
              show P.toNat (g.toArray.getD (1 + 0) 0) = 0
              rw [show 1 + 0 = 1 from rfl, e3, k3]
            · exact absurd (irls_total_injective (k1.symm.trans hl.symm)) hw
        · rw [if_neg hl] at h
          cases h
  · rw [irls_transitionInit_rows P s x previous h0] at h
    simp only [] at h
    obtain ⟨f, hf, rfl, hpsd⟩ := irls_inv_elim P hs h0
    obtain ⟨g, hg, rfl, hpsd2, hwd, _⟩ := irls_step_inv P hexp hf hpsd _ x r h
    exact irls_inv_of_fields P hg (by rw [hwd]; rfl) hpsd2

theorem irls_inv_transition (P : Prim K) (hP : ∀ n : ℕ, P.toNat (n : K) = n)
    (hexp : ∀ t : K, 0 < P.exp t) (s r : List K) (yArg : Bool) (x : List K)
    (previous : Option (List K)) (hs : State.Inv P s)
    (hp : ∀ p, previous = some p → State.Inv P p)
    (h : transition P s yArg x previous = .ok r) : State.Inv P r := by
  unfold transition at h
  simp only [] at h
  split_ifs at h
  all_goals exact irls_inv_transitionCore P hP hexp s r _ x previous hs hp h

theorem irls_inv_merge (P : Prim K) (a b r : List K) (ha : State.Inv P a)
    (hb : State.Inv P b) (h : mergeStates P a b = .ok r) : State.Inv P r := by
  unfold mergeStates at h
  by_cases h1 : State.numRows P (State.widthOfX P a) a = 0
  · simp only [h1, if_true] at h
    exact Except.ok.inj h ▸ hb
  · by_cases h2 : State.numRows P (State.widthOfX P b) b = 0
    · simp only [h1, h2, if_true, if_false] at h
      exact Except.ok.inj h ▸ ha
    · simp only [h1, h2, if_false] at h
      by_cases hc : a.length ≠ b.length ∨ State.widthOfX P a ≠ State.widthOfX P b
      · exfalso
        unfold State.plusAssign at h
        rw [if_pos hc] at h
        cases h
      · have hw : State.widthOfX P a = State.widthOfX P b := by
          by_contra hne
          exact hc (Or.inr hne)
        obtain ⟨f, hf, rfl, hpf⟩ := irls_inv_elim P ha h1
        obtain ⟨g, hg, rfl, hpg⟩ := irls_inv_elim P hb h2
        rw [← hw] at hg hpg h
        rw [irls_plusAssign_toArray P hf hg hw] at h
        have e := Except.ok.inj h
        subst e
        obtain ⟨l1, l4, l5⟩ := irls_sized_iff.1 hf
        obtain ⟨k1, k4, k5⟩ := irls_sized_iff.1 hg
        exact irls_inv_of_fields P ⟨l1, length_vadd l4 k4, length_vadd l5 k5⟩ rfl
          (psd_vadd _ _ _ l5 k5 hpf hpg)

theorem irls_inv_final (P : Prim K) (s r : List K) (hs : State.Inv P s)
    (h : final P s = .ok r) : State.Inv P r := by
  rcases hs with ⟨h1, h2⟩ | ⟨h1, h2⟩
  · unfold final at h
    simp only [h1] at h
    split_ifs at h
    have e : r = s := by
      have := Except.ok.inj h
      simp only [matVec, List.range_zero, List.map_nil, setSlice] at this
      exact this.symm
    subst e
    exact Or.inl ⟨h1, h2⟩
  · have hf := irls_sized_fields h1
    have ht := irls_toArray_fields h1
    have hx : State.X_transp_AX (State.widthOfX P s) s
        = (State.fields (State.widthOfX P s) s).X_transp_AX := rfl
    have hw : P.toNat (State.fields (State.widthOfX P s) s).widthOfX = State.widthOfX P s := rfl
    rw [hx] at h2
    generalize State.widthOfX P s = w at hf ht h2 hw
    generalize State.fields w s = f at hf ht h2 hw
    subst ht
    by_cases hfin : (!f.X_transp_AX.all P.isFinite || !f.X_transp_Az.all P.isFinite) = false
    · rw [irls_final_toArray P hf hw hfin] at h
      have e := Except.ok.inj h
      subst e
      exact irls_inv_of_fields P ⟨length_matVec _ _ _, hf.2.1, hf.2.2⟩ hw h2
    · exfalso
      unfold final at h
      simp only [irls_widthOfX_toArray, hw, irls_X_transp_AX_toArray hf,
        irls_X_transp_Az_toArray hf] at h
      rw [if_pos (eq_true_of_ne_false hfin)] at h
      cases h

theorem irls_reachable_inv (P : Prim K) (hP : ∀ n : ℕ, P.toNat (n : K) = n)
    (hexp : ∀ t : K, 0 < P.exp t) (s : List K) (h : Reachable P s) : State.Inv P s := by
  induction h with
  | zero n => exact irls_inv_zero P hP n
  | transition_first s r yArg x _ h ih =>
    exact irls_inv_transition P hP hexp s r yArg x none ih (fun p hp => by cases hp) h
  | transition_next s p r yArg x _ _ h ih1 ih2 =>
    exact irls_inv_transition P hP hexp s r yArg x (some p) ih1
      (fun q hq => by cases hq; exact ih2) h
  | merge a b r _ _ h ih1 ih2 => exact irls_inv_merge P a b r ih1 ih2 h
  | final s r _ h ih => exact irls_inv_final P s r ih h

theorem irls_reachable_psd (P : Prim K) (hP : ∀ n : ℕ, P.toNat (n : K) = n)
    (hexp : ∀ t : K, 0 < P.exp t) (s : List K) (h : Reachable P s) :
    (State.X_transp_AX (State.widthOfX P s) s).length
        = State.widthOfX P s * State.widthOfX P s ∧
      IsSymmPSD (State.widthOfX P s) (State.X_transp_AX (State.widthOfX P s) s) := by
  rcases irls_reachable_inv P hP hexp s h with ⟨h1, _⟩ | ⟨h1, h2⟩
  · rw [h1]
    exact ⟨by simp [State.X_transp_AX, slice], psd_width_zero _⟩
  · exact ⟨(irls_sized_fields h1).2.2, h2⟩

end IRLSInvariant

section InfoMatrix

variable {K : Type} [LinearOrderedField K]

/-- Claim C6.  In exact arithmetic over an ordered field, with a positive `exp`: in every
state reachable from an all-zero state by calls of `transition` (with or without a
reachable previous state), `mergeStates` and `final` that return a state, of either variant,
the matrix `X_transp_AX` that the view of the state reads has `w * w` elements for the
width `w` of the state and is symmetric and positive-semidefinite (`M = trans(M)` and
`trans(v) * M * v >= 0` for every vector `v` of `w` elements). -/
theorem C6_infoMatrix_psd (P : Prim K) (hP : ∀ n : ℕ, P.toNat (n : K) = n)
    (hexp : ∀ t : K, 0 < P.exp t) (s : List K) :
    (LogisticRegressionCG.Reachable P s →
      (LogisticRegressionCG.State.X_transp_AX (LogisticRegressionCG.State.widthOfX P s) s).length
          = LogisticRegressionCG.State.widthOfX P s * LogisticRegressionCG.State.widthOfX P s ∧
        IsSymmPSD (LogisticRegressionCG.State.widthOfX P s)
          (LogisticRegressionCG.State.X_transp_AX
            (LogisticRegressionCG.State.widthOfX P s) s)) ∧
    (LogisticRegressionIRLS.Reachable P s →
      (LogisticRegressionIRLS.State.X_transp_AX
          (LogisticRegressionIRLS.State.widthOfX P s) s).length
          = LogisticRegressionIRLS.State.widthOfX P s
            * LogisticRegressionIRLS.State.widthOfX P s ∧
        IsSymmPSD (LogisticRegressionIRLS.State.widthOfX P s)
          (LogisticRegressionIRLS.State.X_transp_AX
            (LogisticRegressionIRLS.State.widthOfX P s) s)) :=
  ⟨cg_reachable_psd P hP hexp s, irls_reachable_psd P hP hexp s⟩

/-- Claim C6 at the CG state that `transition` returns for the all-zero state and the row
`(true, [1])`. -/
theorem C6_infoMatrix_psd_witness :
    (∀ n : ℕ, ratPrim.toNat (n : ℚ) = n) ∧ (∀ t : ℚ, 0 < ratPrim.exp t) ∧
    ∃ r, LogisticRegressionCG.transition ratPrim (zeros 5) true [1] none = .ok r ∧
      LogisticRegressionCG.Reachable ratPrim r ∧
      IsSymmPSD (LogisticRegressionCG.State.widthOfX ratPrim r)
        (LogisticRegressionCG.State.X_transp_AX
          (LogisticRegressionCG.State.widthOfX ratPrim r) r) := by
  have hP : ∀ n : ℕ, ratPrim.toNat (n : ℚ) = n := fun n => by simp [ratPrim]
  have hexp : ∀ t : ℚ, 0 < ratPrim.exp t := fun t => by
    show 0 < 1 + t * t
    nlinarith [mul_self_nonneg t]
  have h0 : LogisticRegressionCG.State.numRows ratPrim
      (LogisticRegressionCG.State.widthOfX ratPrim (zeros 5)) (zeros 5) = 0 :=
    cg_numRows_zeros ratPrim (by simp [ratPrim]) 5 _
  obtain ⟨r, h1, _⟩ := cg_transition_first_none ratPrim hP 1 (by decide) (zeros 5) h0 true [1]
    rfl _ _ _ rfl rfl rfl
  have hr : LogisticRegressionCG.Reachable ratPrim r :=
    LogisticRegressionCG.Reachable.transition_first _ r true [1]
      (LogisticRegressionCG.Reachable.zero 5) h1
  exact ⟨hP, hexp, r, h1, hr, ((C6_infoMatrix_psd ratPrim hP hexp r).1 hr).2⟩

end InfoMatrix

/-! ## Claim C14: the merge of two states that hold rows -/

section MergeSum

variable {K : Type} [LinearOrderedField K]

open LogisticRegressionCG in
theorem cg_merge_sum (P : Prim K) (hP : ∀ n : ℕ, P.toNat (n : K) = n) (w : ℕ)
    (a b : List K) (ha : State.Valid P w a) (hb : State.Valid P w b)
    (hna : State.numRows P w a ≠ 0) (hnb : State.numRows P w b ≠ 0) :
    ∃ r, mergeStates P a b = .ok r ∧
      State.fields w r = { State.fields w a with
        numRows := (State.fields w a).numRows + (State.fields w b).numRows
        gradNew := vadd (State.gradNew w a) (State.gradNew w b)
        X_transp_AX := vadd (State.X_transp_AX w a) (State.X_transp_AX w b)
        logLikelihood := State.logLikelihood w a + State.logLikelihood w b } ∧
      r.length = a.length ∧ State.widthOfX P r = w ∧
      State.numRows P w r = State.numRows P w a + State.numRows P w b := by
  obtain ⟨f, hf, hwf, ⟨n, hcf⟩, rfl, ef⟩ := cg_valid_elim P ha
  obtain ⟨g, hg, hwg, ⟨k, hcg⟩, rfl, eg⟩ := cg_valid_elim P hb
  rw [cg_numRows_toArray P hf] at hna ⊢
  rw [cg_numRows_toArray P hg] at hnb ⊢
  have e1 : State.gradNew w f.toArray = (State.fields w f.toArray).gradNew := rfl
  have e2 : State.X_transp_AX w f.toArray = (State.fields w f.toArray).X_transp_AX := rfl
  have e3 : State.logLikelihood w f.toArray = (State.fields w f.toArray).logLikelihood := rfl
  have e4 : State.gradNew w g.toArray = (State.fields w g.toArray).gradNew := rfl
  have e5 : State.X_transp_AX w g.toArray = (State.fields w g.toArray).X_transp_AX := rfl
  have e6 : State.logLikelihood w g.toArray = (State.fields w g.toArray).logLikelihood := rfl
  rw [e1, e2, e3, e4, e5, e6, ef, eg, cg_merge_fields P hP hf hg hwf hwg ⟨k, hcg⟩ hna hnb]
  obtain ⟨h1, h2, h3, h4, h5⟩ := hf
  obtain ⟨k1, k2, k3, k4, k5⟩ := hg
  have hs : Fields.Sized w { f with
      numRows := f.numRows + g.numRows
      gradNew := vadd f.gradNew g.gradNew
      X_transp_AX := vadd f.X_transp_AX g.X_transp_AX
      logLikelihood := f.logLikelihood + g.logLikelihood } :=
    ⟨h1, h2, h3, length_vadd h4 k4, length_vadd h5 k5⟩
  refine ⟨_, rfl, cg_fields_toArray hs, ?_, ?_, ?_⟩
  · rw [cg_length_toArray hs, cg_length_toArray ⟨h1, h2, h3, h4, h5⟩]
  · rw [cg_widthOfX_toArray]
    exact hwf
  · rw [cg_numRows_toArray P hs]
    show P.toNat (f.numRows + g.numRows) = _
    rw [hcf, hcg, hP, hP, ← Nat.cast_add, hP]

open LogisticRegressionIRLS in
theorem irls_merge_sum (P : Prim K) (hP : ∀ n : ℕ, P.toNat (n : K) = n) (w : ℕ)
    (a b : List K) (ha : State.Valid P w a) (hb : State.Valid P w b)
    (hna : State.numRows P w a ≠ 0) (hnb : State.numRows P w b ≠ 0) :
    ∃ r, mergeStates P a b = .ok r ∧
      State.fields w r = { State.fields w a with
        numRows := (State.fields w a).numRows + (State.fields w b).numRows
        X_transp_Az := vadd (State.X_transp_Az w a) (State.X_transp_Az w b)
        X_transp_AX := vadd (State.X_transp_AX w a) (State.X_transp_AX w b)
        logLikelihood := State.logLikelihood w a + State.logLikelihood w b } ∧
      r.length = a.length ∧ State.widthOfX P r = w ∧
      State.numRows P w r = State.numRows P w a + State.numRows P w b := by
  obtain ⟨f, hf, hwf, ⟨n, hcf⟩, rfl, ef⟩ := irls_valid_elim P ha
  obtain ⟨g, hg, hwg, ⟨k, hcg⟩, rfl, eg⟩ := irls_valid_elim P hb
  rw [irls_numRows_toArray P hf] at hna ⊢
  rw [irls_numRows_toArray P hg] at hnb ⊢
  have e1 : State.X_transp_Az w f.toArray = (State.fields w f.toArray).X_transp_Az := rfl
  have e2 : State.X_transp_AX w f.toArray = (State.fields w f.toArray).X_transp_AX := rfl
  have e3 : State.logLikelihood w f.toArray = (State.fields w f.toArray).logLikelihood := rfl
  have e4 : State.X_transp_Az w g.toArray = (State.fields w g.toArray).X_transp_Az := rfl
  have e5 : State.X_transp_AX w g.toArray = (State.fields w g.toArray).X_transp_AX := rfl
  have e6 : State.logLikelihood w g.toArray = (State.fields w g.toArray).logLikelihood := rfl
  rw [e1, e2, e3, e4, e5, e6, ef, eg, irls_merge_fields P hP hf hg hwf hwg ⟨k, hcg⟩ hna hnb]
  obtain ⟨h1, h4, h5⟩ := hf
  obtain ⟨k1, k4, k5⟩ := hg
  have hs : Fields.Sized w { f with
      numRows := f.numRows + g.numRows
      X_transp_Az := vadd f.X_transp_Az g.X_transp_Az
      X_transp_AX := vadd f.X_transp_AX g.X_transp_AX
      logLikelihood := f.logLikelihood + g.logLikelihood } :=
    ⟨h1, length_vadd h4 k4, length_vadd h5 k5⟩
  refine ⟨_, rfl, irls_fields_toArray hs, ?_, ?_, ?_⟩
  · rw [irls_length_toArray hs, irls_length_toArray ⟨h1, h4, h5⟩]
  · rw [irls_widthOfX_toArray]
    exact hwf
  · rw [irls_numRows_toArray P hs]
    show P.toNat (f.numRows + g.numRows) = _
    rw [hcf, hcg, hP, hP, ← Nat.cast_add, hP]

/-- Claim C14.  In exact arithmetic, for valid states `a` and `b` of equal width `w` (so of
equal buffer size) that both hold rows (`numRows` not 0), in both variants: `mergeStates(a, b)`
returns a state whose `numRows`, `gradNew` (CG) or `X_transp_Az` (IRLS), `X_transp_AX` and
`logLikelihood` are the element-wise sums of the fields of `a` and `b` and whose other fields
(`widthOfX`, `coef`, and for CG `iteration`, `dir`, `grad`, `beta`) are those of `a`; the
row count read from the result is the sum of the two row counts. -/
theorem C14_merge_sum (P : Prim K) (hP : ∀ n : ℕ, P.toNat (n : K) = n) (w : ℕ)
    (a b : List K) :
    (LogisticRegressionCG.State.Valid P w a → LogisticRegressionCG.State.Valid P w b →
      LogisticRegressionCG.State.numRows P w a ≠ 0 →
      LogisticRegressionCG.State.numRows P w b ≠ 0 →
      ∃ r, LogisticRegressionCG.mergeStates P a b = .ok r ∧
        LogisticRegressionCG.State.fields w r = { LogisticRegressionCG.State.fields w a with
          numRows := (LogisticRegressionCG.State.fields w a).numRows +
            (LogisticRegressionCG.State.fields w b).numRows
          gradNew := vadd (LogisticRegressionCG.State.gradNew w a)
            (LogisticRegressionCG.State.gradNew w b)
          X_transp_AX := vadd (LogisticRegressionCG.State.X_transp_AX w a)
            (LogisticRegressionCG.State.X_transp_AX w b)
          logLikelihood := LogisticRegressionCG.State.logLikelihood w a +
            LogisticRegressionCG.State.logLikelihood w b } ∧
        r.length = a.length ∧ LogisticRegressionCG.State.widthOfX P r = w ∧
        LogisticRegressionCG.State.numRows P w r =
          LogisticRegressionCG.State.numRows P w a +
            LogisticRegressionCG.State.numRows P w b) ∧
    (LogisticRegressionIRLS.State.Valid P w a → LogisticRegressionIRLS.State.Valid P w b →
      LogisticRegressionIRLS.State.numRows P w a ≠ 0 →
      LogisticRegressionIRLS.State.numRows P w b ≠ 0 →
      ∃ r, LogisticRegressionIRLS.mergeStates P a b = .ok r ∧
        LogisticRegressionIRLS.State.fields w r = { LogisticRegressionIRLS.State.fields w a with
          numRows := (LogisticRegressionIRLS.State.fields w a).numRows +
            (LogisticRegressionIRLS.State.fields w b).numRows
          X_transp_Az := vadd (LogisticRegressionIRLS.State.X_transp_Az w a)
            (LogisticRegressionIRLS.State.X_transp_Az w b)
          X_transp_AX := vadd (LogisticRegressionIRLS.State.X_transp_AX w a)
            (LogisticRegressionIRLS.State.X_transp_AX w b)
          logLikelihood := LogisticRegressionIRLS.State.logLikelihood w a +
            LogisticRegressionIRLS.State.logLikelihood w b } ∧
        r.length = a.length ∧ LogisticRegressionIRLS.State.widthOfX P r = w ∧
        LogisticRegressionIRLS.State.numRows P w r =
          LogisticRegressionIRLS.State.numRows P w a +
            LogisticRegressionIRLS.State.numRows P w b) :=
  ⟨fun ha hb => cg_merge_sum P hP w a b ha hb, fun ha hb => irls_merge_sum P hP w a b ha hb⟩

/-- Claim C14 at the valid CG states `[2, 1, 1, 3, 4, 5, 1, 6, 7, 8]` and
`[0, 1, 2, 0, 0, 0, 2, 1, 1, 1]` of width 1: the merged state holds 3 rows and the
coefficient `1` of the left state. -/
theorem C14_merge_sum_witness :
    (∀ n : ℕ, ratPrim.toNat (n : ℚ) = n) ∧
    LogisticRegressionCG.State.Valid ratPrim 1 [2, 1, 1, 3, 4, 5, 1, 6, 7, 8] ∧
    LogisticRegressionCG.State.Valid ratPrim 1 [0, 1, 2, 0, 0, 0, 2, 1, 1, 1] ∧
    ∃ r, LogisticRegressionCG.mergeStates ratPrim [2, 1, 1, 3, 4, 5, 1, 6, 7, 8]
        [0, 1, 2, 0, 0, 0, 2, 1, 1, 1] = .ok r ∧
      LogisticRegressionCG.State.numRows ratPrim 1 r = 3 ∧
      (LogisticRegressionCG.State.fields 1 r).coef = [1] := by
  have hP : ∀ n : ℕ, ratPrim.toNat (n : ℚ) = n := fun n => by simp [ratPrim]
  have va : LogisticRegressionCG.State.Valid ratPrim 1 [2, 1, 1, 3, 4, 5, 1, 6, 7, 8] :=
    ⟨by decide, by simp [LogisticRegressionCG.State.widthOfX, ratPrim], 1, by simp⟩
  have vb : LogisticRegressionCG.State.Valid ratPrim 1 [0, 1, 2, 0, 0, 0, 2, 1, 1, 1] :=
    ⟨by decide, by simp [LogisticRegressionCG.State.widthOfX, ratPrim], 2, by simp⟩
  have na : LogisticRegressionCG.State.numRows ratPrim 1 [2, 1, 1, 3, 4, 5, 1, 6, 7, 8] = 1 := by
    simp [LogisticRegressionCG.State.numRows, ratPrim]
  have nb : LogisticRegressionCG.State.numRows ratPrim 1 [0, 1, 2, 0, 0, 0, 2, 1, 1, 1] = 2 := by
    simp [LogisticRegressionCG.State.numRows, ratPrim]
  obtain ⟨r, h1, h2, _, _, h5⟩ :=
    (C14_merge_sum ratPrim hP 1 _ _).1 va vb (by rw [na]; decide) (by rw [nb]; decide)
  refine ⟨hP, va, vb, r, h1, ?_, ?_⟩
  · rw [h5, na, nb]
  · rw [h2]
    simp [LogisticRegressionCG.State.fields, LogisticRegressionCG.State.coef, slice]

end MergeSum

/-! ## Claim C15: when the merge raises -/

section MergeError

variable {F : Type} [Zero F] [One F] [Add F] [Sub F] [Mul F] [Div F] [Neg F] [NatCast F]

open LogisticRegressionCG in
theorem cg_merge_error (P : Prim F) (a b : List F) :
    ((∃ e, mergeStates P a b = .error e) ↔
      State.numRows P (State.widthOfX P a) a ≠ 0 ∧ State.numRows P (State.widthOfX P b) b ≠ 0 ∧
        (a.length ≠ b.length ∨ State.widthOfX P a ≠ State.widthOfX P b)) ∧
    (∀ e, mergeStates P a b = .error e →
      e = .logic_error "Internal error: Incompatible transition states") ∧
    (State.numRows P (State.widthOfX P a) a = 0 → mergeStates P a b = .ok b) ∧
    (State.numRows P (State.widthOfX P a) a ≠ 0 →
      State.numRows P (State.widthOfX P b) b = 0 → mergeStates P a b = .ok a) := by
  by_cases h1 : State.numRows P (State.widthOfX P a) a = 0
  · have hm : mergeStates P a b = .ok b := by simp [mergeStates, h1]
    rw [hm]
    exact ⟨⟨fun ⟨e, he⟩ => (by cases he), fun h => absurd h1 h.1⟩, fun e he => (by cases he),
      fun _ => rfl, fun h => absurd h1 h⟩
  · by_cases h2 : State.numRows P (State.widthOfX P b) b = 0
    · have hm : mergeStates P a b = .ok a := by simp [mergeStates, h1, h2]
      rw [hm]
      exact ⟨⟨fun ⟨e, he⟩ => (by cases he), fun h => absurd h2 h.2.1⟩, fun e he => (by cases he),
        fun h => absurd h h1, fun _ _ => rfl⟩
    · by_cases h3 : a.length ≠ b.length ∨ State.widthOfX P a ≠ State.widthOfX P b
      · have hm : mergeStates P a b =
            .error (.logic_error "Internal error: Incompatible transition states") := by
          simp only [mergeStates, State.plusAssign, h1, h2, h3, if_true, if_false]
        rw [hm]
        refine ⟨⟨fun _ => ⟨h1, h2, h3⟩, fun _ => ⟨_, rfl⟩⟩, ?_, fun h => absurd h h1,
          fun _ h => absurd h h2⟩
        intro e he
        cases he
        rfl
      · obtain ⟨r, hm⟩ : ∃ r, mergeStates P a b = .ok r := by
          simp only [mergeStates, State.plusAssign, h1, h2, h3, if_true, if_false]
          exact ⟨_, rfl⟩
        rw [hm]
        exact ⟨⟨fun ⟨e, he⟩ => (by cases he), fun h => absurd h.2.2 h3⟩, fun e he => (by cases he),
          fun h => absurd h h1, fun _ h => absurd h h2⟩

open LogisticRegressionIRLS in
theorem irls_merge_error (P : Prim F) (a b : List F) :
    ((∃ e, mergeStates P a b = .error e) ↔
      State.numRows P (State.widthOfX P a) a ≠ 0 ∧ State.numRows P (State.widthOfX P b) b ≠ 0 ∧
        (a.length ≠ b.length ∨ State.widthOfX P a ≠ State.widthOfX P b)) ∧
    (∀ e, mergeStates P a b = .error e →
      e = .logic_error "Internal error: Incompatible transition states") ∧
    (State.numRows P (State.widthOfX P a) a = 0 → mergeStates P a b = .ok b) ∧
    (State.numRows P (State.widthOfX P a) a ≠ 0 →
      State.numRows P (State.widthOfX P b) b = 0 → mergeStates P a b = .ok a) := by
  by_cases h1 : State.numRows P (State.widthOfX P a) a = 0
  · have hm : mergeStates P a b = .ok b := by simp [mergeStates, h1]
    rw [hm]
    exact ⟨⟨fun ⟨e, he⟩ => (by cases he), fun h => absurd h1 h.1⟩, fun e he => (by cases he),
      fun _ => rfl, fun h => absurd h1 h⟩
  · by_cases h2 : State.numRows P (State.widthOfX P b) b = 0
    · have hm : mergeStates P a b = .ok a := by simp [mergeStates, h1, h2]
      rw [hm]
      exact ⟨⟨fun ⟨e, he⟩ => (by cases he), fun h => absurd h2 h.2.1⟩, fun e he => (by cases he),
        fun h => absurd h h1, fun _ _ => rfl⟩
    · by_cases h3 : a.length ≠ b.length ∨ State.widthOfX P a ≠ State.widthOfX P b
      · have hm : mergeStates P a b =
            .error (.logic_error "Internal error: Incompatible transition states") := by
          simp only [mergeStates, State.plusAssign, h1, h2, h3, if_true, if_false]
        rw [hm]
        refine ⟨⟨fun _ => ⟨h1, h2, h3⟩, fun _ => ⟨_, rfl⟩⟩, ?_, fun h => absurd h h1,
          fun _ h => absurd h h2⟩
        intro e he
        cases he
        rfl
      · obtain ⟨r, hm⟩ : ∃ r, mergeStates P a b = .ok r := by
          simp only [mergeStates, State.plusAssign, h1, h2, h3, if_true, if_false]
          exact ⟨_, rfl⟩
        rw [hm]
        exact ⟨⟨fun ⟨e, he⟩ => (by cases he), fun h => absurd h.2.2 h3⟩, fun e he => (by cases he),
          fun h => absurd h h1, fun _ h => absurd h h2⟩

/-- Claim C15.  For all arrays `a` and `b`, in both variants: `mergeStates(a, b)` raises
an exception if and only if `a.numRows` is not 0, `b.numRows` is not 0 and the sizes of the
two arrays or their widths differ; the exception is then the logic error with the message
"Internal error: Incompatible transition states" and no state is returned; when `a.numRows`
is 0 the call returns `b`, and when `a.numRows` is not 0 and `b.numRows` is 0 it returns
`a`, whatever the sizes and the widths. -/
theorem C15_merge_error (P : Prim F) (a b : List F) :
    (((∃ e, LogisticRegressionCG.mergeStates P a b = .error e) ↔
        LogisticRegressionCG.State.numRows P (LogisticRegressionCG.State.widthOfX P a) a ≠ 0 ∧
        LogisticRegressionCG.State.numRows P (LogisticRegressionCG.State.widthOfX P b) b ≠ 0 ∧
          (a.length ≠ b.length ∨
            LogisticRegressionCG.State.widthOfX P a ≠ LogisticRegressionCG.State.widthOfX P b)) ∧
      (∀ e, LogisticRegressionCG.mergeStates P a b = .error e →
        e = .logic_error "Internal error: Incompatible transition states") ∧
      (LogisticRegressionCG.State.numRows P (LogisticRegressionCG.State.widthOfX P a) a = 0 →
        LogisticRegressionCG.mergeStates P a b = .ok b) ∧
      (LogisticRegressionCG.State.numRows P (LogisticRegressionCG.State.widthOfX P a) a ≠ 0 →
        LogisticRegressionCG.State.numRows P (LogisticRegressionCG.State.widthOfX P b) b = 0 →
        LogisticRegressionCG.mergeStates P a b = .ok a)) ∧
    (((∃ e, LogisticRegressionIRLS.mergeStates P a b = .error e) ↔
        LogisticRegressionIRLS.State.numRows P (LogisticRegressionIRLS.State.widthOfX P a) a ≠ 0 ∧
        LogisticRegressionIRLS.State.numRows P (LogisticRegressionIRLS.State.widthOfX P b) b ≠ 0 ∧
          (a.length ≠ b.length ∨
            LogisticRegressionIRLS.State.widthOfX P a ≠
              LogisticRegressionIRLS.State.widthOfX P b)) ∧
      (∀ e, LogisticRegressionIRLS.mergeStates P a b = .error e →
        e = .logic_error "Internal error: Incompatible transition states") ∧
      (LogisticRegressionIRLS.State.numRows P (LogisticRegressionIRLS.State.widthOfX P a) a = 0 →
        LogisticRegressionIRLS.mergeStates P a b = .ok b) ∧
      (LogisticRegressionIRLS.State.numRows P (LogisticRegressionIRLS.State.widthOfX P a) a ≠ 0 →
        LogisticRegressionIRLS.State.numRows P (LogisticRegressionIRLS.State.widthOfX P b) b = 0 →
        LogisticRegressionIRLS.mergeStates P a b = .ok a)) :=
  ⟨cg_merge_error P a b, irls_merge_error P a b⟩

/-- Claim C15 at the CG states `[0, 1, 0, 0, 0, 0, 1, 0, 0, 0]` of width 1 and
`[0, 0, 0, 1, 0]` of width 0, one row each: the sizes differ and the merge raises the
logic error. -/
theorem C15_merge_error_witness :
    LogisticRegressionCG.mergeStates ratPrim [0, 1, 0, 0, 0, 0, 1, 0, 0, 0] [0, 0, 0, 1, 0] =
      .error (.logic_error "Internal error: Incompatible transition states") := by
  have h : ∃ e, LogisticRegressionCG.mergeStates ratPrim [0, 1, 0, 0, 0, 0, 1, 0, 0, 0]
      [0, 0, 0, 1, 0] = .error e :=
    (C15_merge_error ratPrim [0, 1, 0, 0, 0, 0, 1, 0, 0, 0] [0, 0, 0, 1, 0]).1.1.2
      ⟨by simp [LogisticRegressionCG.State.numRows, LogisticRegressionCG.State.widthOfX, ratPrim],
        by simp [LogisticRegressionCG.State.numRows, LogisticRegressionCG.State.widthOfX, ratPrim],
        Or.inl (by decide)⟩
  obtain ⟨e, he⟩ := h
  rw [he, (C15_merge_error ratPrim [0, 1, 0, 0, 0, 0, 1, 0, 0, 0] [0, 0, 0, 1, 0]).1.2.1 e he]

end MergeError

/-! ## Claim C18: the convergence metric -/

section Distance

variable {K : Type} [LinearOrderedField K]

end Distance

/-! ## Claim C19: the diagnostics -/

section Diagnostics

variable {F : Type} [Zero F] [One F] [Add F] [Sub F] [Mul F] [Div F] [Neg F] [NatCast F]
  [OfNat F 2]

theorem getD_map_range {α : Type} (f : ℕ → α) (d : α) {n i : ℕ} (h : i < n) :
    ((List.range n).map f).getD i d = f i := by
  rw [List.getD_eq_getElem _ _ (by simpa using h)]
  simp

theorem stateToResult_spec (P : Prim F) (c : List F) (ll : F) (n : ℕ) (inv : List F) :
    ∃ stdErr z p odds : List F, stateToResult P c ll n inv = (c, ll, stdErr, z, p, odds) ∧
      stdErr.length = c.length ∧ z.length = c.length ∧ p.length = c.length ∧
      odds.length = c.length ∧
      ∀ i, i < c.length →
        stdErr.getD i 0 = P.sqrt (inv.getD (i + i * n) 0) ∧
        z.getD i 0 = c.getD i 0 / stdErr.getD i 0 ∧
        p.getD i 0 = 2 * P.normalCdf (-P.abs (z.getD i 0)) ∧
        odds.getD i 0 = P.exp (c.getD i 0) := by
  refine ⟨_, _, _, _, rfl, by simp, by simp, by simp, by simp, ?_⟩
  intro i hi
  simp only [List.map_map]
  rw [getD_map_range _ _ hi, getD_map_range _ _ hi, getD_map_range _ _ hi,
    getD_map_range _ _ hi]
  exact ⟨rfl, rfl, rfl, rfl⟩

/-- Claim C19.  For every state `s` of width `w` (an array with the layout length for `w`),
with `coef`, `logLikelihood` and `X_transp_AX` the fields of `s`: `result` returns the tuple
`(coef, logLikelihood, stdErr, z, pValue, oddsRatio)` in this order, where `coef` and the
four vectors have `w` elements and for every `i < w`: `stdErr[i]` is the square root of
element `(i, i)` of `pinv(X_transp_AX)`, `z[i] = coef[i] / stdErr[i]`,
`pValue[i] = 2 * Phi(-|z[i]|)` and `oddsRatio[i] = exp(coef[i])`.  This holds for the CG
state `s` and for the IRLS state `t`, and the two results are the same tuple when the two
states have equal `coef`, `logLikelihood` and `X_transp_AX`. -/
theorem C19_result (P : Prim F) (w v : ℕ) (s t : List F)
    (hs : s.length = LogisticRegressionCG.State.total w)
    (hws : LogisticRegressionCG.State.widthOfX P s = w)
    (ht : t.length = LogisticRegressionIRLS.State.total v)
    (hwt : LogisticRegressionIRLS.State.widthOfX P t = v) :
    (∃ stdErr z p odds : List F,
      LogisticRegressionCG.result P s = (LogisticRegressionCG.State.coef w s,
        LogisticRegressionCG.State.logLikelihood w s, stdErr, z, p, odds) ∧
      (LogisticRegressionCG.State.coef w s).length = w ∧
      stdErr.length = w ∧ z.length = w ∧ p.length = w ∧ odds.length = w ∧
      ∀ i, i < w →
        stdErr.getD i 0 = P.sqrt
          ((P.pinv w (LogisticRegressionCG.State.X_transp_AX w s)).getD (i + i * w) 0) ∧
        z.getD i 0 = (LogisticRegressionCG.State.coef w s).getD i 0 / stdErr.getD i 0 ∧
        p.getD i 0 = 2 * P.normalCdf (-P.abs (z.getD i 0)) ∧
        odds.getD i 0 = P.exp ((LogisticRegressionCG.State.coef w s).getD i 0)) ∧
    (∃ stdErr z p odds : List F,
      LogisticRegressionIRLS.result P t = (LogisticRegressionIRLS.State.coef v t,
        LogisticRegressionIRLS.State.logLikelihood v t, stdErr, z, p, odds) ∧
      (LogisticRegressionIRLS.State.coef v t).length = v ∧
      stdErr.length = v ∧ z.length = v ∧ p.length = v ∧ odds.length = v ∧
      ∀ i, i < v →
        stdErr.getD i 0 = P.sqrt
          ((P.pinv v (LogisticRegressionIRLS.State.X_transp_AX v t)).getD (i + i * v) 0) ∧
        z.getD i 0 = (LogisticRegressionIRLS.State.coef v t).getD i 0 / stdErr.getD i 0 ∧
        p.getD i 0 = 2 * P.normalCdf (-P.abs (z.getD i 0)) ∧
        odds.getD i 0 = P.exp ((LogisticRegressionIRLS.State.coef v t).getD i 0)) ∧
    (LogisticRegressionCG.State.coef w s = LogisticRegressionIRLS.State.coef v t →
      LogisticRegressionCG.State.logLikelihood w s =
        LogisticRegressionIRLS.State.logLikelihood v t →
      LogisticRegressionCG.State.X_transp_AX w s =
        LogisticRegressionIRLS.State.X_transp_AX v t →
      LogisticRegressionCG.result P s = LogisticRegressionIRLS.result P t) := by
  have lc : (LogisticRegressionCG.State.coef w s).length = w :=
    (LogisticRegressionCG.cg_sized_fields hs).1
  have lt : (LogisticRegressionIRLS.State.coef v t).length = v :=
    (LogisticRegressionIRLS.irls_sized_fields ht).1
  refine ⟨?_, ?_, ?_⟩
  · obtain ⟨a, b, c, d, h1, h2, h3, h4, h5, h6⟩ :=
      stateToResult_spec P (LogisticRegressionCG.State.coef w s)
        (LogisticRegressionCG.State.logLikelihood w s) w
        (P.pinv w (LogisticRegressionCG.State.X_transp_AX w s))
    rw [lc] at h2 h3 h4 h5 h6
    refine ⟨a, b, c, d, ?_, lc, h2, h3, h4, h5, h6⟩
    rw [LogisticRegressionCG.result, hws]
    exact h1
  · obtain ⟨a, b, c, d, h1, h2, h3, h4, h5, h6⟩ :=
      stateToResult_spec P (LogisticRegressionIRLS.State.coef v t)
        (LogisticRegressionIRLS.State.logLikelihood v t) v
        (P.pinv v (LogisticRegressionIRLS.State.X_transp_AX v t))
    rw [lt] at h2 h3 h4 h5 h6
    refine ⟨a, b, c, d, ?_, lt, h2, h3, h4, h5, h6⟩
    rw [LogisticRegressionIRLS.result, hwt]
    exact h1
  · intro e1 e2 e3
    have hv : w = v := by rw [← lc, e1, lt]
    subst hv
    rw [LogisticRegressionCG.result, LogisticRegressionIRLS.result, hws, hwt]
    simp only [e1, e2, e3]

/-- Claim C19 at the CG state `[1, 1, 3, 0, 0, 0, 2, 0, 4, 5]` and the IRLS state
`[1, 3, 2, 0, 4, 5]` of width 1, which have the same `coef`, `logLikelihood` and
`X_transp_AX`: the two results are the same tuple. -/
theorem C19_result_witness :
    ([1, 1, 3, 0, 0, 0, 2, 0, 4, 5] : List ℚ).length = LogisticRegressionCG.State.total 1 ∧
    LogisticRegressionCG.State.widthOfX ratPrim [1, 1, 3, 0, 0, 0, 2, 0, 4, 5] = 1 ∧
    ([1, 3, 2, 0, 4, 5] : List ℚ).length = LogisticRegressionIRLS.State.total 1 ∧
    LogisticRegressionIRLS.State.widthOfX ratPrim [1, 3, 2, 0, 4, 5] = 1 ∧
    LogisticRegressionCG.result ratPrim [1, 1, 3, 0, 0, 0, 2, 0, 4, 5] =
      LogisticRegressionIRLS.result ratPrim [1, 3, 2, 0, 4, 5] := by
  have h1 : LogisticRegressionCG.State.widthOfX ratPrim [1, 1, 3, 0, 0, 0, 2, 0, 4, 5] = 1 := by
    simp [LogisticRegressionCG.State.widthOfX, ratPrim]
  have h2 : LogisticRegressionIRLS.State.widthOfX ratPrim [1, 3, 2, 0, 4, 5] = 1 := by
    simp [LogisticRegressionIRLS.State.widthOfX, ratPrim]
  exact ⟨by decide, h1, by decide, h2,
    (C19_result ratPrim 1 1 _ _ (by decide) h1 (by decide) h2).2.2
      (by simp [LogisticRegressionCG.State.coef, LogisticRegressionIRLS.State.coef, slice])
      (by simp [LogisticRegressionCG.State.logLikelihood,
        LogisticRegressionIRLS.State.logLikelihood])
      (by simp [LogisticRegressionCG.State.X_transp_AX,
        LogisticRegressionIRLS.State.X_transp_AX, slice])⟩

end Diagnostics

/-! ## Claim C20: conjugacy of the new direction -/

section Conjugacy

variable {K : Type} [LinearOrderedField K]

theorem getD_smul (c : K) (v : List K) (i : ℕ) : (smul c v).getD i 0 = c * v.getD i 0 := by
  unfold smul
  by_cases hi : i < v.length
  · rw [List.getD_eq_getElem _ _ (by simpa using hi), List.getD_eq_getElem _ _ hi]
    simp
  · rw [List.getD_eq_default _ _ (by simpa using not_lt.1 hi),
      List.getD_eq_default _ _ (not_lt.1 hi), mul_zero]

end Conjugacy

/-! ## Claim C17: the CG transition does not test its input -/

section DblLemmas

theorem dbl_zero : (0 : Dbl) = Dbl.val 0 := rfl

theorem dbl_one : (1 : Dbl) = Dbl.val 1 := rfl

theorem dbl_natCast (n : ℕ) : ((n : ℕ) : Dbl) = Dbl.val n := rfl

theorem dbl_add_val (a b : ℚ) : Dbl.val a + Dbl.val b = Dbl.val (a + b) := rfl

theorem dbl_sub_val (a b : ℚ) : Dbl.val a - Dbl.val b = Dbl.val (a - b) := rfl

theorem dbl_mul_val (a b : ℚ) : Dbl.val a * Dbl.val b = Dbl.val (a * b) := rfl

theorem dbl_div_val (a b : ℚ) :
    Dbl.val a / Dbl.val b = if b = 0 then Dbl.nan else Dbl.val (a / b) := rfl

theorem dbl_neg_val (a : ℚ) : -Dbl.val a = Dbl.val (-a) := rfl

theorem dbl_neg_nan : -Dbl.nan = Dbl.nan := rfl

theorem dbl_nan_add (a : Dbl) : Dbl.nan + a = Dbl.nan := by cases a <;> rfl

theorem dbl_add_nan (a : Dbl) : a + Dbl.nan = Dbl.nan := by cases a <;> rfl

theorem dbl_nan_sub (a : Dbl) : Dbl.nan - a = Dbl.nan := by cases a <;> rfl

theorem dbl_sub_nan (a : Dbl) : a - Dbl.nan = Dbl.nan := by cases a <;> rfl

theorem dbl_nan_mul (a : Dbl) : Dbl.nan * a = Dbl.nan := by cases a <;> rfl

theorem dbl_mul_nan (a : Dbl) : a * Dbl.nan = Dbl.nan := by cases a <;> rfl

theorem dbl_nan_div (a : Dbl) : Dbl.nan / a = Dbl.nan := by cases a <;> rfl

theorem dbl_div_nan (a : Dbl) : a / Dbl.nan = Dbl.nan := by cases a <;> rfl

theorem dbl_lt_val (a b : ℚ) : Dbl.val a < Dbl.val b ↔ a < b := by
  show Dbl.lt (Dbl.val a) (Dbl.val b) = true ↔ a < b
  simp [Dbl.lt]

theorem dbl_not_nan_lt (a : Dbl) : ¬ Dbl.nan < a := by
  show ¬ Dbl.lt Dbl.nan a = true
  simp [Dbl.lt]

end DblLemmas

section InputGuard

variable {F : Type} [Zero F] [One F] [Add F] [Sub F] [Mul F] [Div F] [Neg F] [NatCast F]

open LogisticRegressionCG in
theorem cg_transition_no_guard (P : Prim F) (state : List F) (yArg : Bool) (x : List F)
    (previousState : Option (List F)) (msg : String) :
    transition P state yArg x previousState ≠ .error (.invalid_argument msg) := by
  unfold transition
  cases h : transitionInit P state x previousState with
  | error e =>
    simp only []
    intro he
    injection he with he
    subst he
    unfold transitionInit at h
    split_ifs at h
    unfold State.init at h
    split_ifs at h
    · cases previousState <;> simp at h
    · cases previousState <;> simp at h
    · cases previousState with
      | none => simp at h
      | some p =>
        simp only [State.assign] at h
        split_ifs at h
        simp at h
  | ok r =>
    obtain ⟨w, m⟩ := r
    simp only []
    unfold transitionStep
    simp only []
    split_ifs <;> simp

/-- Claim C17 fails on the code.  The CG `transition` has no test of its input: called
with the fresh state `[0, 0, 0, 0, 0]`, the label `true`, the row `[nan]` and no previous
state it returns the state of width 1 that holds one row and `nan` in `gradNew`,
`X_transp_AX` and `logLikelihood`.  The IRLS `transition` raises
`invalid_argument("Design matrix is not finite.")` for the same row.  No call of the CG
`transition` raises an `invalid_argument`. -/
theorem C17_transition_nonfinite :
    LogisticRegressionCG.transition dblPrim [0, 0, 0, 0, 0] true [Dbl.nan] none =
      .ok [0, 1, 0, 0, 0, 0, 1, Dbl.nan, Dbl.nan, Dbl.nan] ∧
    LogisticRegressionIRLS.transition dblPrim [0, 0, 0] true [Dbl.nan] none =
      .error (.invalid_argument "Design matrix is not finite.") ∧
    ∀ (state : List Dbl) (yArg : Bool) (x : List Dbl) (previousState : Option (List Dbl))
      (msg : String),
      LogisticRegressionCG.transition dblPrim state yArg x previousState ≠
        .error (.invalid_argument msg) := by
  refine ⟨?_, ?_, fun state yArg x previousState msg =>
    cg_transition_no_guard dblPrim state yArg x previousState msg⟩
  · simp [LogisticRegressionCG.transition, LogisticRegressionCG.transitionInit,
      LogisticRegressionCG.transitionStep, LogisticRegressionCG.State.init,
      LogisticRegressionCG.State.reset, LogisticRegressionCG.State.arraySize,
      LogisticRegressionCG.State.total, LogisticRegressionCG.State.logLikelihoodIndex,
      intIndex, LogisticRegressionCG.State.numRows,
      LogisticRegressionCG.State.widthOfX, LogisticRegressionCG.State.coef,
      LogisticRegressionCG.State.gradNew, LogisticRegressionCG.State.X_transp_AX,
      LogisticRegressionCG.State.logLikelihood, dblPrim, ratPrim, setSlice, slice, zeros, dot,
      vadd, smul, outer, sigma, Dbl.lift1, dbl_zero, dbl_one, dbl_natCast, dbl_add_val,
      dbl_sub_val, dbl_mul_val, dbl_div_val, dbl_neg_val, dbl_neg_nan, dbl_nan_add, dbl_add_nan,
      dbl_nan_sub, dbl_sub_nan, dbl_nan_mul, dbl_mul_nan, dbl_nan_div, dbl_div_nan,
      List.replicate]
  · simp [LogisticRegressionIRLS.transition, dblPrim, dbl_one]

end InputGuard

/-! ## Claim C16: the input guard of the IRLS transition -/

section IRLSGuard

variable {F : Type} [Zero F] [One F] [Add F] [Sub F] [Mul F] [Div F] [Neg F] [NatCast F]

open LogisticRegressionIRLS in
theorem irls_transition_of_store (P : Prim F) (state : List F) (yArg : Bool) (x : List F)
    (previousState : Option (List F)) :
    transition P state yArg x previousState =
      match transitionStore P state yArg x previousState with
      | (r, none) => .ok r
      | (_, some e) => .error e := by
  unfold transition transitionStore
  simp only []
  generalize (if yArg = true then (1 : F) else -1) = y
  split_ifs
  · rfl
  · rfl
  · cases h : transitionInit P state x previousState with
    | error e => rfl
    | ok r =>
      obtain ⟨w, m⟩ := r
      simp only []
      cases h2 : transitionStep P w m y x <;> rfl

open LogisticRegressionIRLS in
theorem irls_store_guard (P : Prim F) (h1 : P.isFinite 1 = true)
    (hm1 : P.isFinite (-1) = true) (state : List F) (yArg : Bool) (x : List F)
    (previousState : Option (List F)) :
    ((∃ msg, (transitionStore P state yArg x previousState).2 =
        some (.invalid_argument msg)) ↔ ∃ t ∈ x, P.isFinite t = false) ∧
    ((∃ t ∈ x, P.isFinite t = false) →
      transitionStore P state yArg x previousState =
        (state, some (.invalid_argument "Design matrix is not finite."))) := by
  have hy : P.isFinite (if yArg then (1 : F) else -1) = true := by
    cases yArg
    · simpa using hm1
    · simpa using h1
  by_cases hx : x.all P.isFinite = true
  · have hne : ¬ ∃ t ∈ x, P.isFinite t = false := by
      rintro ⟨t, ht, hf⟩
      rw [List.all_eq_true.1 hx t ht] at hf
      cases hf
    refine ⟨⟨?_, fun h => absurd h hne⟩, fun h => absurd h hne⟩
    rintro ⟨msg, h⟩
    exfalso
    unfold transitionStore at h
    simp only [hy, hx, Bool.not_true, Bool.false_eq_true, if_false] at h
    cases h3 : transitionInit P state x previousState with
    | error e =>
      rw [h3] at h
      simp only [Option.some.injEq] at h
      subst h
      unfold transitionInit at h3
      split_ifs at h3
      unfold State.init at h3
      split_ifs at h3
      · cases previousState <;> simp at h3
      · cases previousState <;> simp at h3
      · cases previousState with
        | none => simp at h3
        | some p =>
          simp only [State.assign] at h3
          split_ifs at h3
          simp at h3
    | ok r =>
      obtain ⟨w, m⟩ := r
      rw [h3] at h
      simp only [] at h
      unfold transitionStep at h
      simp only [] at h
      split_ifs at h <;> simp at h
  · have hex : ∃ t ∈ x, P.isFinite t = false := by
      simpa using hx
    have hs : transitionStore P state yArg x previousState =
        (state, some (.invalid_argument "Design matrix is not finite.")) := by
      unfold transitionStore
      simp only [hy, hx, Bool.not_true, Bool.not_false, Bool.false_eq_true, if_false, if_true]
    exact ⟨⟨fun _ => hex, fun _ => ⟨_, by rw [hs]⟩⟩, fun _ => hs⟩

/-- Claim C16.  With `isfinite(1.)` and `isfinite(-1.)` true, for every IRLS state (fresh
or not), every label, every feature vector `x` and every optional previous state: the IRLS
`transition` raises an `invalid_argument` if and only if an element of `x` is not finite;
the exception is then the one with the message "Design matrix is not finite." (the test of
the label never raises), and the storage of the state when the call ends is the argument,
unmodified: no field was written and a fresh state was not initialized.  The result of
`transition` is the storage at the end of a call that returns and the exception
otherwise. -/
theorem C16_irls_guard (P : Prim F) (h1 : P.isFinite 1 = true)
    (hm1 : P.isFinite (-1) = true) (state : List F) (yArg : Bool) (x : List F)
    (previousState : Option (List F)) :
    ((∃ msg, LogisticRegressionIRLS.transition P state yArg x previousState =
        .error (.invalid_argument msg)) ↔ ∃ t ∈ x, P.isFinite t = false) ∧
    (∀ msg, LogisticRegressionIRLS.transition P state yArg x previousState =
        .error (.invalid_argument msg) →
      msg = "Design matrix is not finite." ∧
      LogisticRegressionIRLS.transitionStore P state yArg x previousState =
        (state, some (.invalid_argument msg))) ∧
    LogisticRegressionIRLS.transition P state yArg x previousState =
      (match LogisticRegressionIRLS.transitionStore P state yArg x previousState with
      | (r, none) => .ok r
      | (_, some e) => .error e) := by
  have e := irls_transition_of_store P state yArg x previousState
  obtain ⟨g1, g2⟩ := irls_store_guard P h1 hm1 state yArg x previousState
  have key : ∀ msg, LogisticRegressionIRLS.transition P state yArg x previousState =
      .error (.invalid_argument msg) ↔
      (LogisticRegressionIRLS.transitionStore P state yArg x previousState).2 =
        some (.invalid_argument msg) := by
    intro msg
    rw [e]
    rcases LogisticRegressionIRLS.transitionStore P state yArg x previousState with ⟨r, _ | e2⟩
    · simp
    · simp
  refine ⟨?_, ?_, e⟩
  · rw [← g1]
    exact ⟨fun ⟨msg, h⟩ => ⟨msg, (key msg).1 h⟩, fun ⟨msg, h⟩ => ⟨msg, (key msg).2 h⟩⟩
  · intro msg h
    have h2 := (key msg).1 h
    have h3 := g2 (g1.1 ⟨msg, h2⟩)
    rw [h3] at h2
    simp only [Option.some.injEq, Error.invalid_argument.injEq] at h2
    subst h2
    exact ⟨rfl, h3⟩

/-- Claim C16 at the IRLS state `[1, 2, 3, 4, 5, 6]` of width 1 that holds 3 rows and the
row `[nan]`: the call raises and the storage is unmodified.  For the row `[1, 1]` of two
finite elements the call ends in the product `x * state.coef` with a logic error, after
the row was counted: the storage holds 4 rows. -/
theorem C16_irls_guard_witness :
    dblPrim.isFinite 1 = true ∧ dblPrim.isFinite (-1) = true ∧
    LogisticRegressionIRLS.transitionStore dblPrim
      [Dbl.val 1, Dbl.val 2, Dbl.val 3, Dbl.val 4, Dbl.val 5, Dbl.val 6] true [Dbl.nan] none =
      ([Dbl.val 1, Dbl.val 2, Dbl.val 3, Dbl.val 4, Dbl.val 5, Dbl.val 6],
        some (.invalid_argument "Design matrix is not finite.")) ∧
    LogisticRegressionIRLS.transitionStore dblPrim
      [Dbl.val 1, Dbl.val 2, Dbl.val 3, Dbl.val 4, Dbl.val 5, Dbl.val 6] true
      [Dbl.val 1, Dbl.val 1] none =
      ([Dbl.val 1, Dbl.val 2, Dbl.val 4, Dbl.val 4, Dbl.val 5, Dbl.val 6],
        some (.logic_error "matrix multiplication: incompatible matrix dimensions")) := by
  have h1 : dblPrim.isFinite 1 = true := rfl
  have hm1 : dblPrim.isFinite (-1) = true := rfl
  obtain ⟨g1, g2, _⟩ := C16_irls_guard dblPrim h1 hm1
    [Dbl.val 1, Dbl.val 2, Dbl.val 3, Dbl.val 4, Dbl.val 5, Dbl.val 6] true [Dbl.nan] none
  obtain ⟨msg, hmsg⟩ := g1.2 ⟨Dbl.nan, by simp, rfl⟩
  obtain ⟨e1, e2⟩ := g2 msg hmsg
  subst e1
  refine ⟨h1, hm1, e2, ?_⟩
  simp [LogisticRegressionIRLS.transitionStore, LogisticRegressionIRLS.transitionInit,
    LogisticRegressionIRLS.transitionStep, LogisticRegressionIRLS.State.numRows,
    LogisticRegressionIRLS.State.widthOfX, dblPrim, ratPrim, dbl_one, dbl_add_val]
  norm_num

end IRLSGuard

/-! ## Claim C11: a zero denominator in the CG step -/

section ZeroDenominator

variable {F : Type} [Zero F] [One F] [Add F] [Sub F] [Mul F] [Div F] [Neg F] [NatCast F]
  [LT F] [DecidableRel (fun a b : F => a < b)]

open LogisticRegressionCG in
theorem cg_final_step (P : Prim F) (w : ℕ) (m : List F) (hl : m.length = State.total w)
    (hw : State.widthOfX P m = w) :
    (final P m).length = m.length ∧ State.widthOfX P (final P m) = w ∧
    State.X_transp_AX w (final P m) = State.X_transp_AX w m ∧
    (final P m).getD 0 0 = m.getD 0 0 + 1 ∧
    State.coef w (final P m) = vadd (State.coef w m)
      (smul (dot (State.grad w (final P m)) (State.dir w (final P m)) /
        quadForm w (State.X_transp_AX w m) (State.dir w (final P m)))
        (State.dir w (final P m))) := by
  have ht := cg_toArray_fields hl
  have hs := cg_sized_fields hl
  have e1 : State.coef w m = (State.fields w m).coef := rfl
  have e3 : State.X_transp_AX w m = (State.fields w m).X_transp_AX := rfl
  have e0 : m.getD 0 0 = (State.fields w m).iteration := rfl
  rw [e1, e3, e0]
  generalize State.fields w m = f at ht hs ⊢
  subst ht
  obtain ⟨h1, h2, h3, h4, h5⟩ := cg_sized_iff.1 hs
  have kc : ∀ g : Fields F, g.Sized w → State.coef w g.toArray = g.coef :=
    fun g hg => cg_coef_toArray hg
  have kd : ∀ g : Fields F, g.Sized w → State.dir w g.toArray = g.dir :=
    fun g hg => cg_dir_toArray hg
  have kg : ∀ g : Fields F, g.Sized w → State.grad w g.toArray = g.grad :=
    fun g hg => cg_grad_toArray hg
  have kx : ∀ g : Fields F, g.Sized w → State.X_transp_AX w g.toArray = g.X_transp_AX :=
    fun g hg => cg_X_transp_AX_toArray hg
  have kl : ∀ g : Fields F, g.Sized w → g.toArray.length = State.total w :=
    fun g hg => cg_length_toArray hg
  have ki : ∀ g : Fields F, g.toArray.getD 0 0 = g.iteration := fun g => rfl
  by_cases hi : State.iteration P f.toArray = 0
  · rw [cg_final_zero P hs hw hi]
    have s3 : Fields.Sized w { f with
        iteration := f.iteration + 1
        coef := vadd f.coef (smul (dot f.gradNew f.gradNew /
          quadForm w f.X_transp_AX f.gradNew) f.gradNew)
        dir := f.gradNew
        grad := f.gradNew } :=
      cg_sized_iff.2 ⟨length_vadd h1 (by rw [length_smul, h4]), h4, h4, h4, h5⟩
    rw [kc _ s3, kd _ s3, kg _ s3, kx _ s3, kl _ s3, kl _ hs, ki, cg_widthOfX_toArray]
    exact ⟨rfl, hw, rfl, rfl, rfl⟩
  · rw [cg_final_succ P hs hw hi _ _ rfl rfl]
    have ld : (vsub f.gradNew (smul (if dot f.gradNew (vsub f.gradNew f.grad) /
        dot f.grad f.grad < 0 then 0 else dot f.gradNew (vsub f.gradNew f.grad) /
        dot f.dir (vsub f.gradNew f.grad)) f.dir)).length = w :=
      length_vsub h4 (by rw [length_smul, h2])
    generalize hd : vsub f.gradNew (smul (if dot f.gradNew (vsub f.gradNew f.grad) /
        dot f.grad f.grad < 0 then 0 else dot f.gradNew (vsub f.gradNew f.grad) /
        dot f.dir (vsub f.gradNew f.grad)) f.dir) = d at ld ⊢
    generalize (if dot f.gradNew (vsub f.gradNew f.grad) /
        dot f.grad f.grad < 0 then 0 else dot f.gradNew (vsub f.gradNew f.grad) /
        dot f.dir (vsub f.gradNew f.grad)) = b
    have s3 : Fields.Sized w { f with
        iteration := f.iteration + 1
        coef := vadd f.coef (smul (dot f.gradNew d / quadForm w f.X_transp_AX d) d)
        dir := d
        grad := f.gradNew
        beta := b } :=
      cg_sized_iff.2 ⟨length_vadd h1 (by rw [length_smul, ld]), ld, h4, h4, h5⟩
    rw [kc _ s3, kd _ s3, kg _ s3, kx _ s3, kl _ s3, kl _ hs, ki, cg_widthOfX_toArray]
    exact ⟨rfl, hw, rfl, rfl, rfl⟩

/-- Claim C11 fails as stated.  In the CG state `[0, 1, 5, 0, 0, 0, 1, 0, 0, 0]` of width 1
(`coef = [5]`, one row, `gradNew = [0]`, `X_transp_AX = [0]`) the new direction is `[0]`
and `dir^T * X_transp_AX * dir` is 0.  `final` raises nothing: it returns the state with
`iteration = 1` whose `coef` is `[nan]`, computed from the quotient `0 / 0`.  For the
all-zero state `[0, 0, 0, 0, 0]` it returns `[1, 0, 0, 0, 0]`. -/
theorem C11_counterexample :
    quadForm 1
      (LogisticRegressionCG.State.X_transp_AX 1 [0, 1, Dbl.val 5, 0, 0, 0, 1, 0, 0, 0])
      (LogisticRegressionCG.State.dir 1
        (LogisticRegressionCG.final dblPrim [0, 1, Dbl.val 5, 0, 0, 0, 1, 0, 0, 0])) = 0 ∧
    LogisticRegressionCG.final dblPrim [0, 1, Dbl.val 5, 0, 0, 0, 1, 0, 0, 0] =
      [1, 1, Dbl.nan, 0, 0, 0, 1, 0, 0, 0] ∧
    LogisticRegressionCG.final dblPrim [0, 0, 0, 0, 0] = [1, 0, 0, 0, 0] := by
  have e : LogisticRegressionCG.final dblPrim [0, 1, Dbl.val 5, 0, 0, 0, 1, 0, 0, 0] =
      [1, 1, Dbl.nan, 0, 0, 0, 1, 0, 0, 0] := by
    simp [LogisticRegressionCG.final, LogisticRegressionCG.State.iteration,
      LogisticRegressionCG.State.widthOfX, LogisticRegressionCG.State.gradNew,
      LogisticRegressionCG.State.grad, LogisticRegressionCG.State.dir,
      LogisticRegressionCG.State.coef, LogisticRegressionCG.State.X_transp_AX, setSlice, slice,
      vadd, smul, dot, quadForm, vecMat, col, dblPrim, ratPrim, dbl_zero, dbl_one, dbl_add_val,
      dbl_mul_val, dbl_div_val, dbl_nan_mul, dbl_add_nan, List.range, List.range.loop]
  refine ⟨?_, e, ?_⟩
  · rw [e]
    simp [LogisticRegressionCG.State.X_transp_AX, LogisticRegressionCG.State.dir, slice,
      dot, quadForm, vecMat, col, dbl_zero, dbl_add_val, dbl_mul_val, List.range,
      List.range.loop]
  · simp [LogisticRegressionCG.final, LogisticRegressionCG.State.iteration,
      LogisticRegressionCG.State.widthOfX, LogisticRegressionCG.State.gradNew,
      LogisticRegressionCG.State.grad, LogisticRegressionCG.State.dir,
      LogisticRegressionCG.State.coef, LogisticRegressionCG.State.X_transp_AX, setSlice, slice,
      vadd, smul, dot, quadForm, vecMat, col, dblPrim, ratPrim, dbl_zero, dbl_one, dbl_add_val,
      dbl_mul_val, dbl_div_val, dbl_nan_mul, dbl_add_nan, List.range, List.range.loop]

/-- Claim C11, amended.  For every CG state of width `w` (an array with the layout length
for `w`) for which the direction `d` that `final` stores satisfies
`d^T * X_transp_AX * d = 0`: `final` raises nothing and returns a state of the same length
and width, with `X_transp_AX` unchanged and `iteration` one more, whose `coef` is the old
`coef` plus `(grad . d) / 0` times `d`, with `grad` and `d` the new gradient and direction:
the quotient by zero is computed and stored. -/
theorem C11_final_zero_denominator (P : Prim F) (w : ℕ) (m : List F)
    (hl : m.length = LogisticRegressionCG.State.total w)
    (hw : LogisticRegressionCG.State.widthOfX P m = w)
    (hz : quadForm w (LogisticRegressionCG.State.X_transp_AX w m)
      (LogisticRegressionCG.State.dir w (LogisticRegressionCG.final P m)) = 0) :
    (LogisticRegressionCG.final P m).length = m.length ∧
    LogisticRegressionCG.State.widthOfX P (LogisticRegressionCG.final P m) = w ∧
    LogisticRegressionCG.State.X_transp_AX w (LogisticRegressionCG.final P m) =
      LogisticRegressionCG.State.X_transp_AX w m ∧
    (LogisticRegressionCG.final P m).getD 0 0 = m.getD 0 0 + 1 ∧
    LogisticRegressionCG.State.coef w (LogisticRegressionCG.final P m) =
      vadd (LogisticRegressionCG.State.coef w m)
        (smul (dot (LogisticRegressionCG.State.grad w (LogisticRegressionCG.final P m))
            (LogisticRegressionCG.State.dir w (LogisticRegressionCG.final P m)) / 0)
          (LogisticRegressionCG.State.dir w (LogisticRegressionCG.final P m))) := by
  have h := cg_final_step P w m hl hw
  rw [hz] at h
  exact h

/-- The amended claim C11 at the CG state `[0, 1, 5, 0, 0, 0, 1, 0, 0, 0]` of width 1, over
the numbers with `nan`. -/
theorem C11_final_zero_denominator_witness :
    ([0, 1, Dbl.val 5, 0, 0, 0, 1, 0, 0, 0] : List Dbl).length =
      LogisticRegressionCG.State.total 1 ∧
    LogisticRegressionCG.State.widthOfX dblPrim [0, 1, Dbl.val 5, 0, 0, 0, 1, 0, 0, 0] = 1 ∧
    quadForm 1
      (LogisticRegressionCG.State.X_transp_AX 1 [0, 1, Dbl.val 5, 0, 0, 0, 1, 0, 0, 0])
      (LogisticRegressionCG.State.dir 1
        (LogisticRegressionCG.final dblPrim [0, 1, Dbl.val 5, 0, 0, 0, 1, 0, 0, 0])) = 0 ∧
    (LogisticRegressionCG.final dblPrim [0, 1, Dbl.val 5, 0, 0, 0, 1, 0, 0, 0]).getD 0 0 =
      ([0, 1, Dbl.val 5, 0, 0, 0, 1, 0, 0, 0] : List Dbl).getD 0 0 + 1 := by
  have hw : LogisticRegressionCG.State.widthOfX dblPrim
      [0, 1, Dbl.val 5, 0, 0, 0, 1, 0, 0, 0] = 1 := by
    simp [LogisticRegressionCG.State.widthOfX, dblPrim, ratPrim, dbl_one]
  have hz : quadForm 1
      (LogisticRegressionCG.State.X_transp_AX 1 [0, 1, Dbl.val 5, 0, 0, 0, 1, 0, 0, 0])
      (LogisticRegressionCG.State.dir 1
        (LogisticRegressionCG.final dblPrim [0, 1, Dbl.val 5, 0, 0, 0, 1, 0, 0, 0])) = 0 := by
    simp [LogisticRegressionCG.final, LogisticRegressionCG.State.iteration,
      LogisticRegressionCG.State.widthOfX, LogisticRegressionCG.State.gradNew,
      LogisticRegressionCG.State.grad, LogisticRegressionCG.State.dir,
      LogisticRegressionCG.State.coef, LogisticRegressionCG.State.X_transp_AX, setSlice, slice,
      vadd, smul, dot, quadForm, vecMat, col, dblPrim, ratPrim, dbl_zero, dbl_one, dbl_add_val,
      dbl_mul_val, dbl_div_val, dbl_nan_mul, dbl_add_nan, List.range, List.range.loop]
  exact ⟨by decide, hw, hz,
    (C11_final_zero_denominator dblPrim 1 _ (by decide) hw hz).2.2.2.1⟩

end ZeroDenominator

/-! ## Matrices: products and inverses -/

section MatrixAlgebra

variable {K : Type} [LinearOrderedField K]

theorem ext_getD {a b : List K} {w : ℕ} (ha : a.length = w) (hb : b.length = w)
    (h : ∀ i, i < w → a.getD i 0 = b.getD i 0) : a = b := by
  apply List.ext_getElem (ha.trans hb.symm)
  intro i h1 h2
  have := h i (ha ▸ h1)
  rwa [List.getD_eq_getElem _ _ h1, List.getD_eq_getElem _ _ h2] at this

theorem getD_matVec (w : ℕ) (M v : List K) (hv : v.length = w) {i : ℕ} (hi : i < w) :
    (matVec w M v).getD i 0 = ∑ j ∈ Finset.range w, M.getD (i + j * w) 0 * v.getD j 0 := by
  unfold matVec
  rw [getD_map_range _ _ hi, dot_eq_sum _ _ w (by simp) hv]
  refine Finset.sum_congr rfl fun j hj => ?_
  rw [getD_map_range _ _ (Finset.mem_range.1 hj)]

theorem length_flatMap_const {α : Type} (l : List ℕ) (f : ℕ → List α) (n : ℕ)
    (hf : ∀ k, (f k).length = n) : (l.flatMap f).length = l.length * n := by
  induction l with
  | nil => simp
  | cons k l ih => simp [List.flatMap_cons, hf, ih, Nat.succ_mul, Nat.add_comm]

theorem length_matMul (w : ℕ) (A B : List K) : (matMul w A B).length = w * w := by
  unfold matMul
  rw [length_flatMap_const _ _ w (fun k => length_matVec w A _), List.length_range]

theorem length_identity (w : ℕ) : (identity w : List K).length = w * w := by
  unfold identity
  rw [length_flatMap_const _ _ w (fun k => by simp), List.length_range]

theorem getD_flatMap_range {α : Type} (f : ℕ → List α) (n w : ℕ)
    (hf : ∀ k, (f k).length = n) (i k : ℕ) (hi : i < n) (hk : k < w) (d : α) :
    ((List.range w).flatMap f).getD (i + k * n) d = (f k).getD i d := by
  induction w generalizing k with
  | zero => omega
  | succ w ih =>
    rw [List.range_succ, List.flatMap_append]
    have hl : ((List.range w).flatMap f).length = w * n := by
      rw [length_flatMap_const _ _ n hf, List.length_range]
    by_cases hkw : k < w
    · have hlt : i + k * n < ((List.range w).flatMap f).length := by
        rw [hl]
        calc i + k * n < n + k * n := by omega
          _ = (k + 1) * n := by ring
          _ ≤ w * n := Nat.mul_le_mul_right n hkw
      rw [List.getD_append _ _ _ _ hlt]
      exact ih k hkw
    · have hkw2 : k = w := by omega
      subst hkw2
      have hge : ((List.range k).flatMap f).length ≤ i + k * n := by
        rw [hl]
        omega
      rw [List.getD_append_right _ _ _ _ hge, hl]
      simp only [List.flatMap_cons, List.flatMap_nil, List.append_nil]
      congr 1
      omega

theorem getD_matMul (w : ℕ) (A B : List K) (hB : B.length = w * w) {i k : ℕ}
    (hi : i < w) (hk : k < w) :
    (matMul w A B).getD (i + k * w) 0 =
      ∑ j ∈ Finset.range w, A.getD (i + j * w) 0 * B.getD (j + k * w) 0 := by
  unfold matMul
  have hc : (col w B k).length = w := by
    unfold col
    apply length_slice
    rw [hB]
    calc k * w + w = (k + 1) * w := by ring
      _ ≤ w * w := Nat.mul_le_mul_right w hk
  rw [getD_flatMap_range _ w w (fun k => length_matVec w A _) i k hi hk, getD_matVec w A _ hc hi]
  refine Finset.sum_congr rfl fun j hj => ?_
  unfold col
  rw [getD_slice _ _ _ _ _ (Finset.mem_range.1 hj), Nat.add_comm (k * w) j]

theorem getD_identity (w : ℕ) {i k : ℕ} (hi : i < w) (hk : k < w) :
    (identity w : List K).getD (i + k * w) 0 = if i = k then 1 else 0 := by
  unfold identity
  rw [getD_flatMap_range _ w w (fun k => by simp) i k hi hk, getD_map_range _ _ hi]

theorem matVec_matVec (w : ℕ) (A B v : List K) (hB : B.length = w * w) (hv : v.length = w) :
    matVec w A (matVec w B v) = matVec w (matMul w A B) v := by
  apply ext_getD (length_matVec _ _ _) (length_matVec _ _ _)
  intro i hi
  rw [getD_matVec w A _ (length_matVec _ _ _) hi, getD_matVec w _ v hv hi]
  have h1 : ∀ j ∈ Finset.range w, A.getD (i + j * w) 0 * (matVec w B v).getD j 0 =
      ∑ k ∈ Finset.range w, A.getD (i + j * w) 0 * B.getD (j + k * w) 0 * v.getD k 0 := by
    intro j hj
    rw [getD_matVec w B v hv (Finset.mem_range.1 hj), Finset.mul_sum]
    exact Finset.sum_congr rfl fun k _ => by ring
  have h2 : ∀ k ∈ Finset.range w, (matMul w A B).getD (i + k * w) 0 * v.getD k 0 =
      ∑ j ∈ Finset.range w, A.getD (i + j * w) 0 * B.getD (j + k * w) 0 * v.getD k 0 := by
    intro k hk
    rw [getD_matMul w A B hB hi (Finset.mem_range.1 hk), Finset.sum_mul]
  rw [Finset.sum_congr rfl h1, Finset.sum_congr rfl h2, Finset.sum_comm]

theorem matVec_identity (w : ℕ) (v : List K) (hv : v.length = w) :
    matVec w (identity w) v = v := by
  apply ext_getD (length_matVec _ _ _) hv
  intro i hi
  rw [getD_matVec w _ v hv hi]
  have h1 : ∀ j ∈ Finset.range w, (identity w : List K).getD (i + j * w) 0 * v.getD j 0 =
      if i = j then v.getD j 0 else 0 := by
    intro j hj
    rw [getD_identity w hi (Finset.mem_range.1 hj)]
    split_ifs <;> simp
  rw [Finset.sum_congr rfl h1, Finset.sum_ite_eq (Finset.range w) i]
  simp [hi]

theorem inverse_matVec_left (w : ℕ) (M N v : List K) (h : IsInverse w M N)
    (hv : v.length = w) : matVec w N (matVec w M v) = v := by
  rw [matVec_matVec w N M v h.1 hv, h.2.2.2, matVec_identity w v hv]

theorem inverse_matVec_right (w : ℕ) (M N v : List K) (h : IsInverse w M N)
    (hv : v.length = w) : matVec w M (matVec w N v) = v := by
  rw [matVec_matVec w M N v h.2.1 hv, h.2.2.1, matVec_identity w v hv]

end MatrixAlgebra

/-! ## Claim C12: the IRLS final step -/

section IRLSFinal

variable {K : Type} [LinearOrderedField K]

open LogisticRegressionIRLS in
theorem irls_final_error_iff (P : Prim K) (s : List K) :
    ((∃ e, final P s = .error e) ↔
      (∃ t ∈ State.X_transp_AX (State.widthOfX P s) s, P.isFinite t = false) ∨
        ∃ t ∈ State.X_transp_Az (State.widthOfX P s) s, P.isFinite t = false) ∧
    (∀ e, final P s = .error e → e = .invalid_argument "Design matrix is not finite.") := by
  unfold final
  simp only []
  by_cases h : (!(State.X_transp_AX (State.widthOfX P s) s).all P.isFinite ||
      !(State.X_transp_Az (State.widthOfX P s) s).all P.isFinite) = true
  · rw [if_pos h]
    refine ⟨⟨fun _ => ?_, fun _ => ⟨_, rfl⟩⟩, fun e he => ?_⟩
    · simpa using h
    · cases he
      rfl
  · rw [if_neg h]
    refine ⟨⟨fun ⟨e, he⟩ => (by cases he), fun h2 => absurd ?_ h⟩, fun e he => (by cases he)⟩
    simpa using h2

open LogisticRegressionIRLS in
theorem irls_final_ok (P : Prim K) (w : ℕ) (s : List K) (hl : s.length = State.total w)
    (hw : State.widthOfX P s = w)
    (h1 : ∀ t ∈ State.X_transp_AX w s, P.isFinite t = true)
    (h2 : ∀ t ∈ State.X_transp_Az w s, P.isFinite t = true) :
    ∃ r, final P s = .ok r ∧
      State.fields w r = { State.fields w s with
        coef := matVec w (P.pinv w (State.X_transp_AX w s)) (State.X_transp_Az w s) } ∧
      r.length = s.length ∧ State.widthOfX P r = w ∧
      (IsInverse w (State.X_transp_AX w s) (P.pinv w (State.X_transp_AX w s)) →
        matVec w (State.X_transp_AX w s) (State.coef w r) = State.X_transp_Az w s) := by
  have ht := irls_toArray_fields hl
  have hs := irls_sized_fields hl
  have e1 : State.X_transp_AX w s = (State.fields w s).X_transp_AX := rfl
  have e2 : State.X_transp_Az w s = (State.fields w s).X_transp_Az := rfl
  rw [e1] at h1 ⊢
  rw [e2] at h2 ⊢
  generalize State.fields w s = f at ht hs h1 h2 ⊢
  subst ht
  obtain ⟨k1, k2, k3⟩ := irls_sized_iff.1 hs
  have hfin : (!f.X_transp_AX.all P.isFinite || !f.X_transp_Az.all P.isFinite) = false := by
    rw [List.all_eq_true.2 h1, List.all_eq_true.2 h2]
    rfl
  have s3 : Fields.Sized w { f with
      coef := matVec w (P.pinv w f.X_transp_AX) f.X_transp_Az } :=
    irls_sized_iff.2 ⟨length_matVec _ _ _, k2, k3⟩
  refine ⟨_, irls_final_toArray P hs hw hfin, irls_fields_toArray s3, ?_, ?_, ?_⟩
  · rw [irls_length_toArray s3, irls_length_toArray hs]
  · rw [irls_widthOfX_toArray]
    exact hw
  · intro hinv
    have kc : ∀ g : Fields K, g.Sized w → State.coef w g.toArray = g.coef :=
      fun g hg => irls_coef_toArray hg
    rw [kc _ s3]
    exact inverse_matVec_right w _ _ _ hinv k2

/-- Claim C12.  For every IRLS array `s` whose width reads as `w`: `final` raises an
exception if and only if an element of `X_transp_AX` or of `X_transp_Az` is not finite,
and the exception is then `invalid_argument("Design matrix is not finite.")`.  Otherwise,
for a state (an array with the layout length for `w`), `final` returns the state in which
`coef` is `pinv(X_transp_AX) * X_transp_Az` and every other field is unchanged; when
`pinv(X_transp_AX)` is the inverse of `X_transp_AX`, the new `coef` satisfies
`X_transp_AX * coef = X_transp_Az`.  The new `coef` does not depend on the old one. -/
theorem C12_irls_final (P : Prim K) (w : ℕ) (s : List K)
    (hw : LogisticRegressionIRLS.State.widthOfX P s = w) :
    ((∃ msg, LogisticRegressionIRLS.final P s = .error (.invalid_argument msg)) ↔
      (∃ t ∈ LogisticRegressionIRLS.State.X_transp_AX w s, P.isFinite t = false) ∨
        ∃ t ∈ LogisticRegressionIRLS.State.X_transp_Az w s, P.isFinite t = false) ∧
    (∀ e, LogisticRegressionIRLS.final P s = .error e →
      e = .invalid_argument "Design matrix is not finite.") ∧
    (s.length = LogisticRegressionIRLS.State.total w →
      (∀ t ∈ LogisticRegressionIRLS.State.X_transp_AX w s, P.isFinite t = true) →
      (∀ t ∈ LogisticRegressionIRLS.State.X_transp_Az w s, P.isFinite t = true) →
      ∃ r, LogisticRegressionIRLS.final P s = .ok r ∧
        LogisticRegressionIRLS.State.fields w r = { LogisticRegressionIRLS.State.fields w s with
          coef := matVec w (P.pinv w (LogisticRegressionIRLS.State.X_transp_AX w s))
            (LogisticRegressionIRLS.State.X_transp_Az w s) } ∧
        r.length = s.length ∧ LogisticRegressionIRLS.State.widthOfX P r = w ∧
        (IsInverse w (LogisticRegressionIRLS.State.X_transp_AX w s)
            (P.pinv w (LogisticRegressionIRLS.State.X_transp_AX w s)) →
          matVec w (LogisticRegressionIRLS.State.X_transp_AX w s)
            (LogisticRegressionIRLS.State.coef w r) =
              LogisticRegressionIRLS.State.X_transp_Az w s)) := by
  subst hw
  obtain ⟨g1, g2⟩ := irls_final_error_iff P s
  refine ⟨?_, g2, fun hl h1 h2 => irls_final_ok P _ s hl rfl h1 h2⟩
  rw [← g1]
  constructor
  · rintro ⟨msg, h⟩
    exact ⟨_, h⟩
  · rintro ⟨e, h⟩
    have := g2 e h
    subst this
    exact ⟨_, h⟩

/-- Claim C12 at the IRLS state `[1, 7, 3, 4, 1, 0]` of width 1 (`coef = [7]`, 3 rows,
`X_transp_Az = [4]`, `X_transp_AX = [1]`): `final` returns the state with `coef = [4]`, for
which `X_transp_AX * coef = X_transp_Az`. -/
theorem C12_irls_final_witness :
    LogisticRegressionIRLS.State.widthOfX ratPrim [1, 7, 3, 4, 1, 0] = 1 ∧
    ([1, 7, 3, 4, 1, 0] : List ℚ).length = LogisticRegressionIRLS.State.total 1 ∧
    IsInverse 1 (LogisticRegressionIRLS.State.X_transp_AX 1 [1, 7, 3, 4, 1, 0])
      (ratPrim.pinv 1 (LogisticRegressionIRLS.State.X_transp_AX 1 [1, 7, 3, 4, 1, 0])) ∧
    ∃ r, LogisticRegressionIRLS.final ratPrim [1, 7, 3, 4, 1, 0] = .ok r ∧
      LogisticRegressionIRLS.State.coef 1 r = [4] ∧
      matVec 1 (LogisticRegressionIRLS.State.X_transp_AX 1 [1, 7, 3, 4, 1, 0])
        (LogisticRegressionIRLS.State.coef 1 r) =
          LogisticRegressionIRLS.State.X_transp_Az 1 [1, 7, 3, 4, 1, 0] := by
  have hw : LogisticRegressionIRLS.State.widthOfX ratPrim [1, 7, 3, 4, 1, 0] = 1 := by
    simp [LogisticRegressionIRLS.State.widthOfX, ratPrim]
  have hi : IsInverse 1 (LogisticRegressionIRLS.State.X_transp_AX 1 [1, 7, 3, 4, 1, 0])
      (ratPrim.pinv 1 (LogisticRegressionIRLS.State.X_transp_AX 1 [1, 7, 3, 4, 1, 0])) := by
    simp [IsInverse, LogisticRegressionIRLS.State.X_transp_AX, ratPrim, slice, matMul, matVec,
      col, dot, identity, List.range, List.range.loop]
  obtain ⟨r, h1, h2, _, _, h5⟩ :=
    (C12_irls_final ratPrim 1 [1, 7, 3, 4, 1, 0] hw).2.2 (by decide)
      (fun _ _ => rfl) (fun _ _ => rfl)
  refine ⟨hw, by decide, hi, r, h1, ?_, h5 hi⟩
  have h3 : LogisticRegressionIRLS.State.coef 1 r =
      (LogisticRegressionIRLS.State.fields 1 r).coef := rfl
  rw [h3, h2]
  simp [LogisticRegressionIRLS.State.X_transp_AX, LogisticRegressionIRLS.State.X_transp_Az,
    ratPrim, slice, matVec, dot, List.range, List.range.loop]

end IRLSFinal

/-! ## Claim C13: the IRLS fixed point -/

section FixedPoint

variable {K : Type} [LinearOrderedField K]

theorem getD_map_mul (x : List K) (f : K → K) (hf : f 0 = 0) (i : ℕ) :
    (x.map f).getD i 0 = f (x.getD i 0) := by
  by_cases hi : i < x.length
  · rw [List.getD_eq_getElem _ _ (by simpa using hi), List.getD_eq_getElem _ _ hi]
    simp
  · rw [List.getD_eq_default _ _ (by simpa using not_lt.1 hi),
      List.getD_eq_default _ _ (not_lt.1 hi), hf]

theorem getD_matVec_outer (w : ℕ) (a : K) (x c : List K) (hx : x.length = w)
    (hc : c.length = w) {i : ℕ} (hi : i < w) :
    (matVec w (outer a x) c).getD i 0 = x.getD i 0 * a * dot x c := by
  rw [getD_matVec w _ c hc hi, dot_eq_sum x c w hx hc, Finset.mul_sum]
  refine Finset.sum_congr rfl fun j hj => ?_
  have hj2 : j < x.length := hx ▸ Finset.mem_range.1 hj
  have h := getD_outer a x i j (hx ▸ hi) hj2
  rw [hx] at h
  rw [h]
  ring

/-- One row of the IRLS accumulation keeps `X_transp_Az = X_transp_AX * c + score`. -/
theorem irls_rhs_step (P : Prim K) (hexp : ∀ t : K, 0 < P.exp t) (w : ℕ) (c : List K)
    (hc : c.length = w) (Az AX sc x : List K) (hAz : Az.length = w)
    (hAX : AX.length = w * w) (hsc : sc.length = w) (hx : x.length = w) (y : K)
    (h : Az = vadd (matVec w AX c) sc) :
    vadd Az (x.map (fun xi => xi * (sigma P (dot x c) * sigma P (-dot x c)) *
        (dot x c + sigma P (-y * dot x c) * y / (sigma P (dot x c) * sigma P (-dot x c))))) =
      vadd (matVec w (vadd AX (outer (sigma P (dot x c) * sigma P (-dot x c)) x)) c)
        (vadd sc (smul (sigma P (-y * dot x c) * y) x)) := by
  have ha : sigma P (dot x c) * sigma P (-dot x c) ≠ 0 :=
    ne_of_gt (mul_pos (sigma_pos P hexp _) (sigma_pos P hexp _))
  generalize sigma P (dot x c) * sigma P (-dot x c) = a at ha ⊢
  generalize sigma P (-y * dot x c) * y = t
  have lo : (outer a x).length = w * w := by rw [length_outer, hx]
  have l1 : (x.map (fun xi => xi * a * (dot x c + t / a))).length = w := by simpa using hx
  have l2 : (smul t x).length = w := by rw [length_smul, hx]
  have l3 : (vadd AX (outer a x)).length = w * w := length_vadd hAX lo
  apply ext_getD (length_vadd hAz l1)
    (length_vadd (length_matVec _ _ _) (length_vadd hsc l2))
  intro i hi
  rw [getD_vadd _ _ (hAz.trans l1.symm), getD_vadd _ _
    ((length_matVec _ _ _).trans (length_vadd hsc l2).symm), getD_vadd _ _ (hsc.trans l2.symm),
    h, getD_vadd _ _ ((length_matVec _ _ _).trans hsc.symm), getD_smul,
    getD_map_mul x _ (by simp) i, getD_matVec w _ c hc hi, getD_matVec w _ c hc hi]
  have e : ∀ j ∈ Finset.range w, (vadd AX (outer a x)).getD (i + j * w) 0 * c.getD j 0 =
      AX.getD (i + j * w) 0 * c.getD j 0 + (outer a x).getD (i + j * w) 0 * c.getD j 0 := by
    intro j _
    rw [getD_vadd _ _ (hAX.trans lo.symm)]
    ring
  rw [Finset.sum_congr rfl e, Finset.sum_add_distrib, ← getD_matVec w (outer a x) c hc hi,
    getD_matVec_outer w a x c hx hc hi]
  field_simp
  ring

open LogisticRegressionIRLS in
theorem irls_fold_rhs (P : Prim K) (hexp : ∀ t : K, 0 < P.exp t) (w : ℕ) (c : List K)
    (hc : c.length = w) (rows : List (Bool × List K)) (hx : ∀ q ∈ rows, q.2.length = w)
    (g : Fields K) (hg : g.Sized w) (hgc : g.coef = c) (sc : List K) (hsc : sc.length = w)
    (h : g.X_transp_Az = vadd (matVec w g.X_transp_AX c) sc) :
    (rows.foldl (Fields.step P) g).X_transp_Az =
      vadd (matVec w (rows.foldl (Fields.step P) g).X_transp_AX c)
        (rows.foldl (fun acc row =>
          vadd acc (smul (sigma P (-(if row.1 then 1 else -1) * dot row.2 c) *
            (if row.1 then 1 else -1)) row.2)) sc) := by
  induction rows generalizing g sc with
  | nil => exact h
  | cons row rows ih =>
    rw [List.foldl_cons, List.foldl_cons]
    have hr : row.2.length = w := hx row (List.mem_cons_self _ _)
    obtain ⟨k1, k2, k3⟩ := irls_sized_iff.1 hg
    have la : (row.2.map (fun xi => xi * (sigma P (dot row.2 c) * sigma P (-dot row.2 c)) *
        (dot row.2 c + sigma P (-(if row.1 then 1 else -1) * dot row.2 c) *
          (if row.1 then 1 else -1) /
          (sigma P (dot row.2 c) * sigma P (-dot row.2 c))))).length = w := by
      simpa using hr
    apply ih (fun q hq => hx q (List.mem_cons_of_mem _ hq))
    · apply irls_sized_iff.2
      refine ⟨k1, ?_, ?_⟩
      · show (vadd g.X_transp_Az _).length = w
        rw [hgc]
        exact length_vadd k2 la
      · show (vadd g.X_transp_AX _).length = w * w
        exact length_vadd k3 (by rw [length_outer, hr])
    · exact hgc
    · exact length_vadd hsc (by rw [length_smul, hr])
    · show vadd g.X_transp_Az _ = vadd (matVec w (vadd g.X_transp_AX _) c) _
      rw [hgc]
      exact irls_rhs_step P hexp w c hc _ _ sc row.2 k2 k3 hsc hr _ h

theorem matVec_zeros (w : ℕ) (c : List K) (hc : c.length = w) :
    matVec w (zeros (w * w)) c = zeros w := by
  apply ext_getD (length_matVec _ _ _) (length_zeros _)
  intro i hi
  rw [getD_matVec w _ c hc hi, getD_zeros]
  exact Finset.sum_eq_zero fun j _ => by rw [getD_zeros, zero_mul]

open LogisticRegressionIRLS in
theorem irls_init_ok {w : ℕ} {m : List K} (h : State.init w = .ok m) :
    w ≤ 46339 ∧ m.length = State.total w := by
  unfold State.init at h
  split_ifs at h with h1 h2
  have hw : w ≤ 46339 := by
    by_contra hc
    exact h2 (irls_index_none (by omega))
  refine ⟨hw, ?_⟩
  injection h with h
  subst h
  simp [State.reset, irls_arraySize_eq (show w ≤ 65534 by omega)]

open LogisticRegressionIRLS in
theorem irls_accumulate_width (P : Prim K) (hP : ∀ n : ℕ, P.toNat (n : K) = n) (w n : ℕ)
    (row : Bool × List K) (rows : List (Bool × List K)) (hr : row.2.length = w)
    (p s : List K) (hp : p.length = State.total w)
    (h : accumulateFrom P (some p) (zeros n) (row :: rows) = .ok s) : w ≤ 46339 := by
  by_contra hw
  have hP0 : P.toNat 0 = 0 := by simpa using hP 0
  have h0 := irls_numRows_zeros P hP0 n (State.widthOfX P (zeros n : List K))
  have he : ∃ e, transitionInit P (zeros n) row.2 (some p) = .error e := by
    unfold transitionInit
    rw [if_pos h0]
    cases hi : (State.init (row.2.length % 2 ^ 16) : Except Error (List K)) with
    | error e => exact ⟨e, rfl⟩
    | ok m =>
      obtain ⟨hb, hl⟩ := irls_init_ok hi
      simp only [State.assign]
      rw [if_neg]
      · exact ⟨_, rfl⟩
      · rw [hl, hp]
        intro ht
        have hv := irls_total_injective ht
        omega
  obtain ⟨e, he⟩ := he
  unfold accumulateFrom transition at h
  simp only [he] at h
  split_ifs at h

open LogisticRegressionIRLS in
theorem irls_fixed_point (P : Prim K) (hP : ∀ n : ℕ, P.toNat (n : K) = n)
    (hfin : ∀ t : K, P.isFinite t = true) (hexp : ∀ t : K, 0 < P.exp t) (w n : ℕ)
    (row : Bool × List K) (rows : List (Bool × List K))
    (hx : ∀ q ∈ row :: rows, q.2.length = w) (p : List K) (hp : State.Valid P w p)
    (hw : w ≤ 46339) :
    ∃ s, accumulateFrom P (some p) (zeros n) (row :: rows) = .ok s ∧
      State.X_transp_Az w s = vadd (matVec w (State.X_transp_AX w s) (State.coef w p))
        (score P w (State.coef w p) (row :: rows)) ∧
      (score P w (State.coef w p) (row :: rows) = zeros w →
        IsInverse w (State.X_transp_AX w s) (P.pinv w (State.X_transp_AX w s)) →
        ∃ r, final P s = .ok r ∧ State.coef w r = State.coef w p) := by
  have hP0 : P.toNat 0 = 0 := by simpa using hP 0
  have h0 := irls_numRows_zeros P hP0 n (State.widthOfX P (zeros n : List K))
  obtain ⟨f, hf, hwf, _, rfl, _⟩ := irls_valid_elim P hp
  obtain ⟨k1, k2, k3⟩ := irls_sized_iff.1 hf
  obtain ⟨a1, a2, a3⟩ := irls_accumulate_first P hP hfin (some f.toArray) f hf hwf (zeros n)
    (fun x hx => irls_transitionInit_some P _ x hf h0 hx hw) row rows hx
  have hc : State.coef w f.toArray = f.coef := irls_coef_toArray hf
  rw [hc]
  have hs : Fields.Sized w (Fields.reset w f) :=
    irls_sized_iff.2 ⟨k1, length_zeros _, length_zeros _⟩
  have hrhs := irls_fold_rhs P hexp w f.coef k1 (row :: rows) hx (Fields.reset w f) hs rfl
    (zeros w) (length_zeros _) (by
      show zeros w = vadd (matVec w (zeros (w * w)) f.coef) (zeros w)
      rw [matVec_zeros w f.coef k1, vadd_zeros_right_of_length _ (length_zeros _)])
  generalize List.foldl (Fields.step P) (Fields.reset w f) (row :: rows) = G at a1 a2 a3 hrhs
  obtain ⟨g1, g2, _⟩ := a2
  obtain ⟨j1, j2, j3⟩ := irls_sized_iff.1 g1
  refine ⟨_, a1, ?_, ?_⟩
  · rw [irls_X_transp_Az_toArray g1, irls_X_transp_AX_toArray g1]
    exact hrhs
  · intro hsc hinv
    rw [irls_X_transp_AX_toArray g1] at hinv
    have hwG : State.widthOfX P G.toArray = w := by
      rw [irls_widthOfX_toArray]
      exact g2
    obtain ⟨r, r1, r2, _⟩ := irls_final_ok P w G.toArray (irls_length_toArray g1) hwG
      (fun _ _ => hfin _) (fun _ _ => hfin _)
    refine ⟨r, r1, ?_⟩
    have e : State.coef w r = (State.fields w r).coef := rfl
    rw [e, r2]
    show matVec w (P.pinv w (State.X_transp_AX w G.toArray)) (State.X_transp_Az w G.toArray) = _
    rw [irls_X_transp_Az_toArray g1, irls_X_transp_AX_toArray g1, hrhs]
    have hsc2 : List.foldl (fun acc row =>
        vadd acc (smul (sigma P (-(if row.1 then 1 else -1) * dot row.2 f.coef) *
          (if row.1 then 1 else -1)) row.2)) (zeros w) (row :: rows) = zeros w := hsc
    rw [hsc2, vadd_zeros_right_of_length _ (length_matVec _ _ _)]
    exact inverse_matVec_left w _ _ _ hinv k1

/-- Claim C13.  In exact arithmetic (every value finite, `exp` positive), for every
non-empty list of rows whose feature vectors have `w` elements and every valid previous
state `p` of width `w`, with `c` the `coef` of `p`: folding the IRLS `transition` over the
rows from an all-zero state, with `p` supplied in every call, returns a state when `w` is at
most 46339; and for every state `s` it returns, `X_transp_Az` is `X_transp_AX * c` plus the
score at `c`, so that when the score is zero and `pinv(X_transp_AX)` is the inverse of
`X_transp_AX`, `final` returns a state whose `coef` is `c`. -/
theorem C13_fixed_point (P : Prim K) (hP : ∀ n : ℕ, P.toNat (n : K) = n)
    (hfin : ∀ t : K, P.isFinite t = true) (hexp : ∀ t : K, 0 < P.exp t) (w n : ℕ)
    (row : Bool × List K) (rows : List (Bool × List K))
    (hx : ∀ q ∈ row :: rows, q.2.length = w) (p : List K)
    (hp : LogisticRegressionIRLS.State.Valid P w p) :
    (w ≤ 46339 →
      ∃ s, LogisticRegressionIRLS.accumulateFrom P (some p) (zeros n) (row :: rows) = .ok s) ∧
    ∀ s, LogisticRegressionIRLS.accumulateFrom P (some p) (zeros n) (row :: rows) = .ok s →
      LogisticRegressionIRLS.State.X_transp_Az w s =
        vadd (matVec w (LogisticRegressionIRLS.State.X_transp_AX w s)
            (LogisticRegressionIRLS.State.coef w p))
          (score P w (LogisticRegressionIRLS.State.coef w p) (row :: rows)) ∧
      (score P w (LogisticRegressionIRLS.State.coef w p) (row :: rows) = zeros w →
        IsInverse w (LogisticRegressionIRLS.State.X_transp_AX w s)
          (P.pinv w (LogisticRegressionIRLS.State.X_transp_AX w s)) →
        ∃ r, LogisticRegressionIRLS.final P s = .ok r ∧
          LogisticRegressionIRLS.State.coef w r = LogisticRegressionIRLS.State.coef w p) := by
  constructor
  · intro hw
    obtain ⟨s, h, _⟩ := irls_fixed_point P hP hfin hexp w n row rows hx p hp hw
    exact ⟨s, h⟩
  · intro s hs
    have hw := irls_accumulate_width P hP w n row rows (hx row (List.mem_cons_self _ _)) p s
      hp.1 hs
    obtain ⟨t, h1, h2, h3⟩ := irls_fixed_point P hP hfin hexp w n row rows hx p hp hw
    rw [hs] at h1
    injection h1 with h1
    subst h1
    exact ⟨h2, h3⟩

/-- Claim C13 for four rows of width 1, `(true, [1])` and `(false, [1])` twice, and the
previous state `[1, 0, 0, 0, 0, 0]` with `coef = [0]`: the score at `[0]` is zero, the
accumulated state is `[1, 0, 4, 0, 1, -4]` with `X_transp_AX = [1]`, and `final` returns a
state with `coef = [0]`. -/
theorem C13_fixed_point_witness :
    (∀ n : ℕ, ratPrim.toNat (n : ℚ) = n) ∧ (∀ t : ℚ, ratPrim.isFinite t = true) ∧
    (∀ t : ℚ, 0 < ratPrim.exp t) ∧
    LogisticRegressionIRLS.State.Valid ratPrim 1 [1, 0, 0, 0, 0, 0] ∧
    LogisticRegressionIRLS.accumulateFrom ratPrim (some [1, 0, 0, 0, 0, 0]) (zeros 3)
      [(true, [1]), (false, [1]), (true, [1]), (false, [1])] = .ok [1, 0, 4, 0, 1, -4] ∧
    score ratPrim 1 (LogisticRegressionIRLS.State.coef 1 [1, 0, 0, 0, 0, 0])
      [(true, [1]), (false, [1]), (true, [1]), (false, [1])] = zeros 1 ∧
    ∃ r, LogisticRegressionIRLS.final ratPrim [1, 0, 4, 0, 1, -4] = .ok r ∧
      LogisticRegressionIRLS.State.coef 1 r =
        LogisticRegressionIRLS.State.coef 1 [1, 0, 0, 0, 0, 0] := by
  have hP : ∀ n : ℕ, ratPrim.toNat (n : ℚ) = n := fun n => by simp [ratPrim]
  have hfin : ∀ t : ℚ, ratPrim.isFinite t = true := fun _ => rfl
  have hexp : ∀ t : ℚ, 0 < ratPrim.exp t := fun t => by
    show 0 < 1 + t * t
    nlinarith [mul_self_nonneg t]
  have hv : LogisticRegressionIRLS.State.Valid ratPrim 1 [1, 0, 0, 0, 0, 0] :=
    ⟨by decide, by simp [LogisticRegressionIRLS.State.widthOfX, ratPrim], 0, by simp⟩
  have ha : LogisticRegressionIRLS.accumulateFrom ratPrim (some [1, 0, 0, 0, 0, 0]) (zeros 3)
      [(true, [1]), (false, [1]), (true, [1]), (false, [1])] = .ok [1, 0, 4, 0, 1, -4] := by
    simp [LogisticRegressionIRLS.accumulateFrom, LogisticRegressionIRLS.transition,
      LogisticRegressionIRLS.transitionInit, LogisticRegressionIRLS.transitionStep,
      LogisticRegressionIRLS.State.init, LogisticRegressionIRLS.State.assign,
      LogisticRegressionIRLS.State.reset, LogisticRegressionIRLS.State.arraySize,
      LogisticRegressionIRLS.State.total, LogisticRegressionIRLS.State.logLikelihoodIndex,
      intIndex, LogisticRegressionIRLS.State.numRows,
      LogisticRegressionIRLS.State.widthOfX, LogisticRegressionIRLS.State.coef,
      LogisticRegressionIRLS.State.X_transp_Az, LogisticRegressionIRLS.State.X_transp_AX,
      LogisticRegressionIRLS.State.logLikelihood, ratPrim, setSlice, slice, zeros, dot, vadd,
      outer, sigma, List.replicate]
    norm_num [LogisticRegressionIRLS.transitionStep, LogisticRegressionIRLS.State.coef,
      LogisticRegressionIRLS.State.X_transp_Az, LogisticRegressionIRLS.State.X_transp_AX,
      LogisticRegressionIRLS.State.logLikelihood, setSlice, slice, dot, vadd, outer]
  have hs : score ratPrim 1 (LogisticRegressionIRLS.State.coef 1 [1, 0, 0, 0, 0, 0])
      [(true, [1]), (false, [1]), (true, [1]), (false, [1])] = zeros 1 := by
    simp [score, LogisticRegressionIRLS.State.coef, ratPrim, slice, zeros, dot, vadd, smul,
      sigma, List.replicate]
  have hi : IsInverse 1 (LogisticRegressionIRLS.State.X_transp_AX 1 [1, 0, 4, 0, 1, -4])
      (ratPrim.pinv 1 (LogisticRegressionIRLS.State.X_transp_AX 1 [1, 0, 4, 0, 1, -4])) := by
    simp [IsInverse, LogisticRegressionIRLS.State.X_transp_AX, ratPrim, slice, matMul, matVec,
      col, dot, identity, List.range, List.range.loop]
  exact ⟨hP, hfin, hexp, hv, ha, hs,
    ((C13_fixed_point ratPrim hP hfin hexp 1 3 (true, [1])
      [(false, [1]), (true, [1]), (false, [1])] (by simp) [1, 0, 0, 0, 0, 0] hv).2 _ ha).2
      hs hi⟩

end FixedPoint

/-! ## Claim C21: the buffer length wraps for the largest widths -/

section ArraySize

theorem cg_arraySize_iff (w : ℕ) :
    (w ≤ 65535 ∧ LogisticRegressionCG.State.arraySize w = LogisticRegressionCG.State.total w) ↔
      w ≤ 65533 := by
  constructor
  · rintro ⟨_, h⟩
    by_contra hw
    have h1 : LogisticRegressionCG.State.arraySize w < 2 ^ 32 := Nat.mod_lt _ (by norm_num)
    have h2 : 65534 * 65534 ≤ w * w := Nat.mul_le_mul (by omega) (by omega)
    rw [h, LogisticRegressionCG.State.total] at h1
    omega
  · intro hw
    exact ⟨by omega, cg_arraySize_eq hw⟩

theorem irls_arraySize_iff (w : ℕ) :
    (w ≤ 65535 ∧
        LogisticRegressionIRLS.State.arraySize w = LogisticRegressionIRLS.State.total w) ↔
      w ≤ 65534 := by
  constructor
  · rintro ⟨_, h⟩
    by_contra hw
    have h1 : LogisticRegressionIRLS.State.arraySize w < 2 ^ 32 := Nat.mod_lt _ (by norm_num)
    have h2 : 65535 * 65535 ≤ w * w := Nat.mul_le_mul (by omega) (by omega)
    rw [h, LogisticRegressionIRLS.State.total] at h1
    omega
  · intro hw
    exact ⟨by omega, irls_arraySize_eq hw⟩

/-- Claim C21 fails on the code.  With the arithmetic of `arraySize` taken modulo `2^32`:
the CG `arraySize(65534)` is 1 and `arraySize(65535)` is 131074, while the layout needs
`5 + w * w + 4 * w` elements, 4294967297 and 4295098370; the IRLS `arraySize(65535)` is 2,
while the layout needs 4294967298.  Among the widths `w <= 65535`, `arraySize(w)` is the
layout length exactly for `w <= 65533` (CG) and for `w <= 65534` (IRLS).  For the other
widths `initialize` binds the fields outside the allocated storage. -/
theorem C21_arraySize_wraps :
    LogisticRegressionCG.State.arraySize 65534 = 1 ∧
    LogisticRegressionCG.State.total 65534 = 4294967297 ∧
    LogisticRegressionCG.State.arraySize 65535 = 131074 ∧
    LogisticRegressionCG.State.total 65535 = 4295098370 ∧
    LogisticRegressionIRLS.State.arraySize 65535 = 2 ∧
    LogisticRegressionIRLS.State.total 65535 = 4294967298 ∧
    (∀ w : ℕ, (w ≤ 65535 ∧
        LogisticRegressionCG.State.arraySize w = LogisticRegressionCG.State.total w) ↔
      w ≤ 65533) ∧
    (∀ w : ℕ, (w ≤ 65535 ∧
        LogisticRegressionIRLS.State.arraySize w = LogisticRegressionIRLS.State.total w) ↔
      w ≤ 65534) ∧
    (LogisticRegressionCG.State.init 65534 : Except Error (List ℚ)) =
      .error (.undefined_behaviour "state layout exceeds the allocated storage") ∧
    (LogisticRegressionIRLS.State.init 65535 : Except Error (List ℚ)) =
      .error (.undefined_behaviour "state layout exceeds the allocated storage") := by
  have a1 : LogisticRegressionCG.State.arraySize 65534 = 1 := by
    norm_num [LogisticRegressionCG.State.arraySize]
  have a2 : LogisticRegressionCG.State.total 65534 = 4294967297 := by
    norm_num [LogisticRegressionCG.State.total]
  have a3 : LogisticRegressionIRLS.State.arraySize 65535 = 2 := by
    norm_num [LogisticRegressionIRLS.State.arraySize]
  have a4 : LogisticRegressionIRLS.State.total 65535 = 4294967298 := by
    norm_num [LogisticRegressionIRLS.State.total]
  refine ⟨a1, a2, by norm_num [LogisticRegressionCG.State.arraySize],
    by norm_num [LogisticRegressionCG.State.total], a3, a4, cg_arraySize_iff,
    irls_arraySize_iff, ?_, ?_⟩
  · rw [LogisticRegressionCG.State.init, a1, a2, if_pos (by norm_num)]
  · rw [LogisticRegressionIRLS.State.init, a3, a4, if_pos (by norm_num)]

end ArraySize

/-! ## Claim C18: log-likelihoods that are not numbers -/

section DistanceNaN

end DistanceNaN

end madlib.modules.regress
